import Mathlib

/-!
Verification development for `trunk/c/nauty/outproc.c`.

The file `outproc.c` connects the output of the `makeg` graph generator with the
planarity-related graph algorithms.  Each generated graph arrives as a bit matrix
(`graph *g`, one machine word per row); `TransferGraph` copies it into the graph
library's structure, `runTest` runs one algorithm, checks the integrity of the
result and keeps statistics, `outprocTest` drives this for one candidate and
`Test_PrintStats` prints the report and releases the test framework.

The graph library itself (`gp_*`), the test framework allocation (`tf_*`) and the
headers are not part of the file.  The library is a parameter of the embedding
(`GraphLib`); undefined behaviour of the C code (a NULL dereference, an access
outside an array) is the result `none`.
-/

namespace Outproc

/-! ## Constants of the missing headers -/

/-- Return code `OK` of the graph library (a macro of a header that is not part of
the file).  The development only uses that the three codes are pairwise distinct. -/
def OK : Int := 1

/-- Return code `NOTOK` of the graph library. -/
def NOTOK : Int := 0

/-- Return code `NONEMBEDDABLE` of the graph library. -/
def NONEMBEDDABLE : Int := -1

/-- The constant `MAXN` defined at the head of `outproc.c`. -/
def MAXN : Nat := 16

/-- The embedding modes `EMBEDFLAGS_*` that `runTest` passes to `gp_Embed`. -/
inductive EmbedFlags where
  | PLANAR
  | DRAWPLANAR
  | OUTERPLANAR
  | SEARCHFORK23
  | SEARCHFORK33
  | SEARCHFORK4
  deriving DecidableEq, Repr

/-- Modelled from the spec: the string `commands` of the test framework, which is
declared in the missing header `testFramework.h`.  It is the closed set of
algorithm selectors in the order of the label table: planarity, drawing,
outerplanarity, K2,3 search, K3,3 search, K4 search, vertex coloring. -/
def commands : List Char := ['p', 'd', 'o', '2', '3', '4', 'c']

/-- The C library function `strchr(s, c) != NULL`: `c` occurs in `s`, or `c` is the
terminating NUL character. -/
def strchr (s : List Char) (c : Char) : Bool :=
  s.contains c || c == Char.ofNat 0

/-! ## The graph library as a parameter -/

/-- The operations of the graph library used by `outproc.c`, over an arbitrary type
`G` of graph structures.  An operation that changes its first argument returns the
new graph; an operation with a return code returns the code first. -/
structure GraphLib (G : Type) where
  /-- The call `gp_ReinitializeGraph(theGraph)`. -/
  gp_ReinitializeGraph : G → G
  /-- The store `theGraph->G[i].v = i`. -/
  setVertexV : G → Nat → G
  /-- The call `gp_AddEdge(theGraph, u, ulink, v, vlink)`. -/
  gp_AddEdge : G → Nat → Nat → Nat → Nat → Int × G
  /-- The call `gp_GetArcCapacity(theGraph)`. -/
  gp_GetArcCapacity : G → Nat
  /-- The call `gp_CopyAdjacencyLists(dstGraph, srcGraph)`. -/
  gp_CopyAdjacencyLists : G → G → Int × G
  /-- The call `gp_CopyGraph(dstGraph, srcGraph)`. -/
  gp_CopyGraph : G → G → Int × G
  /-- The call `gp_ColorVertices(theGraph)`. -/
  gp_ColorVertices : G → Int × G
  /-- The call `gp_ColorVerticesIntegrityCheck(theGraph, origGraph)`. -/
  gp_ColorVerticesIntegrityCheck : G → G → Int × G
  /-- The call `gp_GetNumColorsUsed(theGraph)`. -/
  gp_GetNumColorsUsed : G → Int
  /-- The call `gp_Embed(theGraph, embedFlags)`. -/
  gp_Embed : G → EmbedFlags → Int × G
  /-- The call `gp_SortVertices(theGraph)`. -/
  gp_SortVertices : G → G
  /-- The call `gp_TestEmbedResultIntegrity(theGraph, origGraph, embedResult)`. -/
  gp_TestEmbedResultIntegrity : G → G → Int → Int × G
  /-- The field `theGraph->M`, the number of edges. -/
  M : G → Nat
  /-- The pair `(theGraph, origGraph)` that the test framework allocates for one
  selector and `n` vertices, `none` when the allocation fails. -/
  newGraphs : Char → Nat → Option (G × G)

/-! ## `TransferGraph` -/

/-- Lines 117-141 of `TransferGraph`: the value of `ErrorCode` at the `break`, after
`gp_AddEdge` returned `ErrorCode != OK` and left the graph `theGraph`. -/
def addEdgeFailure {G : Type} (lib : GraphLib G) (theGraph : G) (n : Nat) (ErrorCode : Int) : Int :=
  if ErrorCode = NONEMBEDDABLE then
    if lib.gp_GetArcCapacity theGraph / 2 = n * (n - 1) / 2 then NOTOK else OK
  else ErrorCode

/-- The inner loop `for (j = i+1; j < n; j++)` of `TransferGraph`, lines 112-146.  The
first argument is the number `n - j` of iterations that remain. -/
def transferRow {G : Type} (lib : GraphLib G) (n i row : Nat) :
    Nat → Nat → Nat → Int → G → Int × G
  | 0, _, _, ErrorCode, theGraph => (ErrorCode, theGraph)
  | k + 1, j, PO2, ErrorCode, theGraph =>
    if row &&& PO2 ≠ 0 then
      let r := lib.gp_AddEdge theGraph i 0 j 0
      if r.1 ≠ OK then (addEdgeFailure lib r.2 n r.1, r.2)
      else transferRow lib n i row k (j + 1) (PO2 >>> 1) r.1 r.2
    else transferRow lib n i row k (j + 1) (PO2 >>> 1) ErrorCode theGraph

/-- The outer loop `for (i = 0, ErrorCode = OK; i < n-1 && ErrorCode==OK; i++)` of
`TransferGraph`, lines 105-147.  The first argument is the number `n - 1 - i` of
values of `i` that remain. -/
def transferRows {G : Type} (lib : GraphLib G) (g : Nat → Nat) (n : Nat) :
    Nat → Nat → Int → G → Int × G
  | 0, _, ErrorCode, theGraph => (ErrorCode, theGraph)
  | k + 1, i, ErrorCode, theGraph =>
    if ErrorCode = OK then
      let G1 := lib.setVertexV theGraph i
      let PO2 := (1 <<< (MAXN - 1)) >>> (i + 1)
      let r := transferRow lib n i (g i) (n - (i + 1)) (i + 1) PO2 ErrorCode G1
      transferRows lib g n k (i + 1) r.1 r.2
    else (ErrorCode, theGraph)

/-- The function `TransferGraph(theGraph, g, n)`: the return code and the graph it
leaves.  The rows `g[i]` are read as natural numbers. -/
def TransferGraph {G : Type} (lib : GraphLib G) (theGraph : G) (g : Nat → Nat) (n : Nat) : Int × G :=
  transferRows lib g n (n - 1) 0 OK (lib.gp_ReinitializeGraph theGraph)

/-! ## The test framework and the state of the harness -/

/-- The pair of counters `numGraphs`, `numOKs` (both `unsigned long`) kept for the
grand total and for each number of edges. -/
structure baseTestResult where
  numGraphs : Nat
  numOKs : Nat
  deriving DecidableEq, Repr

/-- One entry `algResults[i]` of the test framework: the selector, the grand total
`result`, the counters `edgeResults[m]` per number of edges, the scratch graph
`theGraph` and the original graph `origGraph`. -/
structure testResult (G : Type) where
  command : Char
  result : baseTestResult
  edgeResults : List baseTestResult
  theGraph : G
  origGraph : G

/-- The test framework; `algResultsSize` is the length of `algResults`. -/
structure testResultFramework (G : Type) where
  algResults : List (testResult G)

/-- What the harness writes: the messages printed to the stream, with the text of the
source in the comments, and the files. -/
inductive Event (G : Type) where
  /-- The message "Unable to create the test framework." -/
  | unableToCreate
  /-- The message "Failed to initialize with generated graph in errorMatrix.txt". -/
  | failedToInitialize
  /-- The message "Failed to copy adjacency lists". -/
  | failedToCopyAdjacencyLists
  /-- The message "See error.txt and errorMatrix.txt". -/
  | seeErrorFiles
  /-- The message "Exceeded maximum number of supported graphs". -/
  | exceededMaximum
  /-- The message "Failed to copy graph #%lu". -/
  | failedToCopyGraph (num : Nat)
  /-- The message "Integrity check failed on graph #%lu.". -/
  | integrityCheckFailed (num : Nat)
  /-- The message "Failed to runTest() on graph #%lu.". -/
  | failedToRunTest (num : Nat)
  /-- The progress output "\r%lu " of `outprocTest`. -/
  | progress (num : Nat)
  /-- The output "\r%lu \n" at the start of `Test_PrintStats`. -/
  | finalCount (num : Nat)
  /-- The file written by `WriteMatrixGraph`, line by line. -/
  | matrixFile (filename : String) (lines : List String)
  /-- The file written by `gp_Write(theGraph, filename, WRITE_ADJLIST)`. -/
  | graphFile (filename : String) (theGraph : G)
  /-- The line "Begin Stats for Algorithm %s". -/
  | statsBegin (msgAlg : Option String)
  /-- The line "Status=%s". -/
  | statsStatus (status : String)
  /-- The line "maxn=%d, mine=%d, maxe=%d". -/
  | statsParams (maxn : Int) (mine maxe : Nat)
  /-- The line "mod=%d, res=%d". -/
  | statsMod (mod res : Int)
  /-- The two heading lines of the table. -/
  | statsHeader (msgOK msgNoEmbed : Option String)
  /-- One row "%7d  %10lu  %10lu  %10lu" of the table. -/
  | statsRow (j numGraphs numOKs numNoEmbeds : Nat)
  /-- The row "TOTALS   %10lu  %10lu  %10lu". -/
  | statsTotals (numGraphs numOKs numNoEmbeds : Nat)
  /-- The line "End Stats for Algorithm %s". -/
  | statsEnd (msgAlg : Option String)

/-- The variables of the other translation units that `outproc.c` reads, the macro
`DEBUG`, and the width in bits of `unsigned long`. -/
structure Env where
  g_command : Char
  g_maxn : Int
  g_mine : Nat
  g_maxe : Nat
  g_mod : Int
  g_res : Int
  quietMode : Char
  unittestMode : Int
  DEBUG : Bool
  ulongBits : Nat

/-- The variables that `outproc.c` owns, and everything written so far (`out`, in
the order of writing). -/
structure Harness (G : Type) where
  testFramework : Option (testResultFramework G)
  errorFound : Int
  unittestNumGraphs : Nat
  unittestNumOKs : Nat
  out : List (Event G)

/-- The state at program start: `testFramework = NULL`, `errorFound = 0`. -/
def Harness.init (G : Type) : Harness G :=
  { testFramework := none, errorFound := 0, unittestNumGraphs := 0, unittestNumOKs := 0, out := [] }

/-- The increment `++x` of an `unsigned long`. -/
def ulongIncr (env : Env) (x : Nat) : Nat := (x + 1) % 2 ^ env.ulongBits

/-- The difference `x - y` of two `unsigned long`. -/
def ulongSub (env : Env) (x y : Nat) : Nat := (x + 2 ^ env.ulongBits - y % 2 ^ env.ulongBits) % 2 ^ env.ulongBits

/-- Modelled from the spec: the initialisation of one AlgorithmResult by the test
framework (`testFramework.c` is not part of the file): counters zero, buckets for
the edge counts `0..maxe`, the two graphs sized for `n` vertices. -/
def tf_initTestResult {G : Type} (lib : GraphLib G) (command : Char) (n maxe : Nat) : Option (testResult G) :=
  match lib.newGraphs command n with
  | none => none
  | some p => some { command := command, result := ⟨0, 0⟩,
                     edgeResults := List.replicate (maxe + 1) ⟨0, 0⟩,
                     theGraph := p.1, origGraph := p.2 }

/-- Modelled from the spec: the entries allocated for a list of selectors, `none`
when one allocation fails. -/
def tf_allocResults {G : Type} (lib : GraphLib G) (n maxe : Nat) : List Char → Option (List (testResult G))
  | [] => some []
  | c :: cs =>
    match tf_initTestResult lib c n maxe, tf_allocResults lib n maxe cs with
    | some r, some rs => some (r :: rs)
    | _, _ => none

/-- Modelled from the spec: `tf_AllocateTestFramework(command, n, maxe)` of the
missing `testFramework.c`: one AlgorithmResult per member of the active selector
set, which is the whole of `commands` for the selector `a` and the selector itself
otherwise; `none` (NULL) when the allocation fails. -/
def tf_AllocateTestFramework {G : Type} (lib : GraphLib G) (command : Char) (n maxe : Nat) :
    Option (testResultFramework G) :=
  match tf_allocResults lib n maxe (if command = 'a' then commands else [command]) with
  | none => none
  | some rs => some ⟨rs⟩

/-- Modelled from the spec: `tf_GetTestResult(framework, command)` of the missing
`testFramework.c`, as the index in `algResults` of the AlgorithmResult of the
selector `command`; `none` (NULL) when there is none. -/
def tf_GetTestResult {G : Type} : List (testResult G) → Char → Option Nat
  | [], _ => none
  | r :: rs, command =>
    if r.command = command then some 0
    else match tf_GetTestResult rs command with
      | none => none
      | some i => some (i + 1)

/-! ## `WriteMatrixGraph` -/

/-- The upper-case hexadecimal digits of `x`, least significant first; `k` bounds
their number. -/
def hexDigitsRev : Nat → Nat → List Char
  | 0, _ => []
  | k + 1, x => if x = 0 then [] else (Nat.digitChar (x % 16)).toUpper :: hexDigitsRev k (x / 16)

/-- The output of the conversion `%04X` for the value `x`. -/
def hex04X (x : Nat) : String :=
  let ds := (hexDigitsRev (x + 1) x).reverse
  String.mk (List.replicate (4 - ds.length) '0' ++ ds)

/-- The function `WriteMatrixGraph(filename, g, n)`: `n` in decimal, then the rows of
the adjacency matrix in hexadecimal. -/
def WriteMatrixGraph {G : Type} (filename : String) (g : Nat → Nat) (n : Nat) : Event G :=
  Event.matrixFile filename (toString n :: (List.range n).map (fun i => hex04X (g i)))

/-! ## `runTest` -/

/-- What `runTest` leaves behind for the entry it works on: the value of `Result`
at the end, the entry, `errorFound`, and the messages printed, in order. -/
structure RunOutcome (G : Type) where
  Result : Int
  testResult : testResult G
  errorFound : Int
  msgs : List (Event G)

/-- The `switch` of lines 284-292: the embedding mode of a selector. -/
def embedFlagsOf (command : Char) : EmbedFlags :=
  if command = 'p' then EmbedFlags.PLANAR
  else if command = 'd' then EmbedFlags.DRAWPLANAR
  else if command = 'o' then EmbedFlags.OUTERPLANAR
  else if command = '2' then EmbedFlags.SEARCHFORK23
  else if command = '3' then EmbedFlags.SEARCHFORK33
  else if command = '4' then EmbedFlags.SEARCHFORK4
  else EmbedFlags.PLANAR

/-- Lines 262-307 of `runTest`: run the algorithm of `command` on `theGraph` and check
the integrity of its result.  Returns `Result`, the scratch graph and the messages
printed; `num` is the value of `testResult->result.numGraphs`. -/
def runAlgorithm {G : Type} (lib : GraphLib G) (command : Char) (num : Nat) (theGraph origGraph : G) :
    Int × G × List (Event G) :=
  if command = 'c' then
    let c := lib.gp_ColorVertices theGraph
    if c.1 ≠ OK then (NOTOK, c.2, [])
    else
      let k := lib.gp_ColorVerticesIntegrityCheck c.2 origGraph
      if k.1 ≠ OK then (NOTOK, k.2, [Event.integrityCheckFailed num])
      else if lib.gp_GetNumColorsUsed k.2 ≥ 6 then (NONEMBEDDABLE, k.2, [])
      else (c.1, k.2, [])
  else if strchr commands command then
    let e := lib.gp_Embed theGraph (embedFlagsOf command)
    if e.1 = OK ∨ e.1 = NONEMBEDDABLE then
      let k := lib.gp_TestEmbedResultIntegrity (lib.gp_SortVertices e.2) origGraph e.1
      if k.1 ≠ e.1 then (NOTOK, k.2, [Event.integrityCheckFailed num])
      else (e.1, k.2, [])
    else (e.1, e.2, [])
  else (NOTOK, theGraph, [])

/-- Lines 309-324 of `runTest`: the counters after a test with result `Result`.  The
access `edgeResults[origGraph->M]` outside the array is `none`. -/
def tally {G : Type} (env : Env) (lib : GraphLib G) (r : testResult G) (Result : Int) : Option (testResult G) :=
  match r.edgeResults[lib.M r.origGraph]? with
  | none => none
  | some b =>
    if Result = OK then
      some { r with result := { r.result with numOKs := ulongIncr env r.result.numOKs },
                    edgeResults := r.edgeResults.set (lib.M r.origGraph)
                      ⟨ulongIncr env b.numGraphs, ulongIncr env b.numOKs⟩ }
    else
      some { r with edgeResults := r.edgeResults.set (lib.M r.origGraph)
                      ⟨ulongIncr env b.numGraphs, b.numOKs⟩ }

/-- The body of `runTest` on the entry `testResult` that `tf_GetTestResult` returned. -/
def runTestOn {G : Type} (env : Env) (lib : GraphLib G) (command : Char) (r : testResult G)
    (errorFound : Int) : Option (RunOutcome G) :=
  let r1 : testResult G := { r with result := { r.result with numGraphs := ulongIncr env r.result.numGraphs } }
  if r1.result.numGraphs = 0 then
    some ⟨NOTOK, r1, 1, [Event.exceededMaximum]⟩
  else
    let c := lib.gp_CopyGraph r1.theGraph r1.origGraph
    if c.1 ≠ OK then
      some ⟨NOTOK, { r1 with theGraph := c.2 }, errorFound + 1, [Event.failedToCopyGraph r1.result.numGraphs]⟩
    else
      let a := runAlgorithm lib command r1.result.numGraphs c.2 r1.origGraph
      match tally env lib { r1 with theGraph := a.2.1 } a.1 with
      | none => none
      | some r2 =>
        if a.1 = OK ∨ a.1 = NONEMBEDDABLE then some ⟨a.1, r2, errorFound, a.2.2⟩
        else some ⟨a.1, r2, errorFound + 1, a.2.2 ++ [Event.failedToRunTest r1.result.numGraphs]⟩

/-- The function `runTest(msgfile, command)`: the return value and the new state;
`none` when `tf_GetTestResult` returns NULL or a counter outside `edgeResults` is
accessed. -/
def runTest {G : Type} (env : Env) (lib : GraphLib G) (s : Harness G) (command : Char) :
    Option (Int × Harness G) :=
  match s.testFramework with
  | none => none
  | some fw =>
    match tf_GetTestResult fw.algResults command with
    | none => none
    | some i =>
      match fw.algResults[i]? with
      | none => none
      | some r =>
        match runTestOn env lib command r s.errorFound with
        | none => none
        | some o =>
          some (if o.Result = OK ∨ o.Result = NONEMBEDDABLE then OK else NOTOK,
                { s with testFramework := some ⟨fw.algResults.set i o.testResult⟩,
                         errorFound := o.errorFound,
                         out := s.out ++ o.msgs })

/-! ## `outprocTest` -/

/-- The loop of lines 188-198: for `i = 1 .. strlen(commands) - 1` reinitialise
`algResults[i].origGraph` and copy the adjacency lists of `algResults[0].origGraph`
into it.  The first argument is the number of values of `i` that remain; the
boolean tells whether every copy returned `OK`. -/
def copyAdjacencyLoop {G : Type} (lib : GraphLib G) :
    Nat → Nat → List (testResult G) → Option (Bool × List (testResult G))
  | 0, _, rs => some (true, rs)
  | k + 1, i, rs =>
    match rs[i]?, rs[0]? with
    | some ri, some r0 =>
      let c := lib.gp_CopyAdjacencyLists (lib.gp_ReinitializeGraph ri.origGraph) r0.origGraph
      let rs1 := rs.set i { ri with origGraph := c.2 }
      if c.1 ≠ OK then some (false, rs1) else copyAdjacencyLoop lib k (i + 1) rs1
    | _, _ => none

/-- Lines 209-211 and 219-221: what `outprocTest` writes when `runTest` failed. -/
def reportFailure {G : Type} (s : Harness G) (g : Nat → Nat) (n : Nat) : Option (Harness G) :=
  match s.testFramework with
  | none => none
  | some fw =>
    match fw.algResults[0]? with
    | none => none
    | some r0 =>
      some { s with out := s.out ++ [Event.seeErrorFiles, Event.graphFile "error.txt" r0.origGraph,
                                     WriteMatrixGraph "errorMatrix.txt" g n] }

/-- The loop of lines 206-213: run the tests of the selectors that remain, stopping
at the first one that fails. -/
def runAllTests {G : Type} (env : Env) (lib : GraphLib G) (g : Nat → Nat) (n : Nat) :
    List Char → Harness G → Option (Harness G)
  | [], s => some s
  | c :: cs, s =>
    match runTest env lib s c with
    | none => none
    | some (rc, s1) =>
      if rc ≠ OK then reportFailure s1 g n else runAllTests env lib g n cs s1

/-- Lines 225-235: the progress output. -/
def printProgress {G : Type} (env : Env) (s : Harness G) : Option (Harness G) :=
  if env.quietMode = 'n' then
    match s.testFramework with
    | none => none
    | some fw =>
      match fw.algResults[0]? with
      | none => none
      | some r0 =>
        if env.DEBUG ∨ r0.result.numGraphs % 379 = 0 then
          some { s with out := s.out ++ [Event.progress r0.result.numGraphs] }
        else some s
  else some s

/-- Lines 201-235 of `outprocTest`: run the test or tests, then print the progress. -/
def runTests {G : Type} (env : Env) (lib : GraphLib G) (s : Harness G) (g : Nat → Nat) (n : Nat) :
    Option (Harness G) :=
  if env.g_command = 'a' then
    match runAllTests env lib g n commands s with
    | none => none
    | some s1 => printProgress env s1
  else
    match runTest env lib s env.g_command with
    | none => none
    | some (rc, s1) =>
      if rc ≠ OK then
        match reportFailure s1 g n with
        | none => none
        | some s2 => printProgress env s2
      else printProgress env s1

/-- Lines 160-168 of `outprocTest`: create the test framework on the first call. -/
def acquireFramework {G : Type} (env : Env) (lib : GraphLib G) (s : Harness G) (n : Nat) : Harness G :=
  match s.testFramework with
  | some _ => s
  | none =>
    match tf_AllocateTestFramework lib env.g_command n env.g_maxe with
    | some fw => { s with testFramework := some fw }
    | none => { s with errorFound := s.errorFound + 1, out := s.out ++ [Event.unableToCreate] }

/-- Lines 184-235 of `outprocTest`, after the graph was transferred: in all mode copy
the adjacency lists to the other entries, then run the test or tests. -/
def afterTransfer {G : Type} (env : Env) (lib : GraphLib G) (s : Harness G) (g : Nat → Nat) (n : Nat) :
    Option (Harness G) :=
  if env.g_command = 'a' then
    match s.testFramework with
    | none => none
    | some fw =>
      match copyAdjacencyLoop lib (commands.length - 1) 1 fw.algResults with
      | none => none
      | some (ok, rs2) =>
        if ok then runTests env lib { s with testFramework := some ⟨rs2⟩ } g n
        else some { s with testFramework := some ⟨rs2⟩, errorFound := s.errorFound + 1,
                           out := s.out ++ [Event.failedToCopyAdjacencyLists] }
  else runTests env lib s g n

/-- Lines 173-235 of `outprocTest`, with the test framework `fw` in place: transfer the
candidate into `algResults[0].origGraph`, report a failure of the transfer, and go on
otherwise. -/
def processCandidate {G : Type} (env : Env) (lib : GraphLib G) (s : Harness G)
    (fw : testResultFramework G) (g : Nat → Nat) (n : Nat) : Option (Harness G) :=
  match fw.algResults with
  | [] => none
  | r0 :: rest =>
    let t := TransferGraph lib r0.origGraph g n
    let rs1 := { r0 with origGraph := t.2 } :: rest
    if t.1 ≠ OK then
      some { s with testFramework := some ⟨rs1⟩, errorFound := s.errorFound + 1,
                    out := s.out ++ [Event.failedToInitialize, WriteMatrixGraph "errorMatrix.txt" g n] }
    else afterTransfer env lib { s with testFramework := some ⟨rs1⟩ } g n

/-- The function `outprocTest(f, g, n)`, called by the generator once per candidate.
The result is `none` when the C code dereferences NULL or leaves an array. -/
def outprocTest {G : Type} (env : Env) (lib : GraphLib G) (s : Harness G) (g : Nat → Nat) (n : Nat) :
    Option (Harness G) :=
  if s.errorFound ≠ 0 then some s
  else
    let s1 := acquireFramework env lib s n
    if s1.errorFound ≠ 0 then some s1
    else
      match s1.testFramework with
      | none => none
      | some fw => processCandidate env lib s1 fw g n

/-! ## The report -/

/-- The function `getMessages(command, &msgAlg, &msgOK, &msgNoEmbed)`; `none` is NULL. -/
def getMessages (command : Char) : Option String × Option String × Option String :=
  if command = 'p' then (some "Planarity", some "Planar", some "Not Planar")
  else if command = 'd' then (some "Planar Drawing", some "Planar", some "Not Planar")
  else if command = 'o' then (some "Outerplanarity", some "Embedded", some "Obstructed")
  else if command = '2' then (some "K2,3 Search", some "no K2,3", some "with K2,3")
  else if command = '3' then (some "K3,3 Search", some "no K3,3", some "with K3,3")
  else if command = '4' then (some "K4 Search", some "no K4", some "with K4")
  else if command = 'c' then (some "Vertex Coloring", some "<=5 colors", some ">5 colors")
  else (none, none, none)

/-- The loop of lines 367-373: the rows for `j = g_mine .. g_maxe`.  The first
argument is the number of rows that remain. -/
def statsRows {G : Type} (env : Env) (edgeResults : List baseTestResult) :
    Nat → Nat → Option (List (Event G))
  | 0, _ => some []
  | k + 1, j =>
    match edgeResults[j]?, statsRows env edgeResults k (j + 1) with
    | some b, some rows =>
      some (Event.statsRow j b.numGraphs b.numOKs (ulongSub env b.numGraphs b.numOKs) :: rows)
    | _, _ => none

/-- The function `printStats(msgfile, testResult)`: the lines it prints. -/
def printStats {G : Type} (env : Env) (errorFound : Int) (r : testResult G) : Option (List (Event G)) :=
  let m := getMessages r.command
  match statsRows env r.edgeResults (env.g_maxe + 1 - env.g_mine) env.g_mine with
  | none => none
  | some rows =>
    some ([Event.statsBegin m.1,
           Event.statsStatus (if errorFound ≠ 0 then "ERROR" else "SUCCESS"),
           Event.statsParams env.g_maxn env.g_mine env.g_maxe]
          ++ (if env.g_mod > 1 then [Event.statsMod env.g_mod env.g_res] else [])
          ++ [Event.statsHeader m.2.1 m.2.2]
          ++ rows
          ++ [Event.statsTotals r.result.numGraphs r.result.numOKs
                (ulongSub env r.result.numGraphs r.result.numOKs),
              Event.statsEnd m.1])

/-- The loop of lines 401-402: `printStats` for every entry of `algResults`. -/
def printAllStats {G : Type} (env : Env) (errorFound : Int) : List (testResult G) → Option (List (Event G))
  | [] => some []
  | r :: rs =>
    match printStats env errorFound r, printAllStats env errorFound rs with
    | some a, some b => some (a ++ b)
    | _, _ => none

/-- The function `Test_PrintStats(msgfile)`, called by the generator at the end of the
run.  Every path through it reads a field of `*testFramework`, so the result is
`none` when `testFramework` is NULL; it is also `none` when `algResults[0]` is read
and does not exist, or `printStats` leaves `edgeResults`. -/
def Test_PrintStats {G : Type} (env : Env) (s : Harness G) : Option (Harness G) :=
  match s.testFramework with
  | none => none
  | some fw =>
    match (if env.quietMode = 'n' then
             (fw.algResults[0]?).map (fun r0 => s.out ++ [Event.finalCount r0.result.numGraphs])
           else some s.out),
          (if env.unittestMode ≠ 0 then
             (fw.algResults[0]?).map (fun r0 => (r0.result.numGraphs, r0.result.numOKs))
           else some (s.unittestNumGraphs, s.unittestNumOKs)),
          (if env.g_command = 'a' then printAllStats env s.errorFound fw.algResults
           else (fw.algResults[0]?).bind (fun r0 => printStats env s.errorFound r0)) with
    | some out1, some u, some lines =>
      some { testFramework := none, errorFound := 0, unittestNumGraphs := u.1,
             unittestNumOKs := u.2, out := out1 ++ lines }
    | _, _, _ => none

/-! ## Observing the calls of the library -/

/-- A call of the graph library that changes a graph, with its return code. -/
inductive LibCall where
  | reinitialize
  | setVertexV (i : Nat)
  | addEdge (u ulink v vlink : Nat) (ret : Int)
  | copyAdjacencyLists (ret : Int)
  | copyGraph (ret : Int)
  | colorVertices (ret : Int)
  | colorVerticesIntegrityCheck (ret : Int)
  | embed (flags : EmbedFlags) (ret : Int)
  | sortVertices
  | testEmbedResultIntegrity (embedResult ret : Int)
  deriving DecidableEq, Repr

/-- The library `lib` with a log: every graph carries the list of the calls made on
it, oldest first.  The calls themselves are those of `lib`. -/
def traced {G : Type} (lib : GraphLib G) : GraphLib (G × List LibCall) where
  gp_ReinitializeGraph := fun x => (lib.gp_ReinitializeGraph x.1, x.2 ++ [LibCall.reinitialize])
  setVertexV := fun x i => (lib.setVertexV x.1 i, x.2 ++ [LibCall.setVertexV i])
  gp_AddEdge := fun x u ulink v vlink =>
    let r := lib.gp_AddEdge x.1 u ulink v vlink
    (r.1, (r.2, x.2 ++ [LibCall.addEdge u ulink v vlink r.1]))
  gp_GetArcCapacity := fun x => lib.gp_GetArcCapacity x.1
  gp_CopyAdjacencyLists := fun x y =>
    let r := lib.gp_CopyAdjacencyLists x.1 y.1
    (r.1, (r.2, x.2 ++ [LibCall.copyAdjacencyLists r.1]))
  gp_CopyGraph := fun x y =>
    let r := lib.gp_CopyGraph x.1 y.1
    (r.1, (r.2, x.2 ++ [LibCall.copyGraph r.1]))
  gp_ColorVertices := fun x =>
    let r := lib.gp_ColorVertices x.1
    (r.1, (r.2, x.2 ++ [LibCall.colorVertices r.1]))
  gp_ColorVerticesIntegrityCheck := fun x y =>
    let r := lib.gp_ColorVerticesIntegrityCheck x.1 y.1
    (r.1, (r.2, x.2 ++ [LibCall.colorVerticesIntegrityCheck r.1]))
  gp_GetNumColorsUsed := fun x => lib.gp_GetNumColorsUsed x.1
  gp_Embed := fun x flags =>
    let r := lib.gp_Embed x.1 flags
    (r.1, (r.2, x.2 ++ [LibCall.embed flags r.1]))
  gp_SortVertices := fun x => (lib.gp_SortVertices x.1, x.2 ++ [LibCall.sortVertices])
  gp_TestEmbedResultIntegrity := fun x y embedResult =>
    let r := lib.gp_TestEmbedResultIntegrity x.1 y.1 embedResult
    (r.1, (r.2, x.2 ++ [LibCall.testEmbedResultIntegrity embedResult r.1]))
  M := fun x => lib.M x.1
  newGraphs := fun c n =>
    match lib.newGraphs c n with
    | none => none
    | some p => some ((p.1, []), (p.2, []))

/-- The pairs `(u, v)` of the `gp_AddEdge` calls in a log, in order. -/
def edgeRequests : List LibCall → List (Nat × Nat)
  | [] => []
  | LibCall.addEdge u _ v _ _ :: cs => (u, v) :: edgeRequests cs
  | _ :: cs => edgeRequests cs

/-! ## The bit matrix -/

/-- The columns `j` with `i < j < n` whose bit `1 << (15 - j)` is set in `row`, in
increasing order. -/
def rowColumns (n i row : Nat) : List Nat :=
  (List.range n).filter (fun j => i < j ∧ row &&& (1 <<< (15 - j)) ≠ 0)

/-- The set bits of the upper triangle of the bit matrix `g`: the pairs `(i, j)` with
`i < j < n` and bit `1 << (15 - j)` set in row `i`, in increasing order. -/
def upperTriangle (g : Nat → Nat) (n : Nat) : List (Nat × Nat) :=
  (List.range n).flatMap (fun i => (rowColumns n i (g i)).map (fun j => (i, j)))

/-- The columns that the inner loop visits from `j` on, `k` of them, and whose bit is
set under the mask the loop computes. -/
def maskColumns (row j k : Nat) : List Nat :=
  (List.range' j k).filter (fun c => row &&& ((1 <<< (MAXN - 1)) >>> c) ≠ 0)

/-- The calls that `TransferGraph` makes for row `i` when every insertion succeeds. -/
def rowCalls (i : Nat) (cols : List Nat) : List LibCall :=
  cols.map (fun c => LibCall.addEdge i 0 c 0 OK)

/-- The calls that the outer loop of `TransferGraph` makes from row `i` on, for `k`
rows, when every insertion succeeds. -/
def transferCalls (g : Nat → Nat) (n i k : Nat) : List LibCall :=
  (List.range' i k).flatMap (fun r => LibCall.setVertexV r :: rowCalls r (rowColumns n r (g r)))

/-- Every insertion recorded in a log returned `OK`. -/
def allInsertionsOK (tr : List LibCall) : Prop :=
  ∀ u ul v vl ret, LibCall.addEdge u ul v vl ret ∈ tr → ret = OK

/-- The order of the pairs `(i, j)`: by row, then by column. -/
def pairLt (a b : Nat × Nat) : Prop := a.1 < b.1 ∨ (a.1 = b.1 ∧ a.2 < b.2)

/-- The number of set bits of `x`; the first argument bounds the number of digits. -/
def popcountAux : Nat → Nat → Nat
  | 0, _ => 0
  | k + 1, x => if x = 0 then 0 else x % 2 + popcountAux k (x / 2)

/-- The number of set bits of `x`. -/
def popcount (x : Nat) : Nat := popcountAux x x

/-! ## A model of the working graph -/

/-- Modelled from the spec: the WorkingGraph, of which the harness sees the number of
vertices, the arc capacity and the edges inserted so far (two arcs per edge). -/
structure WorkingGraph where
  N : Nat
  arcCapacity : Nat
  edges : List (Nat × Nat)
  deriving DecidableEq, Repr

/-- The degree of the vertex `v`: the number of edge ends at `v`. -/
def WorkingGraph.degree (W : WorkingGraph) (v : Nat) : Nat :=
  (W.edges.filter (fun e => e.1 = v)).length + (W.edges.filter (fun e => e.2 = v)).length

/-- Modelled from the spec: the graph library on `WorkingGraph`, which is not part of
the file.  Reinitialisation resets the graph to empty with the same capacity; an
edge insertion is refused with `NONEMBEDDABLE` exactly when the graph already holds
as many edges as its arc capacity allows; the copies are exact.  The algorithms and
their integrity checks are the parameters: `embed` is the result of `gp_Embed`,
`check` the value that the integrity check of an embedding returns for an expected
result, `colors` the number of colors used, and `copy` the return code of
`gp_CopyGraph`. -/
def modelLib (embed : EmbedFlags → WorkingGraph → Int) (check : WorkingGraph → Int → Int)
    (colors : WorkingGraph → Int) (copy : Int) : GraphLib WorkingGraph where
  gp_ReinitializeGraph := fun W => { W with edges := [] }
  setVertexV := fun W _ => W
  gp_AddEdge := fun W u _ v _ =>
    if W.edges.length ≥ W.arcCapacity / 2 then (NONEMBEDDABLE, W)
    else (OK, { W with edges := W.edges ++ [(u, v)] })
  gp_GetArcCapacity := fun W => W.arcCapacity
  gp_CopyAdjacencyLists := fun W src => (OK, { W with edges := src.edges })
  gp_CopyGraph := fun W src => if copy = OK then (OK, src) else (copy, W)
  gp_ColorVertices := fun W => (OK, W)
  gp_ColorVerticesIntegrityCheck := fun W _ => (OK, W)
  gp_GetNumColorsUsed := colors
  gp_Embed := fun W flags => (embed flags W, W)
  gp_SortVertices := fun W => W
  gp_TestEmbedResultIntegrity := fun W orig r => (check orig r, W)
  M := fun W => W.edges.length
  newGraphs := fun _ n =>
    some ({ N := n, arcCapacity := n * (n - 1), edges := [] },
          { N := n, arcCapacity := n * (n - 1), edges := [] })

/-- The library keeps the arc capacity of a graph through the calls that
`TransferGraph` makes. -/
def keepsCapacity {G : Type} (lib : GraphLib G) : Prop :=
  (∀ x, lib.gp_GetArcCapacity (lib.gp_ReinitializeGraph x) = lib.gp_GetArcCapacity x) ∧
  (∀ x i, lib.gp_GetArcCapacity (lib.setVertexV x i) = lib.gp_GetArcCapacity x) ∧
  (∀ x u v, lib.gp_GetArcCapacity (lib.gp_AddEdge x u 0 v 0).2 = lib.gp_GetArcCapacity x)

/-- No insertion recorded in a log was refused with `NONEMBEDDABLE`. -/
def noRefusal (tr : List LibCall) : Prop :=
  ∀ u ul v vl, LibCall.addEdge u ul v vl NONEMBEDDABLE ∉ tr

/-- Every insertion recorded in a log returned `OK` or was refused with
`NONEMBEDDABLE`. -/
def onlyRefusals (tr : List LibCall) : Prop :=
  ∀ u ul v vl ret, LibCall.addEdge u ul v vl ret ∈ tr → ret = OK ∨ ret = NONEMBEDDABLE

/-- The entry of the selector `command` in a list of entries, as `tf_GetTestResult`
finds it. -/
def getEntry {G : Type} (rs : List (testResult G)) (command : Char) : Option (testResult G) :=
  match tf_GetTestResult rs command with
  | none => none
  | some i => rs[i]?

/-- The entry of the selector `command` in the framework of a state. -/
def Harness.entry {G : Type} (s : Harness G) (command : Char) : Option (testResult G) :=
  match s.testFramework with
  | none => none
  | some fw => getEntry fw.algResults command

/-- The calls `outprocTest(f, g, n)` for a list of candidates `(g, n)`, one after the
other. -/
def outprocTests {G : Type} (env : Env) (lib : GraphLib G) :
    Harness G → List ((Nat → Nat) × Nat) → Option (Harness G)
  | s, [] => some s
  | s, c :: cs =>
    match outprocTest env lib s c.1 c.2 with
    | none => none
    | some s1 => outprocTests env lib s1 cs

/-- The field `M` counts the edges: it is 0 after `gp_ReinitializeGraph`, is kept by the
store of a vertex label, and grows by one with every successful `gp_AddEdge`. -/
def countsEdges {G : Type} (lib : GraphLib G) : Prop :=
  (∀ x, lib.M (lib.gp_ReinitializeGraph x) = 0) ∧
  (∀ x i, lib.M (lib.setVertexV x i) = lib.M x) ∧
  (∀ x u v, (lib.gp_AddEdge x u 0 v 0).1 = OK → lib.M (lib.gp_AddEdge x u 0 v 0).2 = lib.M x + 1)

/-- An edge insertion is refused only when the graph already holds as many edges as
its arc capacity allows. -/
def refusesOnlyWhenFull {G : Type} (lib : GraphLib G) : Prop :=
  ∀ x u v, (lib.gp_AddEdge x u 0 v 0).1 ≠ OK → lib.gp_GetArcCapacity x / 2 ≤ lib.M x

/-! ## Reachable states and elementary steps -/

/-- The messages of the two failures that leave `runTest` between the increment of
the grand total and the update of the bucket: the counter overflow and the failure
of `gp_CopyGraph`. -/
def Event.isCountFailure {G : Type} : Event G → Bool
  | Event.exceededMaximum => true
  | Event.failedToCopyGraph _ => true
  | _ => false

/-- Some message in the output reports a counter overflow or a failed copy. -/
def hasCountFailure {G : Type} (out : List (Event G)) : Prop :=
  ∃ e ∈ out, e.isCountFailure = true

/-- The selector and the counters of an entry, without its graphs. -/
def testResult.counters {G : Type} (r : testResult G) : Char × baseTestResult × List baseTestResult :=
  (r.command, r.result, r.edgeResults)

/-- The sum over all edge-count buckets of `edgeResults[m].numGraphs`. -/
def testResult.bucketGraphs {G : Type} (r : testResult G) : Nat :=
  (r.edgeResults.map (fun b => b.numGraphs)).sum

/-- The sum over all edge-count buckets of `edgeResults[m].numOKs`. -/
def testResult.bucketOKs {G : Type} (r : testResult G) : Nat :=
  (r.edgeResults.map (fun b => b.numOKs)).sum

/-- The states that the harness reaches from program start by calls of `outprocTest`
and `runTest` that return. -/
inductive Reachable {G : Type} (env : Env) (lib : GraphLib G) : Harness G → Prop where
  | init : Reachable env lib (Harness.init G)
  | outprocTest (s s1 : Harness G) (g : Nat → Nat) (n : Nat) :
      Reachable env lib s → outprocTest env lib s g n = some s1 → Reachable env lib s1
  | runTest (s s1 : Harness G) (command : Char) (rc : Int) :
      Reachable env lib s → runTest env lib s command = some (rc, s1) → Reachable env lib s1

/-- The elementary steps of which a call of `outprocTest` consists: the graphs of the
framework change while the counters stay (`graphs`); the framework is allocated
(`alloc`); a failure outside `runTest` is reported (`raise`); something else is
printed (`log`); `runTest` is called (`run`). -/
inductive Elem {G : Type} (env : Env) (lib : GraphLib G) : Harness G → Harness G → Prop where
  | graphs (s : Harness G) (fw fw1 : testResultFramework G) :
      s.testFramework = some fw →
      fw.algResults.map testResult.counters = fw1.algResults.map testResult.counters →
      Elem env lib s { s with testFramework := some fw1 }
  | alloc (s : Harness G) (fw : testResultFramework G) (n : Nat) :
      s.testFramework = none →
      tf_AllocateTestFramework lib env.g_command n env.g_maxe = some fw →
      Elem env lib s { s with testFramework := some fw }
  | raise (s : Harness G) (es : List (Event G)) :
      (∀ e ∈ es, e.isCountFailure = false) →
      Elem env lib s { s with errorFound := s.errorFound + 1, out := s.out ++ es }
  | log (s : Harness G) (es : List (Event G)) :
      (∀ e ∈ es, e.isCountFailure = false) →
      Elem env lib s { s with out := s.out ++ es }
  | run (s s1 : Harness G) (command : Char) (rc : Int) :
      runTest env lib s command = some (rc, s1) → Elem env lib s s1

/-- A sequence of elementary steps. -/
def Steps {G : Type} (env : Env) (lib : GraphLib G) : Harness G → Harness G → Prop :=
  Relation.ReflTransGen (Elem env lib)

/-- The grand total `numGraphs` of an entry is a value of `unsigned long` and equals the
sum of the `numGraphs` of its buckets. -/
def testResult.consistent {G : Type} (env : Env) (r : testResult G) : Prop :=
  r.result.numGraphs = r.bucketGraphs ∧ r.result.numGraphs < 2 ^ env.ulongBits

/-- The invariant behind the agreement of grand total and buckets: `errorFound` is
not negative, it is positive once a counter overflow or a failed copy was reported,
and as long as none was reported every entry is consistent. -/
def CountInv {G : Type} (env : Env) (s : Harness G) : Prop :=
  0 ≤ s.errorFound ∧
  (hasCountFailure s.out → 0 < s.errorFound) ∧
  (¬ hasCountFailure s.out →
    ∀ fw, s.testFramework = some fw → ∀ r ∈ fw.algResults, r.consistent env)

/-- The message of the counter overflow. -/
def Event.isOverflow {G : Type} : Event G → Bool
  | Event.exceededMaximum => true
  | _ => false

/-- Some message in the output reports a counter overflow. -/
def hasOverflow {G : Type} (out : List (Event G)) : Prop :=
  ∃ e ∈ out, e.isOverflow = true

/-- The counters of an entry are in order: `numOKs <= numGraphs` in the grand total
and in every bucket, the grand total `numGraphs` is a value of `unsigned long` that
bounds the sum of the bucket `numGraphs`, and the grand total `numOKs` is the sum
of the bucket `numOKs`. -/
def testResult.ordered {G : Type} (env : Env) (r : testResult G) : Prop :=
  r.result.numOKs ≤ r.result.numGraphs ∧
  r.result.numGraphs < 2 ^ env.ulongBits ∧
  r.bucketGraphs ≤ r.result.numGraphs ∧
  (∀ b ∈ r.edgeResults, b.numOKs ≤ b.numGraphs) ∧
  r.result.numOKs = r.bucketOKs

/-- As long as no counter overflow was reported, every entry is in order. -/
def OrderInv {G : Type} (env : Env) (s : Harness G) : Prop :=
  ¬ hasOverflow s.out →
    ∀ fw, s.testFramework = some fw → ∀ r ∈ fw.algResults, r.ordered env

/-- The grand total `numOKs` of every entry is a value of `unsigned long` and is the
sum of the bucket `numOKs` modulo `2^w`. -/
def ModInv {G : Type} (env : Env) (s : Harness G) : Prop :=
  ∀ fw, s.testFramework = some fw → ∀ r ∈ fw.algResults,
    r.result.numOKs < 2 ^ env.ulongBits ∧ r.result.numOKs = r.bucketOKs % 2 ^ env.ulongBits

/-- The messages that `runTest` prints where it raises `errorFound`: the counter
overflow, the failed copy and the failed test. -/
def Event.isRunTestFailure {G : Type} : Event G → Bool
  | Event.exceededMaximum => true
  | Event.failedToCopyGraph _ => true
  | Event.failedToRunTest _ => true
  | _ => false

/-- Some message in the output is one with which `runTest` raises `errorFound`. -/
def hasRunTestFailure {G : Type} (out : List (Event G)) : Prop :=
  ∃ e ∈ out, e.isRunTestFailure = true

/-- The messages that `runTest` prints. -/
def Event.isRunTestOutput {G : Type} : Event G → Bool
  | Event.exceededMaximum => true
  | Event.failedToCopyGraph _ => true
  | Event.integrityCheckFailed _ => true
  | Event.failedToRunTest _ => true
  | _ => false

/-- The event is the writing of the file `name`. -/
def Event.isFileNamed {G : Type} (name : String) : Event G → Bool
  | Event.matrixFile filename _ => filename == name
  | Event.graphFile filename _ => filename == name
  | _ => false

/-- The event is the writing of a file. -/
def Event.isFile {G : Type} : Event G → Bool
  | Event.matrixFile _ _ => true
  | Event.graphFile _ _ => true
  | _ => false

/-- The file `name` is written in the output. -/
def writesFile {G : Type} (name : String) (out : List (Event G)) : Prop :=
  ∃ e ∈ out, e.isFileNamed name = true

/-- The selectors whose tests `outprocTest` runs on a candidate, in order. -/
def selectorsRun (env : Env) : List Char :=
  if env.g_command = 'a' then commands else [env.g_command]

/-- The selectors of all mode are in lockstep at `k`: the framework has one entry per
selector of `commands`, in order, and every grand total `numGraphs` is `k`, a value
of `unsigned long`. -/
def Lock {G : Type} (env : Env) (s : Harness G) (k : Nat) : Prop :=
  ∃ fw, s.testFramework = some fw ∧ fw.algResults.map (fun r => r.command) = commands ∧
    (∀ r ∈ fw.algResults, r.result.numGraphs = k) ∧ k < 2 ^ env.ulongBits

/-! ## Concrete inputs -/

/-- The triangle on the vertices 0, 1, 2 as a bit matrix: column `j` is the bit
`1 << (15 - j)` of a row. -/
def triangle : Nat → Nat := fun i => [0x6000, 0xA000, 0xC000].getD i 0

/-- A library on the model of the working graph in which every graph is planar,
uses three colors, and every check confirms. -/
def exampleLib : GraphLib WorkingGraph :=
  modelLib (fun _ _ => OK) (fun _ r => r) (fun _ => 3) OK

/-- An empty working graph on three vertices with room for the complete graph. -/
def exampleGraph : WorkingGraph := { N := 3, arcCapacity := 6, edges := [] }

/-- The values of `unittestMode = 0`, `quietMode = n`, selector `p`, at most three
edges and a 64-bit `unsigned long`. -/
def exampleEnv : Env :=
  { g_command := 'p', g_maxn := 3, g_mine := 0, g_maxe := 3, g_mod := 0, g_res := 0,
    quietMode := 'n', unittestMode := 0, DEBUG := false, ulongBits := 64 }

/-- The library `exampleLib` in which `gp_CopyGraph` fails. -/
def copyFailLib : GraphLib WorkingGraph :=
  modelLib (fun _ _ => OK) (fun _ r => r) (fun _ => 3) NOTOK

/-- The counters of one entry: selector, grand total `numGraphs`, sum of the bucket
`numGraphs`, grand total `numOKs`, sum of the bucket `numOKs`. -/
def testResult.summary {G : Type} (r : testResult G) : Char × Nat × Nat × Nat × Nat :=
  (r.command, r.result.numGraphs, r.bucketGraphs, r.result.numOKs, r.bucketOKs)

/-- The value of `errorFound` and the counters of every entry of a state. -/
def Harness.summary {G : Type} (s : Harness G) : Int × Option (List (Char × Nat × Nat × Nat × Nat)) :=
  (s.errorFound, s.testFramework.map (fun fw => fw.algResults.map testResult.summary))

/-- The library `exampleLib` with an insertion that is always refused. -/
def refusingLib : GraphLib WorkingGraph :=
  { exampleLib with gp_AddEdge := fun W _ _ _ _ => (NONEMBEDDABLE, W) }

/-- An empty working graph on three vertices with room for one edge only. -/
def smallGraph : WorkingGraph := { N := 3, arcCapacity := 2, edges := [] }

/-- The state with `errorFound = 0` and a framework of one entry for the selector
`command`, with zero counters, buckets for 0 to 3 edges and the graph `W` twice. -/
def stateWith (command : Char) (W : WorkingGraph) : Harness WorkingGraph :=
  { testFramework := some ⟨[{ command := command, result := ⟨0, 0⟩,
                               edgeResults := List.replicate 4 ⟨0, 0⟩,
                               theGraph := W, origGraph := W }]⟩,
    errorFound := 0, unittestNumGraphs := 0, unittestNumOKs := 0, out := [] }

/-- The values of `exampleEnv` with the selector `a`. -/
def allEnv : Env := { exampleEnv with g_command := 'a' }

/-- An entry for the selector `command` with zero counters, buckets for 0 to 3 edges
and the graph `W` twice. -/
def entryFor (command : Char) (W : WorkingGraph) : testResult WorkingGraph :=
  { command := command, result := ⟨0, 0⟩, edgeResults := List.replicate 4 ⟨0, 0⟩,
    theGraph := W, origGraph := W }

/-- The state with `errorFound = 0` and a framework of one entry per selector of
`commands`, each with zero counters and the graph `W` twice. -/
def allState (W : WorkingGraph) : Harness WorkingGraph :=
  { testFramework := some ⟨commands.map (fun c => entryFor c W)⟩,
    errorFound := 0, unittestNumGraphs := 0, unittestNumOKs := 0, out := [] }

/-- The library `exampleLib` in which the planarity test fails: `gp_Embed` returns
`NOTOK` for `EMBEDFLAGS_PLANAR`. -/
def planarityFailLib : GraphLib WorkingGraph :=
  modelLib (fun f _ => if f = EmbedFlags.PLANAR then NOTOK else OK) (fun _ r => r) (fun _ => 3) OK

/-- The library `exampleLib` in which no graph is embeddable: `gp_Embed` returns
`NONEMBEDDABLE` and the integrity check confirms it. -/
def nonplanarLib : GraphLib WorkingGraph :=
  modelLib (fun _ _ => NONEMBEDDABLE) (fun _ r => r) (fun _ => 3) OK

/-- The state `stateWith command W` with the grand total `numGraphs` of its entry set
to `num`. -/
def stateCounting (command : Char) (W : WorkingGraph) (num : Nat) : Harness WorkingGraph :=
  { testFramework := some ⟨[{ entryFor command W with result := ⟨num, 0⟩ }]⟩,
    errorFound := 0, unittestNumGraphs := 0, unittestNumOKs := 0, out := [] }

/-- The rows 110, 100, 000 read as binary numbers. -/
def lowRows : Nat → Nat := fun i => [0b110, 0b100, 0b000].getD i 0

/-- The upper triangle of the triangle graph as a bit matrix: the rows 0x6000,
0x2000, 0x0000. -/
def upperRows : Nat → Nat := fun i => [0x6000, 0x2000, 0x0000].getD i 0

/-- The library `exampleLib` in which the allocation of the graphs fails, so that
`tf_AllocateTestFramework` returns NULL. -/
def allocFailLib : GraphLib WorkingGraph :=
  { exampleLib with newGraphs := fun _ _ => none }

/-- The text of a status line "Status=%s", for the other events nothing. -/
def Event.status? {G : Type} : Event G → Option String
  | Event.statsStatus status => some status
  | _ => none

/-! ## Further concrete inputs -/

/-- The complete graph on the vertices 0, 1, 2, 3 as a bit matrix. -/
def completeFour : Nat → Nat := fun i => [0x7000, 0xB000, 0xD000, 0xE000].getD i 0

/-- An empty working graph on four vertices with room for one edge only. -/
def smallGraphFour : WorkingGraph := { N := 4, arcCapacity := 2, edges := [] }

/-- The library `exampleLib` in which `gp_CopyAdjacencyLists` fails. -/
def copyAdjFailLib : GraphLib WorkingGraph :=
  { exampleLib with gp_CopyAdjacencyLists := fun W _ => (NOTOK, W) }

/-- A short name for what was written: the message, or the name of the file. -/
def Event.name {G : Type} : Event G → String
  | Event.unableToCreate => "Unable to create the test framework."
  | Event.failedToInitialize => "Failed to initialize with generated graph in errorMatrix.txt"
  | Event.failedToCopyAdjacencyLists => "Failed to copy adjacency lists"
  | Event.seeErrorFiles => "See error.txt and errorMatrix.txt"
  | Event.exceededMaximum => "Exceeded maximum number of supported graphs"
  | Event.failedToCopyGraph _ => "Failed to copy graph"
  | Event.integrityCheckFailed _ => "Integrity check failed on graph"
  | Event.failedToRunTest _ => "Failed to runTest() on graph"
  | Event.progress _ => "progress"
  | Event.finalCount _ => "count"
  | Event.matrixFile filename _ => "file " ++ filename
  | Event.graphFile filename _ => "file " ++ filename
  | Event.statsBegin _ => "Begin Stats"
  | Event.statsStatus _ => "Status"
  | Event.statsParams _ _ _ => "maxn, mine, maxe"
  | Event.statsMod _ _ => "mod, res"
  | Event.statsHeader _ _ => "# Edges"
  | Event.statsRow _ _ _ _ => "row"
  | Event.statsTotals _ _ _ => "TOTALS"
  | Event.statsEnd _ => "End Stats"

/-- The library `exampleLib` in which every graph needs seven colors. -/
def sevenColorLib : GraphLib WorkingGraph :=
  modelLib (fun _ _ => OK) (fun _ r => r) (fun _ => 7) OK


/-- The graph on the vertices 0, 1, 2 with the single edge 0-1 as a bit matrix. -/
def oneEdge : Nat → Nat := fun i => [0x4000, 0x8000, 0x0000].getD i 0

/-- The working graph on three vertices that holds the edge 0-1. -/
def oneEdgeGraph : WorkingGraph := { N := 3, arcCapacity := 6, edges := [(0, 1)] }

/-- The state after the candidates `triangle` and `oneEdge` and `k - 1` further calls
of `runTest` on the second: the bucket of three edges has seen one graph, the
bucket of one edge `k` graphs, all of them `OK`. -/
def chain (k : Nat) : Harness WorkingGraph :=
  { testFramework := some ⟨[{ command := 'p', result := ⟨k + 1, k + 1⟩,
                               edgeResults := [⟨0, 0⟩, ⟨k, k⟩, ⟨0, 0⟩, ⟨1, 1⟩],
                               theGraph := oneEdgeGraph, origGraph := oneEdgeGraph }]⟩,
    errorFound := 0, unittestNumGraphs := 0, unittestNumOKs := 0, out := [] }

/-- The state after the call of `runTest` in the state `chain (2 ^ 64 - 2)`: the grand
total `numGraphs` has wrapped to 0 and the overflow is reported. -/
def chainOverflow : Harness WorkingGraph :=
  { testFramework := some ⟨[{ command := 'p', result := ⟨0, 2 ^ 64 - 1⟩,
                               edgeResults := [⟨0, 0⟩, ⟨2 ^ 64 - 2, 2 ^ 64 - 2⟩, ⟨0, 0⟩, ⟨1, 1⟩],
                               theGraph := oneEdgeGraph, origGraph := oneEdgeGraph }]⟩,
    errorFound := 1, unittestNumGraphs := 0, unittestNumOKs := 0,
    out := [Event.exceededMaximum] }

/-- The state after one more call of `runTest` in the state `chainOverflow`: the grand
total `numOKs` has wrapped to 0 as well. -/
def chainWrapped : Harness WorkingGraph :=
  { testFramework := some ⟨[{ command := 'p', result := ⟨1, 0⟩,
                               edgeResults := [⟨0, 0⟩, ⟨2 ^ 64 - 1, 2 ^ 64 - 1⟩, ⟨0, 0⟩, ⟨1, 1⟩],
                               theGraph := oneEdgeGraph, origGraph := oneEdgeGraph }]⟩,
    errorFound := 1, unittestNumGraphs := 0, unittestNumOKs := 0,
    out := [Event.exceededMaximum] }

/-- An empty working graph on four vertices with room for the complete graph. -/
def roomyGraphFour : WorkingGraph := { N := 4, arcCapacity := 12, edges := [] }

/-! ## Facts about the masks and the bit matrix -/

theorem mask_shift (j : Nat) : ((1 <<< (MAXN - 1)) >>> j) >>> 1 = (1 <<< (MAXN - 1)) >>> (j + 1) := by
  rw [Nat.shiftRight_add]

theorem mask_eq (j : Nat) (hj : j ≤ 15) : (1 <<< (MAXN - 1)) >>> j = 1 <<< (15 - j) := by
  simp only [MAXN, Nat.shiftLeft_eq, Nat.shiftRight_eq_div_pow, Nat.one_mul]
  exact Nat.pow_div hj (by decide)

theorem maskColumns_zero (row j : Nat) : maskColumns row j 0 = [] := rfl

theorem maskColumns_succ (row j k : Nat) :
    maskColumns row j (k + 1) =
      if row &&& ((1 <<< (MAXN - 1)) >>> j) ≠ 0 then j :: maskColumns row (j + 1) k
      else maskColumns row (j + 1) k := by
  simp only [maskColumns, List.range'_succ, List.filter_cons]
  by_cases h : row &&& ((1 <<< (MAXN - 1)) >>> j) ≠ 0 <;> simp [h]

theorem rowColumns_eq_maskColumns (n i row : Nat) (hn : n ≤ 16) (hi : i + 1 ≤ n) :
    rowColumns n i row = maskColumns row (i + 1) (n - (i + 1)) := by
  have hsplit : List.range n = List.range' 0 (i + 1) ++ List.range' (i + 1) (n - (i + 1)) := by
    rw [List.range_eq_range']
    have := List.range'_append 0 (i + 1) (n - (i + 1)) 1
    simp only [Nat.one_mul, Nat.zero_add] at this
    rw [this]
    congr 1
    omega
  unfold rowColumns maskColumns
  rw [hsplit, List.filter_append]
  have h1 : (List.range' 0 (i + 1)).filter (fun j => i < j ∧ row &&& (1 <<< (15 - j)) ≠ 0) = [] := by
    rw [List.filter_eq_nil_iff]
    intro a ha
    rw [List.mem_range'_1] at ha
    simp only [decide_eq_true_eq, not_and]
    intro h
    omega
  rw [h1, List.nil_append]
  apply List.filter_congr
  intro c hc
  rw [List.mem_range'_1] at hc
  have hc15 : c ≤ 15 := by omega
  rw [mask_eq c hc15]
  have : i < c := by omega
  simp [this]

theorem rowColumns_last (n i row : Nat) (hi : n ≤ i + 1) : rowColumns n i row = [] := by
  unfold rowColumns
  rw [List.filter_eq_nil_iff]
  intro a ha
  rw [List.mem_range] at ha
  simp only [decide_eq_true_eq, not_and]
  intro h
  omega

theorem traced_addEdge {G : Type} (lib : GraphLib G) (x : G × List LibCall) (u ul v vl : Nat) :
    (traced lib).gp_AddEdge x u ul v vl =
      ((lib.gp_AddEdge x.1 u ul v vl).1,
       ((lib.gp_AddEdge x.1 u ul v vl).2, x.2 ++ [LibCall.addEdge u ul v vl (lib.gp_AddEdge x.1 u ul v vl).1])) := rfl

theorem traced_setVertexV {G : Type} (lib : GraphLib G) (x : G × List LibCall) (i : Nat) :
    (traced lib).setVertexV x i = (lib.setVertexV x.1 i, x.2 ++ [LibCall.setVertexV i]) := rfl

theorem traced_reinitialize {G : Type} (lib : GraphLib G) (x : G × List LibCall) :
    (traced lib).gp_ReinitializeGraph x = (lib.gp_ReinitializeGraph x.1, x.2 ++ [LibCall.reinitialize]) := rfl


theorem transferRow_trace_extends {G : Type} (lib : GraphLib G) (n i row : Nat) :
    ∀ (k j PO2 : Nat) (ec : Int) (x : G × List LibCall),
      ∃ t, (transferRow (traced lib) n i row k j PO2 ec x).2.2 = x.2 ++ t := by
  intro k
  induction k with
  | zero => intro j PO2 ec x; exact ⟨[], by simp [transferRow]⟩
  | succ k ih =>
    intro j PO2 ec x
    unfold transferRow
    by_cases h : row &&& PO2 ≠ 0
    · rw [if_pos h]
      simp only [traced_addEdge]
      by_cases hc : (lib.gp_AddEdge x.1 i 0 j 0).1 ≠ OK
      · rw [if_pos hc]; exact ⟨_, rfl⟩
      · rw [if_neg hc]
        obtain ⟨t, ht⟩ := ih (j + 1) (PO2 >>> 1) (lib.gp_AddEdge x.1 i 0 j 0).1
          ((lib.gp_AddEdge x.1 i 0 j 0).2, x.2 ++ [LibCall.addEdge i 0 j 0 (lib.gp_AddEdge x.1 i 0 j 0).1])
        exact ⟨LibCall.addEdge i 0 j 0 (lib.gp_AddEdge x.1 i 0 j 0).1 :: t, by rw [ht]; simp⟩
    · rw [if_neg h]
      exact ih (j + 1) (PO2 >>> 1) ec x

theorem transferRows_trace_extends {G : Type} (lib : GraphLib G) (g : Nat → Nat) (n : Nat) :
    ∀ (k i : Nat) (ec : Int) (x : G × List LibCall),
      ∃ t, (transferRows (traced lib) g n k i ec x).2.2 = x.2 ++ t := by
  intro k
  induction k with
  | zero => intro i ec x; exact ⟨[], by simp [transferRows]⟩
  | succ k ih =>
    intro i ec x
    unfold transferRows
    by_cases h : ec = OK
    · rw [if_pos h]
      simp only
      obtain ⟨t1, ht1⟩ := transferRow_trace_extends lib n i (g i) (n - (i + 1)) (i + 1)
        ((1 <<< (MAXN - 1)) >>> (i + 1)) ec ((traced lib).setVertexV x i)
      obtain ⟨t2, ht2⟩ := ih (i + 1)
        (transferRow (traced lib) n i (g i) (n - (i + 1)) (i + 1) ((1 <<< (MAXN - 1)) >>> (i + 1)) ec
          ((traced lib).setVertexV x i)).1
        (transferRow (traced lib) n i (g i) (n - (i + 1)) (i + 1) ((1 <<< (MAXN - 1)) >>> (i + 1)) ec
          ((traced lib).setVertexV x i)).2
      refine ⟨LibCall.setVertexV i :: (t1 ++ t2), ?_⟩
      rw [ht2, ht1, traced_setVertexV]
      simp
    · rw [if_neg h]; exact ⟨[], by simp⟩

theorem transferRow_traced_ok {G : Type} (lib : GraphLib G) (n i row : Nat) :
    ∀ (k j : Nat) (x : G) (tr : List LibCall),
      allInsertionsOK (transferRow (traced lib) n i row k j ((1 <<< (MAXN - 1)) >>> j) OK (x, tr)).2.2 →
      (transferRow (traced lib) n i row k j ((1 <<< (MAXN - 1)) >>> j) OK (x, tr)).1 = OK ∧
      (transferRow (traced lib) n i row k j ((1 <<< (MAXN - 1)) >>> j) OK (x, tr)).2.2 =
        tr ++ rowCalls i (maskColumns row j k) := by
  intro k
  induction k with
  | zero => intro j x tr _; simp [transferRow, maskColumns_zero, rowCalls]
  | succ k ih =>
    intro j x tr
    rw [maskColumns_succ]
    unfold transferRow
    by_cases h : row &&& ((1 <<< (MAXN - 1)) >>> j) ≠ 0
    · rw [if_pos h, if_pos h]
      simp only [traced_addEdge]
      by_cases hc : (lib.gp_AddEdge x i 0 j 0).1 ≠ OK
      · rw [if_pos hc]
        intro H
        exact absurd (H i 0 j 0 _ (by simp)) hc
      · rw [if_neg hc, mask_shift]
        have hc2 : (lib.gp_AddEdge x i 0 j 0).1 = OK := not_not.mp hc
        rw [hc2]
        intro H
        have := ih (j + 1) (lib.gp_AddEdge x i 0 j 0).2 (tr ++ [LibCall.addEdge i 0 j 0 OK]) H
        simpa [rowCalls] using this
    · rw [if_neg h, if_neg h, mask_shift]
      exact ih (j + 1) x tr

theorem transferRows_traced_ok {G : Type} (lib : GraphLib G) (g : Nat → Nat) (n : Nat) (hn : n ≤ 16) :
    ∀ (k i : Nat) (x : G) (tr : List LibCall), i + k + 1 ≤ n ∨ k = 0 →
      allInsertionsOK (transferRows (traced lib) g n k i OK (x, tr)).2.2 →
      (transferRows (traced lib) g n k i OK (x, tr)).1 = OK ∧
      (transferRows (traced lib) g n k i OK (x, tr)).2.2 = tr ++ transferCalls g n i k := by
  intro k
  induction k with
  | zero => intro i x tr _ _; simp [transferRows, transferCalls]
  | succ k ih =>
    intro i x tr hk
    have hi : i + 1 ≤ n := by omega
    unfold transferRows
    rw [if_pos rfl]
    simp only [traced_setVertexV]
    intro H
    have hrow := transferRow_traced_ok lib n i (g i) (n - (i + 1)) (i + 1) (lib.setVertexV x i)
      (tr ++ [LibCall.setVertexV i])
    rw [← rowColumns_eq_maskColumns n i (g i) hn hi] at hrow
    have hext := transferRows_trace_extends lib g n k (i + 1)
      (transferRow (traced lib) n i (g i) (n - (i + 1)) (i + 1) ((1 <<< (MAXN - 1)) >>> (i + 1)) OK
        (lib.setVertexV x i, tr ++ [LibCall.setVertexV i])).1
      (transferRow (traced lib) n i (g i) (n - (i + 1)) (i + 1) ((1 <<< (MAXN - 1)) >>> (i + 1)) OK
        (lib.setVertexV x i, tr ++ [LibCall.setVertexV i])).2
    generalize transferRow (traced lib) n i (g i) (n - (i + 1)) (i + 1) ((1 <<< (MAXN - 1)) >>> (i + 1)) OK
      (lib.setVertexV x i, tr ++ [LibCall.setVertexV i]) = r at hrow hext H
    obtain ⟨c, y, t⟩ := r
    simp only at hrow hext H
    obtain ⟨t2, ht2⟩ := hext
    have hin : allInsertionsOK t := by
      intro u ul v vl ret hmem
      exact H u ul v vl ret (by rw [ht2]; exact List.mem_append_left _ hmem)
    obtain ⟨h1, h2⟩ := hrow hin
    subst h1 h2
    have := ih (i + 1) y (tr ++ [LibCall.setVertexV i] ++ rowCalls i (rowColumns n i (g i))) (by omega) H
    simpa [transferCalls, List.range'_succ] using this


theorem transferRow_traced_fst {G : Type} (lib : GraphLib G) (n i row : Nat) :
    ∀ (k j PO2 : Nat) (ec : Int) (x : G × List LibCall),
      (transferRow (traced lib) n i row k j PO2 ec x).1 = (transferRow lib n i row k j PO2 ec x.1).1 ∧
      (transferRow (traced lib) n i row k j PO2 ec x).2.1 = (transferRow lib n i row k j PO2 ec x.1).2 := by
  intro k
  induction k with
  | zero => intro j PO2 ec x; simp [transferRow]
  | succ k ih =>
    intro j PO2 ec x
    unfold transferRow
    by_cases h : row &&& PO2 ≠ 0
    · rw [if_pos h, if_pos h]
      simp only [traced_addEdge]
      by_cases hc : (lib.gp_AddEdge x.1 i 0 j 0).1 ≠ OK
      · rw [if_pos hc, if_pos hc]; simp [addEdgeFailure, traced]
      · rw [if_neg hc, if_neg hc]; exact ih _ _ _ _
    · rw [if_neg h, if_neg h]; exact ih _ _ _ _

theorem transferRows_traced_fst {G : Type} (lib : GraphLib G) (g : Nat → Nat) (n : Nat) :
    ∀ (k i : Nat) (ec : Int) (x : G × List LibCall),
      (transferRows (traced lib) g n k i ec x).1 = (transferRows lib g n k i ec x.1).1 ∧
      (transferRows (traced lib) g n k i ec x).2.1 = (transferRows lib g n k i ec x.1).2 := by
  intro k
  induction k with
  | zero => intro i ec x; simp [transferRows]
  | succ k ih =>
    intro i ec x
    unfold transferRows
    by_cases h : ec = OK
    · rw [if_pos h, if_pos h]
      simp only
      have hr := transferRow_traced_fst lib n i (g i) (n - (i + 1)) (i + 1)
        ((1 <<< (MAXN - 1)) >>> (i + 1)) ec ((traced lib).setVertexV x i)
      have hi := ih (i + 1)
        (transferRow (traced lib) n i (g i) (n - (i + 1)) (i + 1) ((1 <<< (MAXN - 1)) >>> (i + 1)) ec
          ((traced lib).setVertexV x i)).1
        (transferRow (traced lib) n i (g i) (n - (i + 1)) (i + 1) ((1 <<< (MAXN - 1)) >>> (i + 1)) ec
          ((traced lib).setVertexV x i)).2
      simp only [traced_setVertexV] at hr hi ⊢
      rw [← hr.1, ← hr.2]
      exact hi
    · rw [if_neg h, if_neg h]; simp

/-- The logged library computes what the library computes. -/
theorem TransferGraph_traced {G : Type} (lib : GraphLib G) (x : G × List LibCall) (g : Nat → Nat) (n : Nat) :
    (TransferGraph (traced lib) x g n).1 = (TransferGraph lib x.1 g n).1 ∧
    (TransferGraph (traced lib) x g n).2.1 = (TransferGraph lib x.1 g n).2 := by
  unfold TransferGraph
  exact transferRows_traced_fst lib g n (n - 1) 0 OK _

theorem edgeRequests_append (a b : List LibCall) :
    edgeRequests (a ++ b) = edgeRequests a ++ edgeRequests b := by
  induction a with
  | nil => rfl
  | cons c cs ih => cases c <;> simp [edgeRequests, ih]

theorem edgeRequests_rowCalls (i : Nat) (cols : List Nat) :
    edgeRequests (rowCalls i cols) = cols.map (fun j => (i, j)) := by
  induction cols with
  | nil => rfl
  | cons c cs ih => simpa [rowCalls, edgeRequests] using ih

theorem edgeRequests_flatMap (g : Nat → Nat) (n : Nat) (l : List Nat) :
    edgeRequests (l.flatMap (fun r => LibCall.setVertexV r :: rowCalls r (rowColumns n r (g r)))) =
      l.flatMap (fun i => (rowColumns n i (g i)).map (fun j => (i, j))) := by
  induction l with
  | nil => rfl
  | cons a l ih =>
    rw [List.flatMap_cons, List.flatMap_cons, edgeRequests_append, ih]
    rw [show edgeRequests (LibCall.setVertexV a :: rowCalls a (rowColumns n a (g a))) =
      edgeRequests (rowCalls a (rowColumns n a (g a))) from rfl, edgeRequests_rowCalls]

theorem edgeRequests_transferCalls (g : Nat → Nat) (n : Nat) :
    edgeRequests (transferCalls g n 0 (n - 1)) = upperTriangle g n := by
  unfold transferCalls upperTriangle
  rw [edgeRequests_flatMap, ← List.range_eq_range']
  cases n with
  | zero => rfl
  | succ m =>
    rw [List.range_succ, List.flatMap_append]
    simp [rowColumns_last (m + 1) m (g m) (le_refl _)]

theorem mem_upperTriangle (g : Nat → Nat) (n i j : Nat) :
    (i, j) ∈ upperTriangle g n ↔ i < j ∧ j < n ∧ g i &&& (1 <<< (15 - j)) ≠ 0 := by
  unfold upperTriangle rowColumns
  simp only [List.mem_flatMap, List.mem_map, List.mem_filter, List.mem_range, Prod.mk.injEq,
    decide_eq_true_eq]
  constructor
  · rintro ⟨a, _, b, ⟨hb, hab, hbit⟩, rfl, rfl⟩
    exact ⟨hab, hb, hbit⟩
  · rintro ⟨hij, hj, hbit⟩
    exact ⟨i, by omega, j, ⟨hj, hij, hbit⟩, rfl, rfl⟩

theorem upperTriangle_sorted (g : Nat → Nat) (n : Nat) : (upperTriangle g n).Pairwise pairLt := by
  unfold upperTriangle
  rw [List.pairwise_flatMap]
  constructor
  · intro i _
    rw [List.pairwise_map]
    unfold rowColumns
    apply List.Pairwise.filter
    exact (List.pairwise_lt_range n).imp (fun h => Or.inr ⟨rfl, h⟩)
  · refine (List.pairwise_lt_range n).imp ?_
    intro a b hab x hx y hy
    simp only [List.mem_map] at hx hy
    obtain ⟨_, _, rfl⟩ := hx
    obtain ⟨_, _, rfl⟩ := hy
    exact Or.inl hab

/-! ## `TransferGraph` on the model of the working graph -/

theorem transferRow_model (embed : EmbedFlags → WorkingGraph → Int) (check : WorkingGraph → Int → Int)
    (colors : WorkingGraph → Int) (copy : Int) (n i row : Nat) :
    ∀ (k j : Nat) (W : WorkingGraph),
      W.edges.length + (maskColumns row j k).length ≤ W.arcCapacity / 2 →
      transferRow (modelLib embed check colors copy) n i row k j ((1 <<< (MAXN - 1)) >>> j) OK W =
        (OK, { W with edges := W.edges ++ (maskColumns row j k).map (fun c => (i, c)) }) := by
  intro k
  induction k with
  | zero => intro j W _; simp [transferRow, maskColumns_zero]
  | succ k ih =>
    intro j W
    rw [maskColumns_succ]
    unfold transferRow
    by_cases h : row &&& ((1 <<< (MAXN - 1)) >>> j) ≠ 0
    · rw [if_pos h, if_pos h]
      intro hcap
      simp only [List.length_cons] at hcap
      have hlt : ¬ (W.edges.length ≥ W.arcCapacity / 2) := by omega
      simp only [modelLib, hlt, if_false, ne_eq, not_true_eq_false, mask_shift]
      have := ih (j + 1) { W with edges := W.edges ++ [(i, j)] }
        (by simp only [List.length_append, List.length_singleton]; omega)
      simp only [modelLib] at this
      rw [this]
      simp
    · rw [if_neg h, if_neg h, mask_shift]
      exact ih (j + 1) W

theorem transferRows_model (embed : EmbedFlags → WorkingGraph → Int) (check : WorkingGraph → Int → Int)
    (colors : WorkingGraph → Int) (copy : Int) (g : Nat → Nat) (n : Nat) (hn : n ≤ 16) :
    ∀ (k i : Nat) (W : WorkingGraph), i + k + 1 ≤ n ∨ k = 0 →
      W.edges.length +
          ((List.range' i k).flatMap (fun r => (rowColumns n r (g r)).map (fun c => (r, c)))).length
        ≤ W.arcCapacity / 2 →
      transferRows (modelLib embed check colors copy) g n k i OK W =
        (OK, { W with edges := W.edges ++
                (List.range' i k).flatMap (fun r => (rowColumns n r (g r)).map (fun c => (r, c))) }) := by
  intro k
  induction k with
  | zero => intro i W _ _; simp [transferRows]
  | succ k ih =>
    intro i W hk hcap
    have hi : i + 1 ≤ n := by omega
    unfold transferRows
    rw [if_pos rfl]
    simp only [List.range'_succ, List.flatMap_cons, List.length_append, List.length_map] at hcap
    have hrow := transferRow_model embed check colors copy n i (g i) (n - (i + 1)) (i + 1)
      ((modelLib embed check colors copy).setVertexV W i)
    rw [← rowColumns_eq_maskColumns n i (g i) hn hi] at hrow
    have hrow2 := hrow (by simp only [modelLib]; omega)
    simp only
    rw [hrow2]
    have := ih (i + 1) { W with edges := W.edges ++ (rowColumns n i (g i)).map (fun c => (i, c)) }
      (by omega) (by simp only [List.length_append, List.length_map]; omega)
    simp only [modelLib] at this ⊢
    rw [this]
    simp [List.range'_succ]

/-- On the model of the working graph, with room for every set bit of the upper
triangle, `TransferGraph` returns `OK` and leaves exactly those edges. -/
theorem TransferGraph_model (embed : EmbedFlags → WorkingGraph → Int) (check : WorkingGraph → Int → Int)
    (colors : WorkingGraph → Int) (copy : Int) (g : Nat → Nat) (n : Nat) (hn : n ≤ 16)
    (W : WorkingGraph) (hcap : (upperTriangle g n).length ≤ W.arcCapacity / 2) :
    TransferGraph (modelLib embed check colors copy) W g n =
      (OK, { W with edges := upperTriangle g n }) := by
  have hup : upperTriangle g n =
      (List.range' 0 (n - 1)).flatMap (fun r => (rowColumns n r (g r)).map (fun c => (r, c))) := by
    unfold upperTriangle
    rw [← List.range_eq_range']
    cases n with
    | zero => rfl
    | succ m =>
      rw [List.range_succ, List.flatMap_append]
      simp [rowColumns_last (m + 1) m (g m) (le_refl _)]
  unfold TransferGraph
  have := transferRows_model embed check colors copy g n hn (n - 1) 0
    ((modelLib embed check colors copy).gp_ReinitializeGraph W) (by omega)
    (by rw [← hup]; simpa [modelLib] using hcap)
  rw [this, ← hup]
  simp [modelLib]

/-! ## C1: the insertions requested by `TransferGraph` -/

/-- C1.  For `n <= 16` and every bit matrix `g`, when every edge insertion of the run
succeeds, `TransferGraph` returns `OK`; the calls it makes on the target are the
reinitialisation followed, row by row, by the insertions `(i, j)` of the set bits
`1 << (15 - j)` with `i < j < n`; the list of requested insertions is
`upperTriangle g n`, which holds each such pair, is strictly increasing (so no pair
is requested twice) and holds nothing else; and on the model of the working graph
with room for these edges the resulting edges are exactly this list. -/
theorem TransferGraph_requests_upper_triangle {G : Type} (lib : GraphLib G) (theGraph : G)
    (g : Nat → Nat) (n : Nat) (hn : n ≤ 16)
    (hadd : allInsertionsOK (TransferGraph (traced lib) (theGraph, []) g n).2.2) :
    (TransferGraph lib theGraph g n).1 = OK ∧
    (TransferGraph (traced lib) (theGraph, []) g n).2.2 =
      LibCall.reinitialize :: transferCalls g n 0 (n - 1) ∧
    edgeRequests (TransferGraph (traced lib) (theGraph, []) g n).2.2 = upperTriangle g n ∧
    (∀ i j, (i, j) ∈ upperTriangle g n ↔ i < j ∧ j < n ∧ g i &&& (1 <<< (15 - j)) ≠ 0) ∧
    (upperTriangle g n).Pairwise pairLt ∧
    (∀ embed check colors copy (W : WorkingGraph),
      (upperTriangle g n).length ≤ W.arcCapacity / 2 →
      (TransferGraph (modelLib embed check colors copy) W g n).2.edges = upperTriangle g n) := by
  have hsim := TransferGraph_traced lib (theGraph, []) g n
  have hmain := transferRows_traced_ok lib g n hn (n - 1) 0 (lib.gp_ReinitializeGraph theGraph)
    [LibCall.reinitialize] (by omega)
  have hunf : TransferGraph (traced lib) (theGraph, []) g n =
      transferRows (traced lib) g n (n - 1) 0 OK
        (lib.gp_ReinitializeGraph theGraph, [LibCall.reinitialize]) := rfl
  rw [hunf] at hadd hsim ⊢
  obtain ⟨h1, h2⟩ := hmain hadd
  refine ⟨?_, ?_, ?_, mem_upperTriangle g n, upperTriangle_sorted g n, ?_⟩
  · rw [← hsim.1]; exact h1
  · rw [h2]; rfl
  · rw [h2]
    show edgeRequests (LibCall.reinitialize :: transferCalls g n 0 (n - 1)) = upperTriangle g n
    exact edgeRequests_transferCalls g n
  · intro embed check colors copy W hcap
    rw [TransferGraph_model embed check colors copy g n hn W hcap]

theorem TransferGraph_requests_upper_triangle_witness :
    3 ≤ 16 ∧
    allInsertionsOK (TransferGraph (traced exampleLib) (exampleGraph, []) triangle 3).2.2 ∧
    (TransferGraph exampleLib exampleGraph triangle 3).1 = OK ∧
    edgeRequests (TransferGraph (traced exampleLib) (exampleGraph, []) triangle 3).2.2 =
      [(0, 1), (0, 2), (1, 2)] := by
  have htr : (TransferGraph (traced exampleLib) (exampleGraph, []) triangle 3).2.2 =
      [LibCall.reinitialize, LibCall.setVertexV 0, LibCall.addEdge 0 0 1 0 OK,
       LibCall.addEdge 0 0 2 0 OK, LibCall.setVertexV 1, LibCall.addEdge 1 0 2 0 OK] := by decide
  have hall : allInsertionsOK (TransferGraph (traced exampleLib) (exampleGraph, []) triangle 3).2.2 := by
    rw [htr]
    intro u ul v vl ret hmem
    simp only [List.mem_cons, LibCall.addEdge.injEq, List.mem_singleton, reduceCtorEq, false_or,
      List.not_mem_nil, or_false] at hmem
    rcases hmem with h | h | h <;> exact h.2.2.2.2
  have h := TransferGraph_requests_upper_triangle exampleLib exampleGraph triangle 3 (by decide) hall
  refine ⟨by decide, hall, h.1, ?_⟩
  rw [h.2.2.1]
  decide

/-! ## A call of `outprocTest` as a sequence of elementary steps -/

theorem Steps_single {G : Type} {env : Env} {lib : GraphLib G} {s t : Harness G}
    (h : Elem env lib s t) : Steps env lib s t :=
  Relation.ReflTransGen.single h

theorem Steps_trans {G : Type} {env : Env} {lib : GraphLib G} {s t u : Harness G}
    (h1 : Steps env lib s t) (h2 : Steps env lib t u) : Steps env lib s u :=
  Relation.ReflTransGen.trans h1 h2

theorem Steps_refl {G : Type} {env : Env} {lib : GraphLib G} {s : Harness G} : Steps env lib s s :=
  Relation.ReflTransGen.refl

theorem reportFailure_steps {G : Type} (env : Env) (lib : GraphLib G) (s s1 : Harness G)
    (g : Nat → Nat) (n : Nat) (h : reportFailure s g n = some s1) : Steps env lib s s1 := by
  unfold reportFailure at h
  split at h
  · cases h
  · split at h
    · cases h
    · cases h
      exact Steps_single (Elem.log s _ (by intro e he; simp [WriteMatrixGraph] at he; rcases he with rfl | rfl | rfl <;> rfl))

theorem printProgress_steps {G : Type} (env : Env) (lib : GraphLib G) (s s1 : Harness G)
    (h : printProgress env s = some s1) : Steps env lib s s1 := by
  unfold printProgress at h
  split at h
  · split at h
    · cases h
    · split at h
      · cases h
      · split at h
        · cases h
          exact Steps_single (Elem.log s _ (by intro e he; simp at he; subst he; rfl))
        · cases h; exact Steps_refl
  · cases h; exact Steps_refl

theorem runAllTests_steps {G : Type} (env : Env) (lib : GraphLib G) (g : Nat → Nat) (n : Nat) :
    ∀ (cs : List Char) (s s1 : Harness G), runAllTests env lib g n cs s = some s1 → Steps env lib s s1 := by
  intro cs
  induction cs with
  | nil => intro s s1 h; simp only [runAllTests] at h; cases h; exact Steps_refl
  | cons c cs ih =>
    intro s s1 h
    unfold runAllTests at h
    split at h
    · cases h
    · rename_i rc s2 hrun
      have hstep : Steps env lib s s2 := Steps_single (Elem.run s s2 c rc hrun)
      split at h
      · exact hstep.trans (reportFailure_steps env lib s2 s1 g n h)
      · exact hstep.trans (ih s2 s1 h)

theorem runTests_steps {G : Type} (env : Env) (lib : GraphLib G) (s s1 : Harness G)
    (g : Nat → Nat) (n : Nat) (h : runTests env lib s g n = some s1) : Steps env lib s s1 := by
  unfold runTests at h
  split at h
  · split at h
    · cases h
    · rename_i s2 hall
      exact (runAllTests_steps env lib g n commands s s2 hall).trans (printProgress_steps env lib s2 s1 h)
  · split at h
    · cases h
    · rename_i rc s2 hrun
      have hstep : Steps env lib s s2 := Steps_single (Elem.run s s2 env.g_command rc hrun)
      split at h
      · split at h
        · cases h
        · rename_i s3 hrep
          exact (hstep.trans (reportFailure_steps env lib s2 s3 g n hrep)).trans
            (printProgress_steps env lib s3 s1 h)
      · exact hstep.trans (printProgress_steps env lib s2 s1 h)

theorem counters_set_origGraph {G : Type} (rs : List (testResult G)) (i : Nat) (ri : testResult G) (x : G)
    (h : rs[i]? = some ri) :
    (rs.set i { ri with origGraph := x }).map testResult.counters = rs.map testResult.counters := by
  rw [List.map_set]
  have hc : testResult.counters { ri with origGraph := x } = testResult.counters ri := rfl
  rw [hc]
  have hi := (List.getElem?_eq_some_iff.mp h)
  obtain ⟨hlt, hget⟩ := hi
  apply List.ext_getElem
  · simp
  · intro j h1 h2
    rw [List.getElem_set]
    split
    · rename_i hij
      subst hij
      simp [hget]
    · rfl

theorem copyAdjacencyLoop_counters {G : Type} (lib : GraphLib G) :
    ∀ (k i : Nat) (rs rs1 : List (testResult G)) (ok : Bool),
      copyAdjacencyLoop lib k i rs = some (ok, rs1) →
      rs.map testResult.counters = rs1.map testResult.counters := by
  intro k
  induction k with
  | zero => intro i rs rs1 ok h; simp only [copyAdjacencyLoop] at h; cases h; rfl
  | succ k ih =>
    intro i rs rs1 ok h
    unfold copyAdjacencyLoop at h
    split at h
    · rename_i ri r0 hi h0
      simp only at h
      split at h
      · cases h
        exact (counters_set_origGraph rs i ri _ hi).symm
      · rw [← ih (i + 1) _ rs1 ok h]
        exact (counters_set_origGraph rs i ri _ hi).symm
    · cases h

theorem afterTransfer_steps {G : Type} (env : Env) (lib : GraphLib G) (s s1 : Harness G)
    (g : Nat → Nat) (n : Nat) (h : afterTransfer env lib s g n = some s1) : Steps env lib s s1 := by
  unfold afterTransfer at h
  split at h
  · split at h
    · cases h
    · rename_i fw hfw
      split at h
      · cases h
      · rename_i ok rs2 hloop
        have hc2 := copyAdjacencyLoop_counters lib _ _ _ _ _ hloop
        have hg2 : Steps env lib s { s with testFramework := some ⟨rs2⟩ } :=
          Steps_single (Elem.graphs s fw ⟨rs2⟩ hfw hc2)
        split at h
        · exact hg2.trans (runTests_steps env lib _ s1 g n h)
        · cases h
          exact hg2.trans (Steps_single (Elem.raise _ _ (by intro e he; simp at he; subst he; rfl)))
  · exact runTests_steps env lib _ s1 g n h

theorem processCandidate_steps {G : Type} (env : Env) (lib : GraphLib G) (s s1 : Harness G)
    (fw : testResultFramework G) (g : Nat → Nat) (n : Nat) (hfw : s.testFramework = some fw)
    (h : processCandidate env lib s fw g n = some s1) : Steps env lib s s1 := by
  unfold processCandidate at h
  split at h
  · cases h
  · rename_i r0 rest hrs
    simp only at h
    have hc1 : fw.algResults.map testResult.counters =
        ({ r0 with origGraph := (TransferGraph lib r0.origGraph g n).2 } :: rest).map testResult.counters := by
      rw [hrs]; rfl
    have hg1 : Steps env lib s
        { s with testFramework := some ⟨{ r0 with origGraph := (TransferGraph lib r0.origGraph g n).2 } :: rest⟩ } :=
      Steps_single (Elem.graphs s fw _ hfw hc1)
    split at h
    · cases h
      exact hg1.trans (Steps_single (Elem.raise _ _
        (by intro e he; simp [WriteMatrixGraph] at he; rcases he with rfl | rfl <;> rfl)))
    · exact hg1.trans (afterTransfer_steps env lib _ s1 g n h)

/-- A call of `outprocTest` that returns is a sequence of elementary steps. -/
theorem outprocTest_steps {G : Type} (env : Env) (lib : GraphLib G) (s s1 : Harness G)
    (g : Nat → Nat) (n : Nat) (h : outprocTest env lib s g n = some s1) : Steps env lib s s1 := by
  unfold outprocTest at h
  split at h
  · cases h; exact Steps_refl
  · have hacq : Steps env lib s (acquireFramework env lib s n) := by
      unfold acquireFramework
      split
      · exact Steps_refl
      · rename_i hnone
        split
        · rename_i fw halloc
          exact Steps_single (Elem.alloc s fw n hnone halloc)
        · exact Steps_single (Elem.raise s _ (by intro e he; simp at he; subst he; rfl))
    simp only at h
    split at h
    · cases h; exact hacq
    · split at h
      · cases h
      · rename_i fw hfw
        exact hacq.trans (processCandidate_steps env lib _ s1 fw g n hfw h)

/-! ## Grand total and buckets -/

theorem sum_map_set (f : baseTestResult → Nat) :
    ∀ (l : List baseTestResult) (i : Nat) (b b1 : baseTestResult), l[i]? = some b →
      ((l.set i b1).map f).sum + f b = (l.map f).sum + f b1 := by
  intro l
  induction l with
  | nil => intro i b b1 h; simp at h
  | cons a l ih =>
    intro i b b1 h
    cases i with
    | zero =>
      simp only [List.getElem?_cons_zero, Option.some.injEq] at h
      subst h
      simp only [List.set_cons_zero, List.map_cons, List.sum_cons]
      omega
    | succ i =>
      simp only [List.getElem?_cons_succ] at h
      have := ih i b b1 h
      simp only [List.set_cons_succ, List.map_cons, List.sum_cons]
      omega

theorem le_sum_map (f : baseTestResult → Nat) (l : List baseTestResult) (i : Nat) (b : baseTestResult)
    (h : l[i]? = some b) : f b ≤ (l.map f).sum := by
  induction l generalizing i with
  | nil => simp at h
  | cons a l ih =>
    cases i with
    | zero =>
      simp only [List.getElem?_cons_zero, Option.some.injEq] at h
      subst h
      simp only [List.map_cons, List.sum_cons]
      omega
    | succ i =>
      simp only [List.getElem?_cons_succ] at h
      have := ih i h
      simp only [List.map_cons, List.sum_cons]
      omega

theorem hasCountFailure_append {G : Type} (a b : List (Event G)) :
    hasCountFailure (a ++ b) ↔ hasCountFailure a ∨ hasCountFailure b := by
  unfold hasCountFailure
  constructor
  · rintro ⟨e, he, h⟩
    rcases List.mem_append.mp he with h1 | h1
    · exact Or.inl ⟨e, h1, h⟩
    · exact Or.inr ⟨e, h1, h⟩
  · rintro (⟨e, he, h⟩ | ⟨e, he, h⟩)
    · exact ⟨e, List.mem_append_left _ he, h⟩
    · exact ⟨e, List.mem_append_right _ he, h⟩

theorem not_hasCountFailure_of_all {G : Type} (es : List (Event G))
    (h : ∀ e ∈ es, e.isCountFailure = false) : ¬ hasCountFailure es := by
  rintro ⟨e, he, h1⟩
  rw [h e he] at h1
  cases h1

theorem runAlgorithm_msgs {G : Type} (lib : GraphLib G) (command : Char) (num : Nat) (x y : G) :
    ∀ e ∈ (runAlgorithm lib command num x y).2.2, e.isCountFailure = false := by
  intro e he
  unfold runAlgorithm at he
  simp only [apply_ite Prod.snd] at he
  split_ifs at he
  all_goals first
    | (simp only [List.mem_singleton] at he; subst he; rfl)
    | (simp only [List.not_mem_nil] at he)

theorem tally_consistent {G : Type} (env : Env) (lib : GraphLib G) (r r2 : testResult G) (Result : Int)
    (h : tally env lib r Result = some r2) (hlt : r.bucketGraphs + 1 < 2 ^ env.ulongBits) :
    r2.bucketGraphs = r.bucketGraphs + 1 ∧ r2.result.numGraphs = r.result.numGraphs := by
  unfold tally at h
  split at h
  · cases h
  · rename_i b hb
    have hle : b.numGraphs ≤ (r.edgeResults.map (fun b => b.numGraphs)).sum :=
      le_sum_map (fun b => b.numGraphs) r.edgeResults _ b hb
    have hincr : ulongIncr env b.numGraphs = b.numGraphs + 1 := by
      unfold ulongIncr
      apply Nat.mod_eq_of_lt
      unfold testResult.bucketGraphs at hlt
      omega
    split at h
    · cases h
      have := sum_map_set (fun b => b.numGraphs) r.edgeResults _ b
        ⟨ulongIncr env b.numGraphs, ulongIncr env b.numOKs⟩ hb
      simp only [testResult.bucketGraphs, hincr] at this ⊢
      constructor
      · omega
      · trivial
    · cases h
      have := sum_map_set (fun b => b.numGraphs) r.edgeResults _ b
        ⟨ulongIncr env b.numGraphs, b.numOKs⟩ hb
      simp only [testResult.bucketGraphs, hincr] at this ⊢
      constructor
      · omega
      · trivial

theorem runTestOn_errorFound {G : Type} (env : Env) (lib : GraphLib G) (command : Char)
    (r : testResult G) (ef : Int) (o : RunOutcome G) (h : runTestOn env lib command r ef = some o)
    (hef : 0 ≤ ef) :
    0 ≤ o.errorFound ∧ (0 < ef → 0 < o.errorFound) ∧ (hasCountFailure o.msgs → 0 < o.errorFound) := by
  unfold runTestOn at h
  simp only at h
  split at h
  · cases h
    dsimp only
    exact ⟨by omega, fun _ => by omega, fun _ => by omega⟩
  · split at h
    · cases h
      dsimp only
      exact ⟨by omega, fun _ => by omega, fun _ => by omega⟩
    · split at h
      · cases h
      · split at h
        · cases h
          dsimp only
          refine ⟨hef, fun h => h, fun hc => ?_⟩
          exact absurd hc (not_hasCountFailure_of_all _ (runAlgorithm_msgs lib _ _ _ _))
        · cases h
          dsimp only
          exact ⟨by omega, fun _ => by omega, fun _ => by omega⟩

theorem runTestOn_consistent {G : Type} (env : Env) (lib : GraphLib G) (command : Char)
    (r : testResult G) (ef : Int) (o : RunOutcome G) (h : runTestOn env lib command r ef = some o)
    (hr : r.consistent env) (hno : ¬ hasCountFailure o.msgs) : o.testResult.consistent env := by
  obtain ⟨hsum, hlt⟩ := hr
  unfold runTestOn at h
  simp only at h
  split at h
  · cases h
    exact absurd ⟨Event.exceededMaximum, by simp, rfl⟩ hno
  · rename_i hnz
    split at h
    · cases h
      exact absurd ⟨Event.failedToCopyGraph (ulongIncr env r.result.numGraphs), by simp, rfl⟩ hno
    · have hincr : ulongIncr env r.result.numGraphs = r.result.numGraphs + 1 := by
        unfold ulongIncr at hnz ⊢
        apply Nat.mod_eq_of_lt
        by_contra hge
        have : r.result.numGraphs + 1 = 2 ^ env.ulongBits := by omega
        rw [this, Nat.mod_self] at hnz
        exact hnz rfl
      have hlt2 : r.result.numGraphs + 1 < 2 ^ env.ulongBits := by
        have := Nat.mod_lt (r.result.numGraphs + 1) (by positivity : 2 ^ env.ulongBits > 0)
        unfold ulongIncr at hincr
        omega
      split at h
      · cases h
      · rename_i r2 htally
        have ht := tally_consistent env lib _ r2 _ htally
          (by simp only [testResult.bucketGraphs] at hsum ⊢; omega)
        simp only [testResult.bucketGraphs, hincr] at ht
        have hres : o.testResult = r2 := by
          split at h <;> (cases h; rfl)
        rw [hres]
        unfold testResult.consistent testResult.bucketGraphs
        simp only [testResult.bucketGraphs] at hsum
        omega

theorem tf_allocResults_fresh {G : Type} (lib : GraphLib G) (n maxe : Nat) :
    ∀ (cs : List Char) (rs : List (testResult G)), tf_allocResults lib n maxe cs = some rs →
      rs.map (fun r => r.command) = cs ∧
      ∀ r ∈ rs, r.result = ⟨0, 0⟩ ∧ r.edgeResults = List.replicate (maxe + 1) ⟨0, 0⟩ := by
  intro cs
  induction cs with
  | nil => intro rs h; simp only [tf_allocResults, Option.some.injEq] at h; subst h; simp
  | cons c cs ih =>
    intro rs h
    unfold tf_allocResults at h
    split at h
    · rename_i r rs1 hr hrs
      cases h
      obtain ⟨hc, hall⟩ := ih rs1 hrs
      unfold tf_initTestResult at hr
      split at hr
      · cases hr
      · cases hr
        refine ⟨by simp [hc], ?_⟩
        intro r hmem
        rcases List.mem_cons.mp hmem with rfl | hmem
        · exact ⟨rfl, rfl⟩
        · exact hall r hmem
    · cases h

theorem bucketGraphs_replicate (k : Nat) :
    ((List.replicate k (⟨0, 0⟩ : baseTestResult)).map (fun b => b.numGraphs)).sum = 0 := by
  induction k with
  | zero => rfl
  | succ k ih => simp [List.replicate_succ, ih]

theorem consistent_of_counters {G : Type} (env : Env) (r r1 : testResult G)
    (h : r.counters = r1.counters) (hr : r.consistent env) : r1.consistent env := by
  unfold testResult.counters at h
  simp only [Prod.mk.injEq] at h
  obtain ⟨_, h2, h3⟩ := h
  unfold testResult.consistent testResult.bucketGraphs at hr ⊢
  rw [← h2, ← h3]
  exact hr

theorem Elem_countInv {G : Type} (env : Env) (lib : GraphLib G) (s s1 : Harness G)
    (h : Elem env lib s s1) (hinv : CountInv env s) : CountInv env s1 := by
  obtain ⟨hA, hB, hC⟩ := hinv
  cases h with
  | graphs fw fw1 hfw hc =>
    refine ⟨hA, hB, ?_⟩
    intro hno fw2 hfw2 r1 hr1
    simp only [Option.some.injEq] at hfw2
    subst hfw2
    have hmem : r1.counters ∈ fw.algResults.map testResult.counters := by
      rw [hc]; exact List.mem_map_of_mem _ hr1
    obtain ⟨r, hr, heq⟩ := List.mem_map.mp hmem
    exact consistent_of_counters env r r1 heq (hC hno fw hfw r hr)
  | alloc fw n hnone halloc =>
    refine ⟨hA, hB, ?_⟩
    intro hno fw2 hfw2 r hr
    simp only [Option.some.injEq] at hfw2
    subst hfw2
    unfold tf_AllocateTestFramework at halloc
    split at halloc
    · cases halloc
    · rename_i rs hrs
      cases halloc
      obtain ⟨h1, h2⟩ := (tf_allocResults_fresh lib n env.g_maxe _ rs hrs).2 r hr
      unfold testResult.consistent testResult.bucketGraphs
      rw [h1, h2, bucketGraphs_replicate]
      exact ⟨rfl, by positivity⟩
  | raise es hes =>
    refine ⟨by simp only; omega, fun _ => by simp only; omega, ?_⟩
    intro hno fw hfw r hr
    simp only [hasCountFailure_append, not_or] at hno
    exact hC hno.1 fw hfw r hr
  | log es hes =>
    refine ⟨hA, ?_, ?_⟩
    · intro hf
      simp only [hasCountFailure_append] at hf
      rcases hf with hf | hf
      · exact hB hf
      · exact absurd hf (not_hasCountFailure_of_all es hes)
    · intro hno fw hfw r hr
      simp only [hasCountFailure_append, not_or] at hno
      exact hC hno.1 fw hfw r hr
  | run _ command rc hrun =>
    unfold runTest at hrun
    split at hrun
    · cases hrun
    · rename_i fw hfw
      split at hrun
      · cases hrun
      · rename_i i hi
        split at hrun
        · cases hrun
        · rename_i r hr
          split at hrun
          · cases hrun
          · rename_i o ho
            cases hrun
            obtain ⟨h1, h2, h3⟩ := runTestOn_errorFound env lib command r s.errorFound o ho hA
            refine ⟨h1, ?_, ?_⟩
            · intro hf
              simp only [hasCountFailure_append] at hf
              rcases hf with hf | hf
              · exact h2 (hB hf)
              · exact h3 hf
            · intro hno fw2 hfw2 r1 hr1
              simp only [hasCountFailure_append, not_or] at hno
              simp only [Option.some.injEq] at hfw2
              subst hfw2
              have hold := hC hno.1 fw hfw
              rcases List.mem_or_eq_of_mem_set hr1 with hm | rfl
              · exact hold r1 hm
              · exact runTestOn_consistent env lib command r s.errorFound o ho
                  (hold r (List.getElem?_mem hr)) hno.2

theorem Steps_countInv {G : Type} (env : Env) (lib : GraphLib G) (s s1 : Harness G)
    (h : Steps env lib s s1) (hinv : CountInv env s) : CountInv env s1 := by
  induction h with
  | refl => exact hinv
  | tail _ hstep ih => exact Elem_countInv env lib _ _ hstep ih

theorem Reachable_countInv {G : Type} (env : Env) (lib : GraphLib G) (s : Harness G)
    (h : Reachable env lib s) : CountInv env s := by
  induction h with
  | init =>
    refine ⟨le_refl _, ?_, ?_⟩
    · rintro ⟨e, he, _⟩; simp [Harness.init] at he
    · intro _ fw hfw; simp [Harness.init] at hfw
  | outprocTest s s1 g n _ hcall ih =>
    exact Steps_countInv env lib s s1 (outprocTest_steps env lib s s1 g n hcall) ih
  | runTest s s1 command rc _ hcall ih =>
    exact Elem_countInv env lib s s1 (Elem.run s s1 command rc hcall) ih

theorem summary_extract {G : Type} (x : Option (Harness G)) (ef : Int)
    (l : List (Char × Nat × Nat × Nat × Nat)) (h : x.map Harness.summary = some (ef, some l)) :
    ∃ s fw, x = some s ∧ s.errorFound = ef ∧ s.testFramework = some fw ∧
      fw.algResults.map testResult.summary = l := by
  cases x with
  | none => simp at h
  | some s =>
    simp only [Option.map_some', Option.some.injEq, Harness.summary, Prod.mk.injEq] at h
    obtain ⟨h1, h2⟩ := h
    cases hfw : s.testFramework with
    | none => rw [hfw] at h2; simp at h2
    | some fw =>
      rw [hfw] at h2
      simp only [Option.map_some', Option.some.injEq] at h2
      exact ⟨s, fw, rfl, h1, hfw, h2⟩

/-! ## C2: grand total and buckets of `numGraphs` -/

/-- C2 (amended).  In every state reachable from program start by calls of `outprocTest`
and `runTest` in which no counter overflow and no failed copy has been reported, in
particular whenever `errorFound` is 0, and whatever else the algorithms return, the
grand total `result.numGraphs` of every entry equals the sum over all edge-count
buckets of `edgeResults[m].numGraphs`. -/
theorem numGraphs_eq_bucket_sum {G : Type} (env : Env) (lib : GraphLib G) (s : Harness G)
    (h : Reachable env lib s) (hno : s.errorFound = 0 ∨ ¬ hasCountFailure s.out)
    (fw : testResultFramework G) (hfw : s.testFramework = some fw)
    (r : testResult G) (hr : r ∈ fw.algResults) :
    r.result.numGraphs = (r.edgeResults.map (fun b => b.numGraphs)).sum := by
  obtain ⟨_, hB, hC⟩ := Reachable_countInv env lib s h
  have hno2 : ¬ hasCountFailure s.out := by
    rcases hno with h0 | h0
    · intro hf
      have := hB hf
      omega
    · exact h0
  exact (hC hno2 fw hfw r hr).1

theorem numGraphs_eq_bucket_sum_witness :
    ∃ (s : Harness WorkingGraph) (fw : testResultFramework WorkingGraph) (r : testResult WorkingGraph),
      Reachable exampleEnv exampleLib s ∧ s.errorFound = 0 ∧ s.testFramework = some fw ∧
      r ∈ fw.algResults ∧ r.result.numGraphs = 1 ∧
      (r.edgeResults.map (fun b => b.numGraphs)).sum = 1 := by
  have hev : (outprocTest exampleEnv exampleLib (Harness.init WorkingGraph) triangle 3).map Harness.summary
      = some (0, some [('p', 1, 1, 1, 1)]) := rfl
  obtain ⟨s, fw, hs, hef, hfw, hl⟩ := summary_extract _ _ _ hev
  obtain ⟨r, rs, hrs, hr, _⟩ := List.map_eq_cons_iff.mp hl
  have hreach : Reachable exampleEnv exampleLib s :=
    Reachable.outprocTest _ s triangle 3 Reachable.init hs
  have hmem : r ∈ fw.algResults := by rw [hrs]; exact List.mem_cons_self _ _
  have hnum : r.result.numGraphs = 1 := by
    simp only [testResult.summary, Prod.mk.injEq] at hr; exact hr.2.1
  have := numGraphs_eq_bucket_sum exampleEnv exampleLib s hreach (Or.inl hef) fw hfw r hmem
  exact ⟨s, fw, r, hreach, hef, hfw, hmem, hnum, by rw [← this, hnum]⟩

/-- C2 as stated fails: when `gp_CopyGraph` fails on the first candidate, the state
reached has grand total `numGraphs = 1` while every bucket is still 0. -/
theorem numGraphs_bucket_sum_counterexample :
    ∃ (s : Harness WorkingGraph) (fw : testResultFramework WorkingGraph) (r : testResult WorkingGraph),
      Reachable exampleEnv copyFailLib s ∧ s.testFramework = some fw ∧ r ∈ fw.algResults ∧
      r.result.numGraphs = 1 ∧ (r.edgeResults.map (fun b => b.numGraphs)).sum = 0 := by
  have hev : (outprocTest exampleEnv copyFailLib (Harness.init WorkingGraph) triangle 3).map Harness.summary
      = some (1, some [('p', 1, 0, 0, 0)]) := rfl
  obtain ⟨s, fw, hs, _, hfw, hl⟩ := summary_extract _ _ _ hev
  obtain ⟨r, rs, hrs, hr, _⟩ := List.map_eq_cons_iff.mp hl
  have hreach : Reachable exampleEnv copyFailLib s :=
    Reachable.outprocTest _ s triangle 3 Reachable.init hs
  have hmem : r ∈ fw.algResults := by rw [hrs]; exact List.mem_cons_self _ _
  simp only [testResult.summary, testResult.bucketGraphs, Prod.mk.injEq] at hr
  exact ⟨s, fw, r, hreach, hfw, hmem, hr.2.1, hr.2.2.1⟩

/-! ## Refused insertions -/

theorem transferRow_capacity {G : Type} (lib : GraphLib G) (hk : keepsCapacity lib) (n i row : Nat) :
    ∀ (k j PO2 : Nat) (ec : Int) (x : G),
      lib.gp_GetArcCapacity (transferRow lib n i row k j PO2 ec x).2 = lib.gp_GetArcCapacity x := by
  intro k
  induction k with
  | zero => intro j PO2 ec x; rfl
  | succ k ih =>
    intro j PO2 ec x
    unfold transferRow
    split
    · simp only
      split
      · exact hk.2.2 x i j
      · rw [ih]; exact hk.2.2 x i j
    · exact ih _ _ _ _

theorem transferRows_capacity {G : Type} (lib : GraphLib G) (hk : keepsCapacity lib) (g : Nat → Nat)
    (n : Nat) :
    ∀ (k i : Nat) (ec : Int) (x : G),
      lib.gp_GetArcCapacity (transferRows lib g n k i ec x).2 = lib.gp_GetArcCapacity x := by
  intro k
  induction k with
  | zero => intro i ec x; rfl
  | succ k ih =>
    intro i ec x
    unfold transferRows
    split
    · simp only
      rw [ih, transferRow_capacity lib hk]
      exact hk.2.1 x i
    · rfl

theorem noRefusal_concat (tr : List LibCall) (u ul v vl : Nat) (ret : Int) (h : noRefusal tr)
    (hret : ret ≠ NONEMBEDDABLE) : noRefusal (tr ++ [LibCall.addEdge u ul v vl ret]) := by
  intro a b c d hmem
  rcases List.mem_append.mp hmem with h1 | h1
  · exact h a b c d h1
  · simp only [List.mem_singleton, LibCall.addEdge.injEq] at h1
    exact hret h1.2.2.2.2.symm

theorem noRefusal_concat_other (tr : List LibCall) (c : LibCall) (h : noRefusal tr)
    (hc : ∀ u ul v vl ret, c ≠ LibCall.addEdge u ul v vl ret) : noRefusal (tr ++ [c]) := by
  intro a b d e hmem
  rcases List.mem_append.mp hmem with h1 | h1
  · exact h a b d e h1
  · simp only [List.mem_singleton] at h1
    exact hc a b d e NONEMBEDDABLE h1.symm

theorem transferRow_exact {G : Type} (lib : GraphLib G) (hk : keepsCapacity lib) (n i row : Nat) :
    ∀ (k j PO2 : Nat) (x : G) (tr : List LibCall),
      lib.gp_GetArcCapacity x / 2 = n * (n - 1) / 2 → noRefusal tr →
      (transferRow (traced lib) n i row k j PO2 OK (x, tr)).1 ≠ NOTOK →
      noRefusal (transferRow (traced lib) n i row k j PO2 OK (x, tr)).2.2 := by
  intro k
  induction k with
  | zero => intro j PO2 x tr _ htr _; exact htr
  | succ k ih =>
    intro j PO2 x tr hcap htr
    unfold transferRow
    by_cases h : row &&& PO2 ≠ 0
    · rw [if_pos h]
      simp only [traced_addEdge]
      have hcap2 : lib.gp_GetArcCapacity (lib.gp_AddEdge x i 0 j 0).2 / 2 = n * (n - 1) / 2 := by
        rw [hk.2.2 x i j]; exact hcap
      by_cases hc : (lib.gp_AddEdge x i 0 j 0).1 ≠ OK
      · rw [if_pos hc]
        simp only [addEdgeFailure, traced]
        by_cases hne : (lib.gp_AddEdge x i 0 j 0).1 = NONEMBEDDABLE
        · rw [if_pos hne, if_pos hcap2]
          intro hcontra
          exact absurd rfl hcontra
        · intro _
          exact noRefusal_concat tr i 0 j 0 _ htr hne
      · rw [if_neg hc]
        have hc2 : (lib.gp_AddEdge x i 0 j 0).1 = OK := not_not.mp hc
        rw [hc2]
        exact ih (j + 1) (PO2 >>> 1) _ _ hcap2 (noRefusal_concat tr i 0 j 0 OK htr (by decide))
    · rw [if_neg h]
      exact ih (j + 1) (PO2 >>> 1) x tr hcap htr

theorem transferRows_exact {G : Type} (lib : GraphLib G) (hk : keepsCapacity lib) (g : Nat → Nat)
    (n : Nat) :
    ∀ (k i : Nat) (x : G) (tr : List LibCall),
      lib.gp_GetArcCapacity x / 2 = n * (n - 1) / 2 → noRefusal tr →
      (transferRows (traced lib) g n k i OK (x, tr)).1 ≠ NOTOK →
      noRefusal (transferRows (traced lib) g n k i OK (x, tr)).2.2 := by
  intro k
  induction k with
  | zero => intro i x tr _ htr _; exact htr
  | succ k ih =>
    intro i x tr hcap htr
    unfold transferRows
    rw [if_pos rfl]
    simp only [traced_setVertexV]
    have hcap1 : lib.gp_GetArcCapacity (lib.setVertexV x i) / 2 = n * (n - 1) / 2 := by
      rw [hk.2.1 x i]; exact hcap
    have htr1 : noRefusal (tr ++ [LibCall.setVertexV i]) :=
      noRefusal_concat_other tr _ htr (by intro _ _ _ _ _ hh; cases hh)
    have hrow := transferRow_exact lib hk n i (g i) (n - (i + 1)) (i + 1)
      ((1 <<< (MAXN - 1)) >>> (i + 1)) (lib.setVertexV x i) (tr ++ [LibCall.setVertexV i]) hcap1 htr1
    have hsim := transferRow_traced_fst lib n i (g i) (n - (i + 1)) (i + 1)
      ((1 <<< (MAXN - 1)) >>> (i + 1)) OK (lib.setVertexV x i, tr ++ [LibCall.setVertexV i])
    have hcapr := transferRow_capacity lib hk n i (g i) (n - (i + 1)) (i + 1)
      ((1 <<< (MAXN - 1)) >>> (i + 1)) OK (lib.setVertexV x i)
    generalize transferRow (traced lib) n i (g i) (n - (i + 1)) (i + 1) ((1 <<< (MAXN - 1)) >>> (i + 1)) OK
      (lib.setVertexV x i, tr ++ [LibCall.setVertexV i]) = r at hrow hsim
    obtain ⟨c, y, t⟩ := r
    simp only at hrow hsim ⊢
    by_cases hc : c = OK
    · subst hc
      have hcapy : lib.gp_GetArcCapacity y / 2 = n * (n - 1) / 2 := by
        rw [hsim.2, hcapr]; exact hcap1
      exact ih (i + 1) y t hcapy (hrow (by decide))
    · intro hres
      have hstop : transferRows (traced lib) g n k (i + 1) c (y, t) = (c, (y, t)) := by
        cases k with
        | zero => rfl
        | succ k => unfold transferRows; rw [if_neg hc]
      rw [hstop] at hres ⊢
      exact hrow hres

theorem transferRow_shortfall {G : Type} (lib : GraphLib G) (hk : keepsCapacity lib) (n i row : Nat) :
    ∀ (k j PO2 : Nat) (x : G) (tr : List LibCall),
      lib.gp_GetArcCapacity x / 2 ≠ n * (n - 1) / 2 →
      onlyRefusals (transferRow (traced lib) n i row k j PO2 OK (x, tr)).2.2 →
      (transferRow (traced lib) n i row k j PO2 OK (x, tr)).1 = OK := by
  intro k
  induction k with
  | zero => intro j PO2 x tr _ _; rfl
  | succ k ih =>
    intro j PO2 x tr hcap
    unfold transferRow
    by_cases h : row &&& PO2 ≠ 0
    · rw [if_pos h]
      simp only [traced_addEdge]
      have hcap2 : lib.gp_GetArcCapacity (lib.gp_AddEdge x i 0 j 0).2 / 2 ≠ n * (n - 1) / 2 := by
        rw [hk.2.2 x i j]; exact hcap
      by_cases hc : (lib.gp_AddEdge x i 0 j 0).1 ≠ OK
      · rw [if_pos hc]
        intro hall
        have := hall i 0 j 0 (lib.gp_AddEdge x i 0 j 0).1 (by simp)
        rcases this with h1 | h1
        · exact absurd h1 hc
        · simp only [addEdgeFailure, traced]
          rw [if_pos h1, if_neg hcap2]
      · rw [if_neg hc]
        have hc2 : (lib.gp_AddEdge x i 0 j 0).1 = OK := not_not.mp hc
        rw [hc2]
        exact ih (j + 1) (PO2 >>> 1) _ _ hcap2
    · rw [if_neg h]
      exact ih (j + 1) (PO2 >>> 1) x tr hcap

theorem transferRows_shortfall {G : Type} (lib : GraphLib G) (hk : keepsCapacity lib) (g : Nat → Nat)
    (n : Nat) :
    ∀ (k i : Nat) (x : G) (tr : List LibCall),
      lib.gp_GetArcCapacity x / 2 ≠ n * (n - 1) / 2 →
      onlyRefusals (transferRows (traced lib) g n k i OK (x, tr)).2.2 →
      (transferRows (traced lib) g n k i OK (x, tr)).1 = OK := by
  intro k
  induction k with
  | zero => intro i x tr _ _; rfl
  | succ k ih =>
    intro i x tr hcap
    unfold transferRows
    rw [if_pos rfl]
    simp only [traced_setVertexV]
    have hcap1 : lib.gp_GetArcCapacity (lib.setVertexV x i) / 2 ≠ n * (n - 1) / 2 := by
      rw [hk.2.1 x i]; exact hcap
    have hrow := transferRow_shortfall lib hk n i (g i) (n - (i + 1)) (i + 1)
      ((1 <<< (MAXN - 1)) >>> (i + 1)) (lib.setVertexV x i) (tr ++ [LibCall.setVertexV i]) hcap1
    have hsim := transferRow_traced_fst lib n i (g i) (n - (i + 1)) (i + 1)
      ((1 <<< (MAXN - 1)) >>> (i + 1)) OK (lib.setVertexV x i, tr ++ [LibCall.setVertexV i])
    have hcapr := transferRow_capacity lib hk n i (g i) (n - (i + 1)) (i + 1)
      ((1 <<< (MAXN - 1)) >>> (i + 1)) OK (lib.setVertexV x i)
    have hext := transferRows_trace_extends lib g n k (i + 1)
      (transferRow (traced lib) n i (g i) (n - (i + 1)) (i + 1) ((1 <<< (MAXN - 1)) >>> (i + 1)) OK
        (lib.setVertexV x i, tr ++ [LibCall.setVertexV i])).1
      (transferRow (traced lib) n i (g i) (n - (i + 1)) (i + 1) ((1 <<< (MAXN - 1)) >>> (i + 1)) OK
        (lib.setVertexV x i, tr ++ [LibCall.setVertexV i])).2
    generalize transferRow (traced lib) n i (g i) (n - (i + 1)) (i + 1) ((1 <<< (MAXN - 1)) >>> (i + 1)) OK
      (lib.setVertexV x i, tr ++ [LibCall.setVertexV i]) = r at hrow hsim hext
    obtain ⟨c, y, t⟩ := r
    simp only at hrow hsim hext ⊢
    intro hall
    obtain ⟨t2, ht2⟩ := hext
    have hin : onlyRefusals t := by
      intro u ul v vl ret hmem
      exact hall u ul v vl ret (by rw [ht2]; exact List.mem_append_left _ hmem)
    have hc : c = OK := hrow hin
    subst hc
    have hcapy : lib.gp_GetArcCapacity y / 2 ≠ n * (n - 1) / 2 := by
      rw [hsim.2, hcapr]; exact hcap1
    exact ih (i + 1) y t hcapy hall

theorem outprocTest_of_framework {G : Type} (env : Env) (lib : GraphLib G) (s : Harness G)
    (fw : testResultFramework G) (g : Nat → Nat) (n : Nat) (hs : s.errorFound = 0)
    (hfw : s.testFramework = some fw) :
    outprocTest env lib s g n = processCandidate env lib s fw g n := by
  unfold outprocTest acquireFramework
  simp [hs, hfw]

theorem modelLib_keepsCapacity (embed : EmbedFlags → WorkingGraph → Int)
    (check : WorkingGraph → Int → Int) (colors : WorkingGraph → Int) (copy : Int) :
    keepsCapacity (modelLib embed check colors copy) := by
  refine ⟨fun _ => rfl, fun _ _ => rfl, ?_⟩
  intro x u v
  simp only [modelLib]
  split <;> rfl

/-! ## C3: corruption and expected shortfall -/

/-- C3.  Let the library keep the arc capacity of the target, and let `outprocTest` be
called with `errorFound = 0` and the framework in place.  If the arc capacity of
the target is that of the complete graph (`gp_GetArcCapacity/2 == n(n-1)/2`) and
an insertion is refused with `NONEMBEDDABLE`, then `TransferGraph` returns `NOTOK`
and `outprocTest` reports the failed transfer and returns with `errorFound = 1`.
If the capacity is below that and the insertions are only refused with
`NONEMBEDDABLE`, then `TransferGraph` returns `OK` and `outprocTest` goes on with
`errorFound` and the output unchanged. -/
theorem TransferGraph_refusal_classification {G : Type} (env : Env) (lib : GraphLib G)
    (hk : keepsCapacity lib) (g : Nat → Nat) (n : Nat) (s : Harness G)
    (fw : testResultFramework G) (r0 : testResult G) (rest : List (testResult G))
    (hs : s.errorFound = 0) (hfw : s.testFramework = some fw) (hrs : fw.algResults = r0 :: rest) :
    (lib.gp_GetArcCapacity r0.origGraph / 2 = n * (n - 1) / 2 →
      (∃ u ul v vl, LibCall.addEdge u ul v vl NONEMBEDDABLE ∈
        (TransferGraph (traced lib) (r0.origGraph, []) g n).2.2) →
      (TransferGraph lib r0.origGraph g n).1 = NOTOK ∧
      outprocTest env lib s g n =
        some { s with
          testFramework := some ⟨{ r0 with origGraph := (TransferGraph lib r0.origGraph g n).2 } :: rest⟩,
          errorFound := 1,
          out := s.out ++ [Event.failedToInitialize, WriteMatrixGraph "errorMatrix.txt" g n] }) ∧
    (lib.gp_GetArcCapacity r0.origGraph / 2 < n * (n - 1) / 2 →
      onlyRefusals (TransferGraph (traced lib) (r0.origGraph, []) g n).2.2 →
      (TransferGraph lib r0.origGraph g n).1 = OK ∧
      outprocTest env lib s g n =
        afterTransfer env lib
          { s with
            testFramework := some ⟨{ r0 with origGraph := (TransferGraph lib r0.origGraph g n).2 } :: rest⟩ }
          g n) := by
  have hunf : TransferGraph (traced lib) (r0.origGraph, []) g n =
      transferRows (traced lib) g n (n - 1) 0 OK
        (lib.gp_ReinitializeGraph r0.origGraph, [LibCall.reinitialize]) := rfl
  have hsim := (TransferGraph_traced lib (r0.origGraph, []) g n).1
  have hinit : noRefusal [LibCall.reinitialize] := by
    intro u ul v vl hmem
    simp at hmem
  rw [outprocTest_of_framework env lib s fw g n hs hfw]
  unfold processCandidate
  rw [hrs]
  simp only
  constructor
  · intro hcap hex
    have hres : (TransferGraph lib r0.origGraph g n).1 = NOTOK := by
      by_contra hne
      rw [← hsim, hunf] at hne
      have := transferRows_exact lib hk g n (n - 1) 0 (lib.gp_ReinitializeGraph r0.origGraph)
        [LibCall.reinitialize] (by rw [hk.1]; exact hcap) hinit hne
      rw [← hunf] at this
      obtain ⟨u, ul, v, vl, hmem⟩ := hex
      exact this u ul v vl hmem
    refine ⟨hres, ?_⟩
    rw [if_pos (by rw [hres]; decide)]
    simp [hs]
  · intro hcap hall
    have hres : (TransferGraph lib r0.origGraph g n).1 = OK := by
      rw [← hsim, hunf]
      rw [hunf] at hall
      exact transferRows_shortfall lib hk g n (n - 1) 0 (lib.gp_ReinitializeGraph r0.origGraph)
        [LibCall.reinitialize] (by rw [hk.1]; exact Nat.ne_of_lt hcap) hall
    refine ⟨hres, ?_⟩
    rw [if_neg (by rw [hres]; decide)]

theorem TransferGraph_refusal_classification_witness :
    (stateWith 'p' smallGraph).errorFound = 0 ∧
    LibCall.addEdge 0 0 1 0 NONEMBEDDABLE ∈
      (TransferGraph (traced refusingLib) (exampleGraph, []) triangle 3).2.2 ∧
    (TransferGraph refusingLib exampleGraph triangle 3).1 = NOTOK ∧
    LibCall.addEdge 0 0 2 0 NONEMBEDDABLE ∈
      (TransferGraph (traced exampleLib) (smallGraph, []) triangle 3).2.2 ∧
    (TransferGraph exampleLib smallGraph triangle 3).1 = OK ∧
    outprocTest exampleEnv exampleLib (stateWith 'p' smallGraph) triangle 3 =
      afterTransfer exampleEnv exampleLib
        { stateWith 'p' smallGraph with
          testFramework := some ⟨[{ command := 'p', result := ⟨0, 0⟩,
                                    edgeResults := List.replicate 4 ⟨0, 0⟩,
                                    theGraph := smallGraph,
                                    origGraph := (TransferGraph exampleLib smallGraph triangle 3).2 }]⟩ }
        triangle 3 := by
  have htr : (TransferGraph (traced exampleLib) (smallGraph, []) triangle 3).2.2 =
      [LibCall.reinitialize, LibCall.setVertexV 0, LibCall.addEdge 0 0 1 0 OK,
       LibCall.addEdge 0 0 2 0 NONEMBEDDABLE, LibCall.setVertexV 1,
       LibCall.addEdge 1 0 2 0 NONEMBEDDABLE] := by decide
  have hall : onlyRefusals (TransferGraph (traced exampleLib) (smallGraph, []) triangle 3).2.2 := by
    rw [htr]
    intro u ul v vl ret hmem
    simp only [List.mem_cons, LibCall.addEdge.injEq, List.mem_singleton, reduceCtorEq, false_or,
      List.not_mem_nil, or_false] at hmem
    rcases hmem with h | h | h
    · exact Or.inl h.2.2.2.2
    · exact Or.inr h.2.2.2.2
    · exact Or.inr h.2.2.2.2
  have h := (TransferGraph_refusal_classification exampleEnv exampleLib
    (modelLib_keepsCapacity _ _ _ _) triangle 3 (stateWith 'p' smallGraph) _ _ [] rfl rfl rfl).2
    (by decide) hall
  have hk2 : keepsCapacity refusingLib := ⟨fun _ => rfl, fun _ _ => rfl, fun _ _ _ => rfl⟩
  have hmem : LibCall.addEdge 0 0 1 0 NONEMBEDDABLE ∈
      (TransferGraph (traced refusingLib) (exampleGraph, []) triangle 3).2.2 := by decide
  have ha := (TransferGraph_refusal_classification exampleEnv refusingLib hk2 triangle 3
    (stateWith 'p' exampleGraph) _ _ [] rfl rfl rfl).1 (by decide) ⟨0, 0, 1, 0, hmem⟩
  exact ⟨rfl, hmem, ha.1, by rw [htr]; simp, h.1, h.2⟩

/-! ## The entries of the selectors -/

theorem runTestOn_command {G : Type} (env : Env) (lib : GraphLib G) (command : Char)
    (r : testResult G) (ef : Int) (o : RunOutcome G) (h : runTestOn env lib command r ef = some o) :
    o.testResult.command = r.command := by
  unfold runTestOn at h
  simp only at h
  split at h
  · cases h; rfl
  · split at h
    · cases h; rfl
    · split at h
      · cases h
      · rename_i r2 htally
        have hr2 : r2.command = r.command := by
          unfold tally at htally
          split at htally
          · cases htally
          · split at htally <;> (cases htally; rfl)
        split at h <;> (cases h; exact hr2)

theorem tf_GetTestResult_get {G : Type} :
    ∀ (rs : List (testResult G)) (c : Char) (i : Nat), tf_GetTestResult rs c = some i →
      ∃ r, rs[i]? = some r ∧ r.command = c := by
  intro rs
  induction rs with
  | nil => intro c i h; simp [tf_GetTestResult] at h
  | cons a rs ih =>
    intro c i h
    unfold tf_GetTestResult at h
    split at h
    · rename_i hc
      cases h
      exact ⟨a, List.getElem?_cons_zero, hc⟩
    · split at h
      · cases h
      · rename_i j hj
        cases h
        obtain ⟨r, hr, hrc⟩ := ih c j hj
        exact ⟨r, by simpa using hr, hrc⟩

theorem tf_GetTestResult_set {G : Type} :
    ∀ (rs : List (testResult G)) (c : Char) (j : Nat) (r r1 : testResult G),
      rs[j]? = some r → r1.command = r.command →
      tf_GetTestResult (rs.set j r1) c = tf_GetTestResult rs c := by
  intro rs
  induction rs with
  | nil => intro c j r r1 h; simp at h
  | cons a rs ih =>
    intro c j r r1 h hc
    cases j with
    | zero =>
      simp only [List.getElem?_cons_zero, Option.some.injEq] at h
      subst h
      simp only [List.set_cons_zero, tf_GetTestResult, hc]
    | succ j =>
      simp only [List.getElem?_cons_succ] at h
      simp only [List.set_cons_succ, tf_GetTestResult, ih c j r r1 h hc]

theorem getEntry_set_other {G : Type} (rs : List (testResult G)) (c c1 : Char) (j : Nat)
    (r r1 : testResult G) (hj : tf_GetTestResult rs c1 = some j) (hr : rs[j]? = some r)
    (hc : r1.command = r.command) (hne : c ≠ c1) :
    getEntry (rs.set j r1) c = getEntry rs c := by
  unfold getEntry
  rw [tf_GetTestResult_set rs c j r r1 hr hc]
  cases hi : tf_GetTestResult rs c with
  | none => rfl
  | some i =>
    simp only
    have hij : j ≠ i := by
      intro heq
      subst heq
      obtain ⟨ra, hra, hrac⟩ := tf_GetTestResult_get rs c j hi
      obtain ⟨rb, hrb, hrbc⟩ := tf_GetTestResult_get rs c1 j hj
      rw [hra] at hrb
      cases hrb
      exact hne (hrac.symm.trans hrbc)
    rw [List.getElem?_set_ne hij]

theorem getEntry_set_self {G : Type} (rs : List (testResult G)) (c : Char) (j : Nat)
    (r r1 : testResult G) (hj : tf_GetTestResult rs c = some j) (hr : rs[j]? = some r)
    (hc : r1.command = r.command) :
    getEntry (rs.set j r1) c = some r1 := by
  unfold getEntry
  rw [tf_GetTestResult_set rs c j r r1 hr hc, hj]
  simp only
  have hlt : j < rs.length := (List.getElem?_eq_some_iff.mp hr).1
  rw [List.getElem?_set_self hlt]

/-- What a call of `runTest` does, in terms of the entry of its selector. -/
theorem runTest_spec {G : Type} (env : Env) (lib : GraphLib G) (s s1 : Harness G) (c : Char)
    (rc : Int) (h : runTest env lib s c = some (rc, s1)) :
    ∃ r o, s.entry c = some r ∧ runTestOn env lib c r s.errorFound = some o ∧
      s1.entry c = some o.testResult ∧ s1.errorFound = o.errorFound ∧
      s1.out = s.out ++ o.msgs ∧
      rc = (if o.Result = OK ∨ o.Result = NONEMBEDDABLE then OK else NOTOK) ∧
      (∀ c1, c1 ≠ c → s1.entry c1 = s.entry c1) := by
  unfold runTest at h
  split at h
  · cases h
  · rename_i fw hfw
    split at h
    · cases h
    · rename_i i hi
      split at h
      · cases h
      · rename_i r hr
        split at h
        · cases h
        · rename_i o ho
          simp only [Option.some.injEq, Prod.mk.injEq] at h
          obtain ⟨hrc, hs1⟩ := h
          subst hs1
          have hcmd := runTestOn_command env lib c r s.errorFound o ho
          refine ⟨r, o, ?_, ho, ?_, rfl, rfl, hrc.symm, ?_⟩
          · simp only [Harness.entry, hfw, getEntry, hi, hr]
          · simp only [Harness.entry]
            exact getEntry_set_self fw.algResults c i r o.testResult hi hr hcmd
          · intro c1 hne
            simp only [Harness.entry, hfw]
            exact getEntry_set_other fw.algResults c1 c i r o.testResult hi hr hcmd hne

theorem runTestOn_fails_iff {G : Type} (env : Env) (lib : GraphLib G) (command : Char)
    (r : testResult G) (o : RunOutcome G) (h : runTestOn env lib command r 0 = some o) :
    (o.Result = OK ∨ o.Result = NONEMBEDDABLE) ↔ o.errorFound = 0 := by
  unfold runTestOn at h
  simp only at h
  split at h
  · cases h
    simp [NOTOK, OK, NONEMBEDDABLE]
  · split at h
    · cases h
      simp [NOTOK, OK, NONEMBEDDABLE]
    · split at h
      · cases h
      · split at h
        · rename_i hres
          cases h
          simpa using hres
        · rename_i hres
          cases h
          simpa using hres

theorem reportFailure_frame {G : Type} (s s1 : Harness G) (g : Nat → Nat) (n : Nat)
    (h : reportFailure s g n = some s1) :
    s1.testFramework = s.testFramework ∧ s1.errorFound = s.errorFound := by
  unfold reportFailure at h
  split at h
  · cases h
  · split at h
    · cases h
    · cases h; exact ⟨rfl, rfl⟩

theorem printProgress_frame {G : Type} (env : Env) (s s1 : Harness G)
    (h : printProgress env s = some s1) :
    s1.testFramework = s.testFramework ∧ s1.errorFound = s.errorFound := by
  unfold printProgress at h
  split at h
  · split at h
    · cases h
    · split at h
      · cases h
      · split at h <;> (cases h; exact ⟨rfl, rfl⟩)
  · cases h; exact ⟨rfl, rfl⟩

theorem entry_of_framework {G : Type} (s s1 : Harness G) (c : Char)
    (h : s1.testFramework = s.testFramework) : s1.entry c = s.entry c := by
  unfold Harness.entry
  rw [h]

theorem runAllTests_entry {G : Type} (env : Env) (lib : GraphLib G) (g : Nat → Nat) (n : Nat)
    (c : Char) :
    ∀ (cs : List Char) (s s1 : Harness G), runAllTests env lib g n cs s = some s1 → c ∉ cs →
      s1.entry c = s.entry c := by
  intro cs
  induction cs with
  | nil => intro s s1 h _; simp only [runAllTests] at h; cases h; rfl
  | cons c0 cs ih =>
    intro s s1 h hc
    have hne : c ≠ c0 := fun heq => hc (by rw [heq]; exact List.mem_cons_self _ _)
    have hcs : c ∉ cs := fun hmem => hc (List.mem_cons_of_mem _ hmem)
    unfold runAllTests at h
    split at h
    · cases h
    · rename_i rc s2 hrun
      obtain ⟨_, _, _, _, _, _, _, _, hframe⟩ := runTest_spec env lib s s2 c0 rc hrun
      split at h
      · rw [entry_of_framework s2 s1 c (reportFailure_frame s2 s1 g n h).1]
        exact hframe c hne
      · rw [ih s2 s1 h hcs]
        exact hframe c hne

theorem runAllTests_append {G : Type} (env : Env) (lib : GraphLib G) (g : Nat → Nat) (n : Nat) :
    ∀ (cs : List Char) (s sMid : Harness G), runAllTests env lib g n cs s = some sMid →
      s.errorFound = 0 → sMid.errorFound = 0 →
      ∀ rest, runAllTests env lib g n (cs ++ rest) s = runAllTests env lib g n rest sMid := by
  intro cs
  induction cs with
  | nil => intro s sMid h _ _ rest; simp only [runAllTests] at h; cases h; rfl
  | cons c0 cs ih =>
    intro s sMid h hs hmid rest
    unfold runAllTests at h
    rw [List.cons_append]
    conv_lhs => unfold runAllTests
    split at h
    · cases h
    · rename_i rc s2 hrun
      obtain ⟨r, o, _, ho, _, hef, _, hrc, _⟩ := runTest_spec env lib s s2 c0 rc hrun
      rw [hs] at ho
      have hiff := runTestOn_fails_iff env lib c0 r o ho
      split at h
      · rename_i hfail
        exfalso
        have hef2 := (reportFailure_frame s2 sMid g n h).2
        rw [hmid, hef] at hef2
        have := hiff.mpr hef2.symm
        rw [if_pos this] at hrc
        exact hfail hrc
      · rename_i hok
        rw [if_neg hok]
        have hs2 : s2.errorFound = 0 := by
          rw [hef]
          apply hiff.mp
          by_contra hno
          rw [if_neg hno] at hrc
          rw [hrc] at hok
          exact hok (by decide)
        exact ih s2 sMid h hs2 hmid rest

theorem copyAdjacencyLoop_exact {G : Type} (lib : GraphLib G) (r0 : testResult G) :
    ∀ (suf pre : List (testResult G)),
      (∀ r ∈ suf, lib.gp_CopyAdjacencyLists (lib.gp_ReinitializeGraph r.origGraph) r0.origGraph =
        (OK, r0.origGraph)) →
      copyAdjacencyLoop lib suf.length (r0 :: pre).length ((r0 :: pre) ++ suf) =
        some (true, (r0 :: pre) ++ suf.map (fun r => { r with origGraph := r0.origGraph })) := by
  intro suf
  induction suf with
  | nil => intro pre _; simp [copyAdjacencyLoop]
  | cons a suf ih =>
    intro pre hcopy
    have ha := hcopy a (List.mem_cons_self _ _)
    have hget : ((r0 :: pre) ++ a :: suf)[(r0 :: pre).length]? = some a := by
      rw [List.getElem?_append_right (le_refl _)]
      simp
    have hget0 : ((r0 :: pre) ++ a :: suf)[0]? = some r0 := by simp
    simp only [List.length_cons (a := a)]
    unfold copyAdjacencyLoop
    rw [hget, hget0]
    simp only [ha, ne_eq, not_true_eq_false, if_false]
    have hset : ((r0 :: pre) ++ a :: suf).set (r0 :: pre).length { a with origGraph := r0.origGraph } =
        (r0 :: (pre ++ [{ a with origGraph := r0.origGraph }])) ++ suf := by
      rw [List.set_append_right _ _ (le_refl _)]
      simp
    rw [hset]
    have hlen : (r0 :: pre).length + 1 = (r0 :: (pre ++ [{ a with origGraph := r0.origGraph }])).length := by
      simp
    rw [hlen]
    refine (ih _ (fun r hr => hcopy r (List.mem_cons_of_mem _ hr))).trans ?_
    simp

theorem tf_GetTestResult_map {G : Type} (f : testResult G → testResult G)
    (hf : ∀ r, (f r).command = r.command) :
    ∀ (rs : List (testResult G)) (c : Char), tf_GetTestResult (rs.map f) c = tf_GetTestResult rs c := by
  intro rs
  induction rs with
  | nil => intro c; rfl
  | cons a rs ih => intro c; simp only [List.map_cons, tf_GetTestResult, hf, ih]

theorem getEntry_map {G : Type} (f : testResult G → testResult G)
    (hf : ∀ r, (f r).command = r.command) (rs : List (testResult G)) (c : Char) :
    getEntry (rs.map f) c = (getEntry rs c).map f := by
  unfold getEntry
  rw [tf_GetTestResult_map f hf]
  cases tf_GetTestResult rs c with
  | none => rfl
  | some i => simp

theorem getEntry_command {G : Type} (rs : List (testResult G)) (c : Char) (r : testResult G)
    (h : getEntry rs c = some r) : r.command = c := by
  unfold getEntry at h
  split at h
  · cases h
  · rename_i i hi
    obtain ⟨r1, hr1, hc⟩ := tf_GetTestResult_get rs c i hi
    rw [hr1] at h
    cases h
    exact hc

theorem runTestOn_env {G : Type} (env env1 : Env) (lib : GraphLib G) (command : Char)
    (r : testResult G) (ef : Int) (h : env1.ulongBits = env.ulongBits) :
    runTestOn env1 lib command r ef = runTestOn env lib command r ef := by
  simp only [runTestOn, tally, ulongIncr, h]

theorem runTests_single {G : Type} (env : Env) (lib : GraphLib G) (s s1 : Harness G)
    (g : Nat → Nat) (n : Nat) (hc : env.g_command ≠ 'a') (h : runTests env lib s g n = some s1) :
    ∃ rc s2, runTest env lib s env.g_command = some (rc, s2) ∧
      s1.testFramework = s2.testFramework ∧ s1.errorFound = s2.errorFound := by
  unfold runTests at h
  rw [if_neg hc] at h
  split at h
  · cases h
  · rename_i rc s2 hrun
    refine ⟨rc, s2, hrun, ?_⟩
    split at h
    · split at h
      · cases h
      · rename_i s3 hrep
        have h1 := reportFailure_frame s2 s3 g n hrep
        have h2 := printProgress_frame env s3 s1 h
        exact ⟨h2.1.trans h1.1, h2.2.trans h1.2⟩
    · exact printProgress_frame env s2 s1 h

theorem runAllTests_cons {G : Type} (env : Env) (lib : GraphLib G) (g : Nat → Nat) (n : Nat)
    (c : Char) (cs : List Char) (s s1 : Harness G) (hc : c ∉ cs)
    (h : runAllTests env lib g n (c :: cs) s = some s1) :
    ∃ rc s2, runTest env lib s c = some (rc, s2) ∧ s1.entry c = s2.entry c := by
  unfold runAllTests at h
  split at h
  · cases h
  · rename_i rc s2 hrun
    refine ⟨rc, s2, hrun, ?_⟩
    split at h
    · exact entry_of_framework s2 s1 c (reportFailure_frame s2 s1 g n h).1
    · exact runAllTests_entry env lib g n c cs s2 s1 h hc

theorem getEntry_cons_counters {G : Type} (a a1 : testResult G) (rs : List (testResult G)) (c : Char)
    (h : a1.counters = a.counters) :
    (getEntry (a1 :: rs) c).map testResult.counters = (getEntry (a :: rs) c).map testResult.counters := by
  have hcmd : a1.command = a.command := by
    simp only [testResult.counters, Prod.mk.injEq] at h; exact h.1
  unfold getEntry tf_GetTestResult
  rw [hcmd]
  by_cases hc : a.command = c
  · simp [hc, h]
  · simp only [hc, if_false]
    cases tf_GetTestResult rs c with
    | none => rfl
    | some i => simp

theorem getEntry_singleton {G : Type} (r : testResult G) (c : Char) (h : r.command = c) :
    getEntry [r] c = some r := by
  simp [getEntry, tf_GetTestResult, h]

/-! ## C4: the selector `a` and the single selectors -/

/-- C4 (amended).  Let `outprocTest` process a candidate in all mode (`g_command = a`)
from a state with one entry per selector, and with `g_command = c` alone, for a
selector `c` of `commands = pre ++ c :: post`, from a state that corresponds: its
one entry has the counters and the scratch graph of the entry of `c`, and the
transfer gives the same graph.  Assume that the copy of the adjacency lists
reproduces the transferred graph and that no selector before `c` fails on the
candidate (running the tests of `pre` in all mode leaves `errorFound = 0`).  Then
the entry of `c` has the same counters after both calls; and when the transfer
succeeds, `runTest` for `c` returns the same code, leaves the same `errorFound`
and the same entry in both modes, which is the entry of `c` at the end. -/
theorem all_mode_fanout {G : Type} (envA : Env) (lib : GraphLib G) (g : Nat → Nat) (n : Nat)
    (c : Char) (pre post : List Char) (sA s1 sA1 s11 sMid : Harness G)
    (fwA : testResultFramework G) (r0 rA r1 : testResult G) (rest : List (testResult G))
    (hA : envA.g_command = 'a') (hsplit : commands = pre ++ c :: post)
    (hsA : sA.errorFound = 0) (hfwA : sA.testFramework = some fwA)
    (hrsA : fwA.algResults = r0 :: rest) (hlen : rest.length = commands.length - 1)
    (hs1 : s1.errorFound = 0) (hfw1 : s1.testFramework = some ⟨[r1]⟩) (hr1 : r1.command = c)
    (hrA : getEntry fwA.algResults c = some rA)
    (hcorr : r1.result = rA.result ∧ r1.edgeResults = rA.edgeResults ∧ r1.theGraph = rA.theGraph)
    (htr : TransferGraph lib r1.origGraph g n = TransferGraph lib r0.origGraph g n)
    (hcopy : ∀ r ∈ rest,
      lib.gp_CopyAdjacencyLists (lib.gp_ReinitializeGraph r.origGraph)
        (TransferGraph lib r0.origGraph g n).2 = (OK, (TransferGraph lib r0.origGraph g n).2))
    (hpre : runAllTests envA lib g n pre
      { sA with
        testFramework := some ⟨(r0 :: rest).map
          (fun r => { r with origGraph := (TransferGraph lib r0.origGraph g n).2 })⟩ } = some sMid)
    (hmid : sMid.errorFound = 0)
    (hAll : outprocTest envA lib sA g n = some sA1)
    (hSingle : outprocTest { envA with g_command := c } lib s1 g n = some s11) :
    (sA1.entry c).map testResult.counters = (s11.entry c).map testResult.counters ∧
    ((TransferGraph lib r0.origGraph g n).1 = OK →
      ∃ rc tA t1, runTest envA lib sMid c = some (rc, tA) ∧
        runTest { envA with g_command := c } lib
          { s1 with
            testFramework := some ⟨[{ r1 with origGraph := (TransferGraph lib r0.origGraph g n).2 }]⟩ }
          c = some (rc, t1) ∧
        tA.errorFound = t1.errorFound ∧ tA.entry c = t1.entry c ∧
        sA1.entry c = tA.entry c ∧ s11.entry c = t1.entry c) := by
  have hcA : c ∈ commands := by rw [hsplit]; simp
  have hne : c ≠ 'a' := by
    intro h; rw [h] at hcA; revert hcA; decide
  have hnd : (pre ++ c :: post).Nodup := by rw [← hsplit]; decide
  have hcpost : c ∉ post := (List.nodup_cons.mp (List.nodup_append.mp hnd).2.1).1
  have hcpre : c ∉ pre := fun hmem =>
    (List.nodup_append.mp hnd).2.2 hmem (List.mem_cons_self _ _)
  have hrAc : rA.command = c := getEntry_command _ c rA hrA
  rw [outprocTest_of_framework envA lib sA fwA g n hsA hfwA] at hAll
  rw [outprocTest_of_framework _ lib s1 ⟨[r1]⟩ g n hs1 hfw1] at hSingle
  unfold processCandidate at hAll hSingle
  rw [hrsA] at hAll hrA
  simp only [htr] at hAll hSingle
  have hsame : ({ r1 with origGraph := (TransferGraph lib r0.origGraph g n).2 } : testResult G) =
      { rA with origGraph := (TransferGraph lib r0.origGraph g n).2 } := by
    obtain ⟨h1, h2, h3⟩ := hcorr
    cases r1; cases rA
    simp only at h1 h2 h3 hr1 hrAc
    subst h1 h2 h3
    rw [hr1, hrAc]
  by_cases hT : (TransferGraph lib r0.origGraph g n).1 ≠ OK
  · rw [if_pos hT] at hAll hSingle
    cases hAll
    cases hSingle
    refine ⟨?_, fun hok => absurd hok hT⟩
    simp only [Harness.entry]
    rw [getEntry_cons_counters r0 { r0 with origGraph := (TransferGraph lib r0.origGraph g n).2 }
      rest c rfl, hrA, getEntry_singleton _ c (by exact hr1), hsame]
    rfl
  · rw [if_neg hT] at hAll hSingle
    have hTok : (TransferGraph lib r0.origGraph g n).1 = OK := not_not.mp hT
    -- all mode
    unfold afterTransfer at hAll
    rw [if_pos hA] at hAll
    simp only at hAll
    have hloop := copyAdjacencyLoop_exact lib
      { r0 with origGraph := (TransferGraph lib r0.origGraph g n).2 } rest [] hcopy
    simp only [List.length_singleton, List.singleton_append] at hloop
    rw [← hlen, hloop] at hAll
    simp only [if_true] at hAll
    unfold runTests at hAll
    rw [if_pos hA] at hAll
    split at hAll
    · cases hAll
    · rename_i sB hB
      have hprep : ({ sA with
            testFramework := some ⟨{ r0 with origGraph := (TransferGraph lib r0.origGraph g n).2 } ::
              rest.map (fun r => { r with origGraph := (TransferGraph lib r0.origGraph g n).2 })⟩ } :
            Harness G) =
          { sA with
            testFramework := some ⟨(r0 :: rest).map
              (fun r => { r with origGraph := (TransferGraph lib r0.origGraph g n).2 })⟩ } := rfl
      rw [hprep, hsplit, runAllTests_append envA lib g n pre _ sMid hpre hsA hmid] at hB
      obtain ⟨rc, tA, hrunA, hBent⟩ := runAllTests_cons envA lib g n c post sMid sB hcpost hB
      have hAent : sA1.entry c = tA.entry c :=
        (entry_of_framework sB sA1 c (printProgress_frame envA sB sA1 hAll).1).trans hBent
      -- single mode
      unfold afterTransfer at hSingle
      have hne1 : ({ envA with g_command := c } : Env).g_command ≠ 'a' := hne
      rw [if_neg hne1] at hSingle
      obtain ⟨rc1, t1, hrun1, hfw11, _⟩ := runTests_single _ lib _ s11 g n hne1 hSingle
      have h1ent : s11.entry c = t1.entry c := entry_of_framework t1 s11 c hfw11
      -- the two calls of runTest
      obtain ⟨ra, oA, hra, hoA, htA, hefA, _, hrcA, _⟩ := runTest_spec envA lib sMid tA c rc hrunA
      obtain ⟨rb, o1, hrb, ho1, ht1, hef1, _, hrc1, _⟩ := runTest_spec _ lib _ t1 c rc1 hrun1
      have hmidEntry : sMid.entry c =
          some { rA with origGraph := (TransferGraph lib r0.origGraph g n).2 } := by
        rw [runAllTests_entry envA lib g n c pre _ sMid hpre hcpre]
        simp only [Harness.entry]
        rw [getEntry_map (fun r => { r with origGraph := (TransferGraph lib r0.origGraph g n).2 })
          (fun _ => rfl), hrA]
        rfl
      have hsEntry : ({ s1 with
            testFramework := some ⟨[{ r1 with origGraph := (TransferGraph lib r0.origGraph g n).2 }]⟩ } :
            Harness G).entry c =
          some { rA with origGraph := (TransferGraph lib r0.origGraph g n).2 } := by
        simp only [Harness.entry]
        rw [getEntry_singleton _ c (by exact hr1), hsame]
      rw [hmidEntry] at hra
      rw [hsEntry] at hrb
      cases hra
      cases hrb
      rw [hmid] at hoA
      simp only [hs1] at ho1
      rw [runTestOn_env envA { envA with g_command := c } lib c _ 0 rfl, hoA] at ho1
      cases ho1
      have hrc : rc1 = rc := by rw [hrc1, hrcA]
      subst hrc
      refine ⟨?_, fun _ => ⟨rc1, tA, t1, hrunA, hrun1, by rw [hefA, hef1], by rw [htA, ht1],
        hAent, h1ent⟩⟩
      rw [hAent, h1ent, htA, ht1]

theorem all_mode_fanout_witness :
    ∃ sA1 s11,
      outprocTest allEnv exampleLib (allState exampleGraph) triangle 3 = some sA1 ∧
      outprocTest { allEnv with g_command := 'd' } exampleLib (stateWith 'd' exampleGraph) triangle 3 =
        some s11 ∧
      (sA1.entry 'd').map testResult.counters = (s11.entry 'd').map testResult.counters ∧
      (s11.entry 'd').map testResult.summary = some ('d', 1, 1, 1, 1) := by
  have hsA1 : ∃ sA1, outprocTest allEnv exampleLib (allState exampleGraph) triangle 3 = some sA1 :=
    ⟨_, rfl⟩
  have hs11 : ∃ s11, outprocTest { allEnv with g_command := 'd' } exampleLib
      (stateWith 'd' exampleGraph) triangle 3 = some s11 := ⟨_, rfl⟩
  have hmid : ∃ sMid, runAllTests allEnv exampleLib triangle 3 ['p']
      { allState exampleGraph with
        testFramework := some ⟨(entryFor 'p' exampleGraph ::
          ['d', 'o', '2', '3', '4', 'c'].map (fun c => entryFor c exampleGraph)).map
          (fun r => { r with origGraph :=
            (TransferGraph exampleLib (entryFor 'p' exampleGraph).origGraph triangle 3).2 })⟩ } =
        some sMid ∧ sMid.errorFound = 0 := ⟨_, rfl, rfl⟩
  obtain ⟨sA1, hA1⟩ := hsA1
  obtain ⟨s11, h11⟩ := hs11
  obtain ⟨sMid, hpre, hmid0⟩ := hmid
  have h := all_mode_fanout allEnv exampleLib triangle 3 'd' ['p'] ['o', '2', '3', '4', 'c']
    (allState exampleGraph) (stateWith 'd' exampleGraph) sA1 s11 sMid
    ⟨commands.map (fun c => entryFor c exampleGraph)⟩
    (entryFor 'p' exampleGraph) (entryFor 'd' exampleGraph) (entryFor 'd' exampleGraph)
    (['d', 'o', '2', '3', '4', 'c'].map (fun c => entryFor c exampleGraph))
    rfl rfl rfl rfl rfl rfl rfl rfl rfl rfl ⟨rfl, rfl, rfl⟩ rfl
    (by intro r hr
        simp only [List.map_cons, List.map_nil, List.mem_cons, List.mem_singleton,
          List.not_mem_nil, or_false] at hr
        rcases hr with rfl | rfl | rfl | rfl | rfl | rfl <;> rfl)
    hpre hmid0 hA1 h11
  refine ⟨sA1, s11, hA1, h11, h.1, ?_⟩
  have : (outprocTest { allEnv with g_command := 'd' } exampleLib
      (stateWith 'd' exampleGraph) triangle 3).bind
        (fun s => (s.entry 'd').map testResult.summary) = some ('d', 1, 1, 1, 1) := rfl
  rw [h11] at this
  exact this

/-- C4 as stated fails: when the planarity test fails on a candidate, all mode stops
after the selector `p` and leaves the counters of the selector `c` untouched, while
the selector `c` alone counts the candidate. -/
theorem all_mode_fanout_counterexample :
    (outprocTest allEnv planarityFailLib (allState exampleGraph) triangle 3).bind
        (fun s => (s.entry 'c').map testResult.summary) = some ('c', 0, 0, 0, 0) ∧
    (outprocTest { allEnv with g_command := 'c' } planarityFailLib
        (stateWith 'c' exampleGraph) triangle 3).bind
        (fun s => (s.entry 'c').map testResult.summary) = some ('c', 1, 1, 1, 1) :=
  ⟨rfl, rfl⟩

/-- A call of `runTest` for a selector whose entry exists, in terms of the body
`runTestOn`. -/
theorem runTest_of_entry {G : Type} (env : Env) (lib : GraphLib G) (s : Harness G) (c : Char)
    (r : testResult G) (o : RunOutcome G) (hr : s.entry c = some r)
    (ho : runTestOn env lib c r s.errorFound = some o) :
    ∃ s1, runTest env lib s c =
        some (if o.Result = OK ∨ o.Result = NONEMBEDDABLE then OK else NOTOK, s1) ∧
      s1.entry c = some o.testResult ∧ s1.errorFound = o.errorFound ∧ s1.out = s.out ++ o.msgs ∧
      (∀ c1, c1 ≠ c → s1.entry c1 = s.entry c1) := by
  have hr0 := hr
  unfold Harness.entry at hr
  split at hr
  · cases hr
  · rename_i fw hfw
    unfold getEntry at hr
    split at hr
    · cases hr
    · rename_i i hi
      have hrun : runTest env lib s c =
          some (if o.Result = OK ∨ o.Result = NONEMBEDDABLE then OK else NOTOK,
            { s with testFramework := some ⟨fw.algResults.set i o.testResult⟩,
                     errorFound := o.errorFound, out := s.out ++ o.msgs }) := by
        unfold runTest
        simp only [hfw, hi, hr, ho]
      obtain ⟨r1, o1, h1, h2, h3, h4, h5, _, h7⟩ := runTest_spec env lib s _ c _ hrun
      rw [hr0] at h1
      cases h1
      rw [ho] at h2
      cases h2
      exact ⟨_, hrun, h3, rfl, rfl, h7⟩

/-! ## C5: a graph that is correctly reported as not embeddable -/

/-- C5.  For a selector of the embedding family (p, d, o, 2, 3, 4) whose entry `r`
exists: when the grand total does not overflow and the copy succeeds, `gp_Embed`
returns `NONEMBEDDABLE` on the working copy and `gp_TestEmbedResultIntegrity`
confirms `NONEMBEDDABLE`, then `runTest` returns `OK`, leaves `errorFound`
unchanged, increments the grand total `numGraphs` and the `numGraphs` of the bucket
`edgeResults[origGraph->M]` as `unsigned long`, which is by one when the values are
in range, and leaves `numOKs` unchanged in the grand total and in every bucket. -/
theorem runTest_nonembeddable {G : Type} (env : Env) (lib : GraphLib G) (s : Harness G) (c : Char)
    (r : testResult G) (b : baseTestResult)
    (hc : c ∈ ['p', 'd', 'o', '2', '3', '4'])
    (hr : s.entry c = some r)
    (hcount : ulongIncr env r.result.numGraphs ≠ 0)
    (hcopy : (lib.gp_CopyGraph r.theGraph r.origGraph).1 = OK)
    (hembed : (lib.gp_Embed (lib.gp_CopyGraph r.theGraph r.origGraph).2 (embedFlagsOf c)).1 =
      NONEMBEDDABLE)
    (hcheck : (lib.gp_TestEmbedResultIntegrity
      (lib.gp_SortVertices (lib.gp_Embed (lib.gp_CopyGraph r.theGraph r.origGraph).2 (embedFlagsOf c)).2)
      r.origGraph NONEMBEDDABLE).1 = NONEMBEDDABLE)
    (hb : r.edgeResults[lib.M r.origGraph]? = some b) :
    ∃ s1 r1, runTest env lib s c = some (OK, s1) ∧ s1.errorFound = s.errorFound ∧
      s1.entry c = some r1 ∧
      r1.result.numGraphs = ulongIncr env r.result.numGraphs ∧
      r1.result.numOKs = r.result.numOKs ∧
      r1.edgeResults = r.edgeResults.set (lib.M r.origGraph) ⟨ulongIncr env b.numGraphs, b.numOKs⟩ ∧
      r1.edgeResults.map (fun x => x.numOKs) = r.edgeResults.map (fun x => x.numOKs) ∧
      r1.origGraph = r.origGraph ∧
      (r.result.numGraphs < 2 ^ env.ulongBits → r1.result.numGraphs = r.result.numGraphs + 1) ∧
      (b.numGraphs + 1 < 2 ^ env.ulongBits →
        ulongIncr env b.numGraphs = b.numGraphs + 1) := by
  have hnc : c ≠ 'c' := by
    intro h; rw [h] at hc; revert hc; decide
  have hstr : strchr commands c = true := by
    simp only [List.mem_cons, List.mem_singleton, List.not_mem_nil, or_false] at hc
    rcases hc with rfl | rfl | rfl | rfl | rfl | rfl <;> decide
  have halg : runAlgorithm lib c (ulongIncr env r.result.numGraphs)
      (lib.gp_CopyGraph r.theGraph r.origGraph).2 r.origGraph =
      (NONEMBEDDABLE, (lib.gp_TestEmbedResultIntegrity
        (lib.gp_SortVertices (lib.gp_Embed (lib.gp_CopyGraph r.theGraph r.origGraph).2 (embedFlagsOf c)).2)
        r.origGraph NONEMBEDDABLE).2, []) := by
    unfold runAlgorithm
    rw [if_neg hnc, if_pos hstr]
    simp only [hembed, hcheck, or_true, if_true, ne_eq, not_true_eq_false, if_false]
  have hne : (NONEMBEDDABLE : Int) ≠ OK := by decide
  have ho : ∃ o, runTestOn env lib c r s.errorFound = some o ∧ o.Result = NONEMBEDDABLE ∧
      o.errorFound = s.errorFound ∧
      o.testResult.result.numGraphs = ulongIncr env r.result.numGraphs ∧
      o.testResult.result.numOKs = r.result.numOKs ∧
      o.testResult.edgeResults =
        r.edgeResults.set (lib.M r.origGraph) ⟨ulongIncr env b.numGraphs, b.numOKs⟩ ∧
      o.testResult.origGraph = r.origGraph := by
    unfold runTestOn
    simp only [hcount, if_false, hcopy, ne_eq, not_true_eq_false, halg, tally, hb, hne, or_true,
      if_true]
    exact ⟨_, rfl, rfl, rfl, rfl, rfl, rfl, rfl⟩
  obtain ⟨o, ho1, hres, hef, h1, h2, h3, h4⟩ := ho
  obtain ⟨s1, hrun, hent, hef1, _, _⟩ := runTest_of_entry env lib s c r o hr ho1
  rw [hres] at hrun
  simp only [or_true, if_true] at hrun
  refine ⟨s1, o.testResult, hrun, hef1.trans hef, hent, h1, h2, h3, ?_, h4, ?_, ?_⟩
  rotate_left
  · intro hlt
    rw [h1]
    unfold ulongIncr at hcount ⊢
    apply Nat.mod_eq_of_lt
    by_contra hge
    have : r.result.numGraphs + 1 = 2 ^ env.ulongBits := by omega
    rw [this, Nat.mod_self] at hcount
    exact hcount rfl
  · intro hlt
    unfold ulongIncr
    exact Nat.mod_eq_of_lt hlt
  rw [h3, List.map_set]
  apply List.ext_getElem
  · simp
  · intro j hj1 hj2
    rw [List.getElem_set]
    split
    · rename_i hij
      subst hij
      have hlt : lib.M r.origGraph < r.edgeResults.length := by simpa using hj2
      have hget := (List.getElem?_eq_some_iff.mp hb)
      obtain ⟨_, hg⟩ := hget
      simp [hg]
    · rfl

theorem entry_command {G : Type} (s : Harness G) (c : Char) (r : testResult G)
    (h : s.entry c = some r) : r.command = c := by
  unfold Harness.entry at h
  cases hfw : s.testFramework with
  | none => rw [hfw] at h; cases h
  | some fw => rw [hfw] at h; exact getEntry_command _ c r h

theorem runTest_nonembeddable_witness :
    ∃ s1, runTest exampleEnv nonplanarLib (stateWith 'p' exampleGraph) 'p' = some (OK, s1) ∧
      s1.errorFound = 0 ∧ (s1.entry 'p').map testResult.summary = some ('p', 1, 1, 0, 0) := by
  obtain ⟨s1, r1, h1, h2, h3, h4, h5, h6, _, _⟩ :=
    runTest_nonembeddable exampleEnv nonplanarLib (stateWith 'p' exampleGraph) 'p'
      (entryFor 'p' exampleGraph) ⟨0, 0⟩ (by decide) rfl (by decide) rfl rfl rfl rfl
  refine ⟨s1, h1, h2, ?_⟩
  rw [h3]
  simp only [Option.map_some', testResult.summary, testResult.bucketGraphs, testResult.bucketOKs,
    h4, h5, h6]
  rw [entry_command s1 'p' r1 h3]
  rfl

/-! ## C6: the overflow of the grand total -/

/-- C6.  Let the entry `r` of the selector exist.  `runTest` reports the counter
overflow exactly when the increment of the grand total `numGraphs` wraps to 0; in
that case it returns `NOTOK` with `errorFound = 1`, prints nothing else, and leaves
the entry as it was but for the wrapped total: no copy, no algorithm, no bucket
update.  In particular, from `numGraphs = 2^w - 2`, a first call that returns `OK`
does not report the overflow, and the second call reports it and sets
`errorFound`. -/
theorem runTest_counter_overflow {G : Type} (env : Env) (lib : GraphLib G) (s : Harness G) (c : Char)
    (r : testResult G) (hr : s.entry c = some r) :
    (ulongIncr env r.result.numGraphs = 0 →
      ∃ s1, runTest env lib s c = some (NOTOK, s1) ∧ s1.errorFound = 1 ∧
        s1.out = s.out ++ [Event.exceededMaximum] ∧
        s1.entry c = some { r with result := { r.result with numGraphs := 0 } }) ∧
    (∀ rc s1, runTest env lib s c = some (rc, s1) →
      ∃ msgs, s1.out = s.out ++ msgs ∧
        (Event.exceededMaximum ∈ msgs ↔ ulongIncr env r.result.numGraphs = 0)) ∧
    (0 < env.ulongBits → r.result.numGraphs = 2 ^ env.ulongBits - 2 →
      ∀ s1, runTest env lib s c = some (OK, s1) →
        (∃ msgs, s1.out = s.out ++ msgs ∧ Event.exceededMaximum ∉ msgs) ∧
        ∃ s2, runTest env lib s1 c = some (NOTOK, s2) ∧ s2.errorFound = 1 ∧
          s2.out = s1.out ++ [Event.exceededMaximum]) := by
  have hwrap : ∀ (t : Harness G) (rt : testResult G), t.entry c = some rt →
      ulongIncr env rt.result.numGraphs = 0 →
      ∃ s1, runTest env lib t c = some (NOTOK, s1) ∧ s1.errorFound = 1 ∧
        s1.out = t.out ++ [Event.exceededMaximum] ∧
        s1.entry c = some { rt with result := { rt.result with numGraphs := 0 } } := by
    intro t rt hrt h0
    have ho : runTestOn env lib c rt t.errorFound =
        some ⟨NOTOK, { rt with result := { rt.result with numGraphs := 0 } }, 1,
          [Event.exceededMaximum]⟩ := by
      unfold runTestOn
      simp only [h0, if_true]
    obtain ⟨s1, h1, h2, h3, h4, _⟩ := runTest_of_entry env lib t c rt _ hrt ho
    have hn : ¬ ((NOTOK : Int) = OK ∨ (NOTOK : Int) = NONEMBEDDABLE) := by decide
    simp only [hn, if_false] at h1
    exact ⟨s1, h1, h3, h4, h2⟩
  have hmsgs : ∀ rc s1, runTest env lib s c = some (rc, s1) →
      ∃ o, runTestOn env lib c r s.errorFound = some o ∧ s1.out = s.out ++ o.msgs ∧
        s1.entry c = some o.testResult ∧
        (Event.exceededMaximum ∈ o.msgs ↔ ulongIncr env r.result.numGraphs = 0) := by
    intro rc s1 hrun
    obtain ⟨r1, o, h1, h2, h3, _, h5, _, _⟩ := runTest_spec env lib s s1 c rc hrun
    rw [hr] at h1
    cases h1
    refine ⟨o, h2, h5, h3, ?_⟩
    unfold runTestOn at h2
    simp only at h2
    split at h2
    · rename_i h0
      cases h2
      simp [h0]
    · rename_i h0
      have hno : Event.exceededMaximum ∉ o.msgs := by
        split at h2
        · cases h2; simp
        · split at h2
          · cases h2
          · intro hmem
            have hcf := runAlgorithm_msgs lib c (ulongIncr env r.result.numGraphs)
              (lib.gp_CopyGraph r.theGraph r.origGraph).2 r.origGraph
            split at h2
            · cases h2
              have := hcf _ hmem
              cases this
            · cases h2
              simp only [List.mem_append, List.mem_singleton, reduceCtorEq, or_false] at hmem
              have := hcf _ hmem
              cases this
      simp [hno, h0]
  refine ⟨hwrap s r hr, ?_, ?_⟩
  · intro rc s1 hrun
    obtain ⟨o, _, h2, _, h4⟩ := hmsgs rc s1 hrun
    exact ⟨o.msgs, h2, h4⟩
  · intro hw hnum s1 hrun
    have hpow : 2 ≤ 2 ^ env.ulongBits := by
      calc 2 = 2 ^ 1 := rfl
        _ ≤ 2 ^ env.ulongBits := Nat.pow_le_pow_right (by decide) hw
    have hfirst : ulongIncr env r.result.numGraphs = 2 ^ env.ulongBits - 1 := by
      unfold ulongIncr
      rw [hnum, Nat.mod_eq_of_lt (by omega)]
      omega
    obtain ⟨o, ho, h2, h3, h4⟩ := hmsgs OK s1 hrun
    have hno : Event.exceededMaximum ∉ o.msgs := by
      intro hmem
      have := h4.mp hmem
      rw [hfirst] at this
      omega
    refine ⟨⟨o.msgs, h2, hno⟩, ?_⟩
    have hnum1 : o.testResult.result.numGraphs = 2 ^ env.ulongBits - 1 := by
      unfold runTestOn at ho
      simp only at ho
      split at ho
      · rename_i h0
        rw [hfirst] at h0
        omega
      · split at ho
        · cases ho; exact hfirst
        · split at ho
          · cases ho
          · rename_i r2 htally
            have hr2 : r2.result.numGraphs = ulongIncr env r.result.numGraphs := by
              unfold tally at htally
              split at htally
              · cases htally
              · split at htally <;> (cases htally; rfl)
            split at ho <;> (cases ho; exact hr2.trans hfirst)
    have hsecond : ulongIncr env o.testResult.result.numGraphs = 0 := by
      unfold ulongIncr
      rw [hnum1]
      have : 2 ^ env.ulongBits - 1 + 1 = 2 ^ env.ulongBits := by omega
      rw [this, Nat.mod_self]
    obtain ⟨s2, k1, k2, k3, _⟩ := hwrap s1 o.testResult h3 hsecond
    exact ⟨s2, k1, k2, k3⟩

theorem runTest_counter_overflow_witness :
    ∃ s1 s2,
      runTest exampleEnv exampleLib (stateCounting 'p' exampleGraph (2 ^ 64 - 2)) 'p' = some (OK, s1) ∧
      runTest exampleEnv exampleLib s1 'p' = some (NOTOK, s2) ∧ s2.errorFound = 1 ∧
      s2.out = s1.out ++ [Event.exceededMaximum] := by
  have h1 : ∃ s1, runTest exampleEnv exampleLib (stateCounting 'p' exampleGraph (2 ^ 64 - 2)) 'p' =
      some (OK, s1) := ⟨_, rfl⟩
  obtain ⟨s1, hs1⟩ := h1
  have h := (runTest_counter_overflow exampleEnv exampleLib
    (stateCounting 'p' exampleGraph (2 ^ 64 - 2)) 'p'
    { entryFor 'p' exampleGraph with result := ⟨2 ^ 64 - 2, 0⟩ } rfl).2.2
    (by decide) rfl s1 hs1
  obtain ⟨_, s2, k1, k2, k3⟩ := h
  exact ⟨s1, s2, hs1, k1, k2, k3⟩

/-! ## C7: candidates after a failure -/

/-- C7.  When `errorFound` is not 0 on entry, `outprocTest` returns with the state of
the harness unchanged: framework, graphs, counters, `errorFound` and output are
what they were.  This holds for every list of later candidates.  When
`Test_PrintStats` returns, the framework is gone and `errorFound` is 0. -/
theorem outprocTest_ignores_after_error {G : Type} (env : Env) (lib : GraphLib G) (s : Harness G)
    (h : s.errorFound ≠ 0) :
    (∀ g n, outprocTest env lib s g n = some s) ∧
    (∀ cands, outprocTests env lib s cands = some s) ∧
    (∀ s1, Test_PrintStats env s = some s1 → s1.testFramework = none ∧ s1.errorFound = 0) := by
  have h1 : ∀ g n, outprocTest env lib s g n = some s := by
    intro g n
    unfold outprocTest
    rw [if_pos h]
  refine ⟨h1, ?_, ?_⟩
  · intro cands
    induction cands with
    | nil => rfl
    | cons c cs ih =>
      unfold outprocTests
      rw [h1 c.1 c.2]
      exact ih
  · intro s1 hs1
    unfold Test_PrintStats at hs1
    split at hs1
    · cases hs1
    · split at hs1
      · cases hs1; exact ⟨rfl, rfl⟩
      · cases hs1

theorem outprocTest_ignores_after_error_witness :
    ∃ s : Harness WorkingGraph,
      outprocTest exampleEnv copyFailLib (Harness.init WorkingGraph) triangle 3 = some s ∧
      s.errorFound ≠ 0 ∧
      outprocTests exampleEnv copyFailLib s [(triangle, 3), (triangle, 3)] = some s ∧
      ((Test_PrintStats exampleEnv s).map Harness.summary) = some (0, none) := by
  have h0 : ∃ s, outprocTest exampleEnv copyFailLib (Harness.init WorkingGraph) triangle 3 = some s ∧
      s.errorFound = 1 ∧ ∃ s1, Test_PrintStats exampleEnv s = some s1 := ⟨_, rfl, rfl, _, rfl⟩
  obtain ⟨s, hs, hef, s1, hs1⟩ := h0
  have hne : s.errorFound ≠ 0 := by rw [hef]; decide
  have h := outprocTest_ignores_after_error exampleEnv copyFailLib s hne
  obtain ⟨k1, k2⟩ := h.2.2 s1 hs1
  refine ⟨s, hs, hne, h.2.1 _, ?_⟩
  rw [hs1]
  simp [Harness.summary, k1, k2]

/-! ## C8: the order of the bits in a row -/

theorem and_mask_ne_zero (x m : Nat) : x &&& (1 <<< m) ≠ 0 ↔ x.testBit m = true := by
  rw [Nat.one_shiftLeft, Nat.and_two_pow]
  cases h : x.testBit m
  · simp
  · simp [Nat.pos_pow_of_pos]

theorem mem_edgeRequests (u v : Nat) :
    ∀ tr : List LibCall, (u, v) ∈ edgeRequests tr ↔ ∃ ul vl ret, LibCall.addEdge u ul v vl ret ∈ tr := by
  intro tr
  induction tr with
  | nil =>
    constructor
    · intro h; cases h
    · rintro ⟨_, _, _, h⟩; cases h
  | cons c cs ih =>
    have hother : (∀ u1 ul1 v1 vl1 ret1, c ≠ LibCall.addEdge u1 ul1 v1 vl1 ret1) →
        edgeRequests (c :: cs) = edgeRequests cs := by
      intro hc
      cases c <;> first | rfl | exact absurd rfl (hc _ _ _ _ _)
    by_cases hc : ∃ u1 ul1 v1 vl1 ret1, c = LibCall.addEdge u1 ul1 v1 vl1 ret1
    · obtain ⟨u1, ul1, v1, vl1, ret1, rfl⟩ := hc
      show (u, v) ∈ (u1, v1) :: edgeRequests cs ↔ _
      rw [List.mem_cons, ih]
      constructor
      · rintro (h | ⟨ul, vl, ret, h⟩)
        · cases h
          exact ⟨ul1, vl1, ret1, List.mem_cons_self _ _⟩
        · exact ⟨ul, vl, ret, List.mem_cons_of_mem _ h⟩
      · rintro ⟨ul, vl, ret, h⟩
        rcases List.mem_cons.mp h with h1 | h1
        · cases h1
          exact Or.inl rfl
        · exact Or.inr ⟨ul, vl, ret, h1⟩
    · have hc2 : ∀ u1 ul1 v1 vl1 ret1, c ≠ LibCall.addEdge u1 ul1 v1 vl1 ret1 :=
        fun u1 ul1 v1 vl1 ret1 h => hc ⟨u1, ul1, v1, vl1, ret1, h⟩
      rw [hother hc2, ih]
      constructor
      · rintro ⟨ul, vl, ret, h⟩
        exact ⟨ul, vl, ret, List.mem_cons_of_mem _ h⟩
      · rintro ⟨ul, vl, ret, h⟩
        rcases List.mem_cons.mp h with h1 | h1
        · exact absurd h1.symm (hc2 _ _ _ _ _)
        · exact ⟨ul, vl, ret, h1⟩

theorem transferRow_sound {G : Type} (lib : GraphLib G) (n i row : Nat) (P : LibCall → Prop) :
    ∀ (k j : Nat) (ec : Int) (x : G × List LibCall),
      (∀ c ∈ x.2, P c) →
      (∀ v ret, j ≤ v → v < j + k → row &&& ((1 <<< (MAXN - 1)) >>> v) ≠ 0 →
        P (LibCall.addEdge i 0 v 0 ret)) →
      ∀ c ∈ (transferRow (traced lib) n i row k j ((1 <<< (MAXN - 1)) >>> j) ec x).2.2, P c := by
  intro k
  induction k with
  | zero => intro j ec x hx _; simpa [transferRow] using hx
  | succ k ih =>
    intro j ec x hx hP
    unfold transferRow
    by_cases h : row &&& ((1 <<< (MAXN - 1)) >>> j) ≠ 0
    · rw [if_pos h]
      simp only [traced_addEdge]
      have hx1 : ∀ c ∈ x.2 ++ [LibCall.addEdge i 0 j 0 (lib.gp_AddEdge x.1 i 0 j 0).1], P c := by
        intro c hc
        rcases List.mem_append.mp hc with h1 | h1
        · exact hx c h1
        · simp only [List.mem_singleton] at h1
          subst h1
          exact hP j _ (le_refl _) (by omega) h
      by_cases hc : (lib.gp_AddEdge x.1 i 0 j 0).1 ≠ OK
      · rw [if_pos hc]; exact hx1
      · rw [if_neg hc, mask_shift]
        exact ih (j + 1) _ (_, _) hx1 (fun v ret h1 h2 h3 => hP v ret (by omega) (by omega) h3)
    · rw [if_neg h, mask_shift]
      exact ih (j + 1) ec x hx (fun v ret h1 h2 h3 => hP v ret (by omega) (by omega) h3)

theorem transferRows_sound {G : Type} (lib : GraphLib G) (g : Nat → Nat) (n : Nat)
    (P : LibCall → Prop) :
    ∀ (k i : Nat) (ec : Int) (x : G × List LibCall),
      (∀ c ∈ x.2, P c) →
      (∀ r, i ≤ r → P (LibCall.setVertexV r)) →
      (∀ r v ret, i ≤ r → r < v → v < n → g r &&& ((1 <<< (MAXN - 1)) >>> v) ≠ 0 →
        P (LibCall.addEdge r 0 v 0 ret)) →
      ∀ c ∈ (transferRows (traced lib) g n k i ec x).2.2, P c := by
  intro k
  induction k with
  | zero => intro i ec x hx _ _; simpa [transferRows] using hx
  | succ k ih =>
    intro i ec x hx hS hP
    unfold transferRows
    by_cases h : ec = OK
    · rw [if_pos h]
      simp only
      apply ih (i + 1)
      · apply transferRow_sound lib n i (g i) P
        · rw [traced_setVertexV]
          intro c hc
          rcases List.mem_append.mp hc with h1 | h1
          · exact hx c h1
          · simp only [List.mem_singleton] at h1
            subst h1
            exact hS i (le_refl _)
        · intro v ret h1 h2 h3
          exact hP i v ret (le_refl _) (by omega) (by omega) h3
      · intro r hr
        exact hS r (by omega)
      · intro r v ret h1 h2 h3 h4
        exact hP r v ret (by omega) h2 h3 h4
    · rw [if_neg h]; exact hx

theorem mask_zero_of_large (v : Nat) (hv : 16 ≤ v) : (1 <<< (MAXN - 1)) >>> v = 0 := by
  simp only [MAXN, Nat.shiftLeft_eq, Nat.shiftRight_eq_div_pow, Nat.one_mul]
  apply Nat.div_eq_of_lt
  exact Nat.pow_lt_pow_right (by decide) (by omega)

theorem mask_test (row v : Nat) (h : row &&& ((1 <<< (MAXN - 1)) >>> v) ≠ 0) :
    v ≤ 15 ∧ row.testBit (15 - v) = true := by
  have hv : v ≤ 15 := by
    by_contra hcon
    rw [mask_zero_of_large v (by omega)] at h
    simp at h
  rw [mask_eq v hv, and_mask_ne_zero] at h
  exact ⟨hv, h⟩

theorem TransferGraph_sound {G : Type} (lib : GraphLib G) (theGraph : G) (g : Nat → Nat) (n : Nat)
    (u ul v vl : Nat) (ret : Int)
    (h : LibCall.addEdge u ul v vl ret ∈ (TransferGraph (traced lib) (theGraph, []) g n).2.2) :
    ul = 0 ∧ vl = 0 ∧ u < v ∧ v < n ∧ v ≤ 15 ∧ (g u).testBit (15 - v) = true := by
  have hunf : TransferGraph (traced lib) (theGraph, []) g n =
      transferRows (traced lib) g n (n - 1) 0 OK
        (lib.gp_ReinitializeGraph theGraph, [LibCall.reinitialize]) := rfl
  rw [hunf] at h
  have := transferRows_sound lib g n
    (fun c => ∀ u ul v vl ret, c = LibCall.addEdge u ul v vl ret →
      ul = 0 ∧ vl = 0 ∧ u < v ∧ v < n ∧ v ≤ 15 ∧ (g u).testBit (15 - v) = true)
    (n - 1) 0 OK (lib.gp_ReinitializeGraph theGraph, [LibCall.reinitialize])
    (by
      intro c hc u ul v vl ret heq
      simp only [List.mem_singleton] at hc
      rw [hc] at heq
      cases heq)
    (by intro r _ u ul v vl ret heq; cases heq)
    (by
      intro r v1 ret1 _ h2 h3 h4 u ul v vl ret heq
      obtain ⟨k1, k2⟩ := mask_test (g r) v1 h4
      cases heq
      exact ⟨rfl, rfl, h2, h3, k1, k2⟩)
    _ h
  exact this u ul v vl ret rfl

theorem TransferGraph_edgeRequests {G : Type} (lib : GraphLib G) (theGraph : G)
    (g : Nat → Nat) (n : Nat) (hn : n ≤ 16)
    (hadd : allInsertionsOK (TransferGraph (traced lib) (theGraph, []) g n).2.2) :
    edgeRequests (TransferGraph (traced lib) (theGraph, []) g n).2.2 = upperTriangle g n := by
  have hmain := transferRows_traced_ok lib g n hn (n - 1) 0 (lib.gp_ReinitializeGraph theGraph)
    [LibCall.reinitialize] (by omega)
  have hunf : TransferGraph (traced lib) (theGraph, []) g n =
      transferRows (traced lib) g n (n - 1) 0 OK
        (lib.gp_ReinitializeGraph theGraph, [LibCall.reinitialize]) := rfl
  rw [hunf] at hadd ⊢
  obtain ⟨_, h2⟩ := hmain hadd
  rw [h2]
  show edgeRequests (LibCall.reinitialize :: transferCalls g n 0 (n - 1)) = upperTriangle g n
  exact edgeRequests_transferCalls g n

theorem hexDigitsRev_fuel : ∀ (k1 k2 x : Nat), x < k1 → x < k2 →
    hexDigitsRev k1 x = hexDigitsRev k2 x := by
  intro k1
  induction k1 with
  | zero => intro k2 x h; omega
  | succ a ih =>
    intro k2 x h1 h2
    cases k2 with
    | zero => omega
    | succ b =>
      unfold hexDigitsRev
      by_cases hx : x = 0
      · rw [if_pos hx, if_pos hx]
      · rw [if_neg hx, if_neg hx]
        have hlt : x / 16 < x := Nat.div_lt_self (Nat.pos_of_ne_zero hx) (by decide)
        rw [ih b (x / 16) (by omega) (by omega)]

theorem hexDigitsRev_self (x : Nat) :
    hexDigitsRev (x + 1) x =
      if x = 0 then [] else (Nat.digitChar (x % 16)).toUpper :: hexDigitsRev (x / 16 + 1) (x / 16) := by
  by_cases hx : x = 0
  · subst hx; rfl
  · rw [if_neg hx]
    have hlt : x / 16 < x := Nat.div_lt_self (Nat.pos_of_ne_zero hx) (by decide)
    have : hexDigitsRev (x + 1) x = (Nat.digitChar (x % 16)).toUpper :: hexDigitsRev x (x / 16) := by
      rw [hexDigitsRev]
      simp [hx]
    rw [this, hexDigitsRev_fuel x (x / 16 + 1) (x / 16) hlt (by omega)]

theorem hex04X_digits (x : Nat) (hx : x < 2 ^ 16) :
    hex04X x = String.mk [(Nat.digitChar (x / 4096)).toUpper, (Nat.digitChar (x / 256 % 16)).toUpper,
      (Nat.digitChar (x / 16 % 16)).toUpper, (Nat.digitChar (x % 16)).toUpper] := by
  have hx2 : x < 65536 := by simpa using hx
  have e3 : x / 16 / 16 / 16 = x / 4096 := by omega
  have e2 : x / 16 / 16 = x / 256 := by omega
  have e4 : x / 16 / 16 / 16 / 16 = 0 := by omega
  have e5 : x / 4096 % 16 = x / 4096 := by omega
  unfold hex04X
  simp only
  rw [hexDigitsRev_self x]
  by_cases h0 : x = 0
  · subst h0; rfl
  · rw [if_neg h0, hexDigitsRev_self (x / 16)]
    by_cases h1 : x / 16 = 0
    · have k2 : x / 256 = 0 := by omega
      have k3 : x / 4096 = 0 := by omega
      rw [if_pos h1, k2, k3, h1]
      rfl
    · rw [if_neg h1, hexDigitsRev_self (x / 16 / 16)]
      by_cases h2 : x / 16 / 16 = 0
      · have k2 : x / 256 = 0 := by omega
        have k3 : x / 4096 = 0 := by omega
        rw [if_pos h2, k2, k3]
        rfl
      · rw [if_neg h2, hexDigitsRev_self (x / 16 / 16 / 16)]
        by_cases h3 : x / 16 / 16 / 16 = 0
        · have k3 : x / 4096 = 0 := by omega
          rw [if_pos h3, k3, e2]
          rfl
        · rw [if_neg h3, e4, e3, e2, e5]
          rfl

theorem hexDigit_testBit (x m b : Nat) (hb : b < 4) :
    ((x / 16 ^ m) % 16).testBit b = x.testBit (4 * m + b) := by
  have h16 : (16 : Nat) = 2 ^ 4 := by decide
  have hpow : (16 : Nat) ^ m = 2 ^ (4 * m) := by rw [h16, ← Nat.pow_mul]
  rw [hpow]
  nth_rewrite 1 [h16]
  rw [Nat.testBit_mod_two_pow, ← Nat.shiftRight_eq_div_pow, Nat.testBit_shiftRight]
  simp [hb]

theorem column_hexDigit (x c : Nat) (hc : c ≤ 15) :
    x.testBit (15 - c) = ((x / 16 ^ (3 - c / 4)) % 16).testBit (3 - c % 4) := by
  rw [hexDigit_testBit x (3 - c / 4) (3 - c % 4) (by omega)]
  congr 1
  omega

/-- C8 (amended).  In a row of the bit matrix the upper bits correspond to the
lower-indexed neighbors.  For every library, target, bit matrix and `n`, each
insertion `(u, v)` that `TransferGraph` requests has `u < v < n`, `v <= 15` and bit
`15 - v` of row `u` set; and for `n <= 16`, when every insertion succeeds,
`TransferGraph` requests the edge `(i, c)` exactly when `i < c < n` and bit `15 - c`
of row `i` is set.  So the mask tested for column `c` is `1 << (15 - c)`, and for
neighbors `j < k <= 15` the bit tested for `k` is of lower order than the bit tested
for `j`.  `WriteMatrixGraph` writes a row below `2^16` as four hexadecimal digits,
most significant first, so that column `c` is bit `3 - c % 4` of digit `c / 4`
counted from the left.  Accordingly `TransferGraph` with `n = 3` and the rows 0x6000,
0x2000, 0x0000, which `WriteMatrixGraph` writes as 6000, 2000, 0000, inserts exactly
the edges 0-1, 0-2, 1-2. -/
theorem row_bits_high_to_low (j k : Nat) (hjk : j < k) (hk : k ≤ 15) :
    (1 <<< (MAXN - 1)) >>> k < (1 <<< (MAXN - 1)) >>> j ∧
    (1 <<< (MAXN - 1)) >>> k = 2 ^ (15 - k) ∧ 15 - k < 15 - j ∧
    (∀ (g : Nat → Nat) (n i : Nat),
      (i, k) ∈ upperTriangle g n ↔ i < k ∧ k < n ∧ (g i).testBit (15 - k) = true) ∧
    edgeRequests (TransferGraph (traced exampleLib) (exampleGraph, []) upperRows 3).2.2 =
      [(0, 1), (0, 2), (1, 2)] ∧
    (WriteMatrixGraph "errorMatrix.txt" upperRows 3 : Event WorkingGraph) =
      Event.matrixFile "errorMatrix.txt" ["3", "6000", "2000", "0000"] ∧
    (∀ (G : Type) (lib : GraphLib G) (theGraph : G) (g : Nat → Nat) (n u ul v vl : Nat) (ret : Int),
      LibCall.addEdge u ul v vl ret ∈ (TransferGraph (traced lib) (theGraph, []) g n).2.2 →
      ul = 0 ∧ vl = 0 ∧ u < v ∧ v < n ∧ v ≤ 15 ∧ (g u).testBit (15 - v) = true) ∧
    (∀ (G : Type) (lib : GraphLib G) (theGraph : G) (g : Nat → Nat) (n : Nat), n ≤ 16 →
      allInsertionsOK (TransferGraph (traced lib) (theGraph, []) g n).2.2 →
      ∀ i c, (i, c) ∈ edgeRequests (TransferGraph (traced lib) (theGraph, []) g n).2.2 ↔
        i < c ∧ c < n ∧ (g i).testBit (15 - c) = true) ∧
    (∀ x, x < 2 ^ 16 →
      hex04X x = String.mk [(Nat.digitChar (x / 4096)).toUpper,
        (Nat.digitChar (x / 256 % 16)).toUpper, (Nat.digitChar (x / 16 % 16)).toUpper,
        (Nat.digitChar (x % 16)).toUpper]) ∧
    (∀ x c, c ≤ 15 → x.testBit (15 - c) = ((x / 16 ^ (3 - c / 4)) % 16).testBit (3 - c % 4)) := by
  have hmk : (1 <<< (MAXN - 1)) >>> k = 2 ^ (15 - k) := by
    rw [mask_eq k hk, Nat.one_shiftLeft]
  have hmj : (1 <<< (MAXN - 1)) >>> j = 2 ^ (15 - j) := by
    rw [mask_eq j (by omega), Nat.one_shiftLeft]
  refine ⟨?_, hmk, by omega, ?_, by decide, rfl, ?_, ?_, hex04X_digits, column_hexDigit⟩
  · rw [hmk, hmj]
    exact Nat.pow_lt_pow_right (by decide) (by omega)
  · intro g n i
    rw [mem_upperTriangle, and_mask_ne_zero]
  · intro G lib theGraph g n u ul v vl ret h
    exact TransferGraph_sound lib theGraph g n u ul v vl ret h
  · intro G lib theGraph g n hn hadd i c
    rw [TransferGraph_edgeRequests lib theGraph g n hn hadd, mem_upperTriangle, and_mask_ne_zero]

theorem row_bits_high_to_low_witness :
    (1 <<< (MAXN - 1)) >>> 2 < (1 <<< (MAXN - 1)) >>> 1 ∧
    edgeRequests (TransferGraph (traced exampleLib) (exampleGraph, []) upperRows 3).2.2 =
      [(0, 1), (0, 2), (1, 2)] ∧
    4 ≤ 16 ∧
    allInsertionsOK (TransferGraph (traced exampleLib) (roomyGraphFour, []) completeFour 4).2.2 ∧
    edgeRequests (TransferGraph (traced exampleLib) (roomyGraphFour, []) completeFour 4).2.2 =
      [(0, 1), (0, 2), (0, 3), (1, 2), (1, 3), (2, 3)] ∧
    (∀ i c,
      (i, c) ∈ edgeRequests (TransferGraph (traced exampleLib) (roomyGraphFour, []) completeFour 4).2.2 ↔
        i < c ∧ c < 4 ∧ (completeFour i).testBit (15 - c) = true) ∧
    hex04X 0x7000 = "7000" := by
  have htr : (TransferGraph (traced exampleLib) (roomyGraphFour, []) completeFour 4).2.2 =
      [LibCall.reinitialize, LibCall.setVertexV 0, LibCall.addEdge 0 0 1 0 OK,
       LibCall.addEdge 0 0 2 0 OK, LibCall.addEdge 0 0 3 0 OK, LibCall.setVertexV 1,
       LibCall.addEdge 1 0 2 0 OK, LibCall.addEdge 1 0 3 0 OK, LibCall.setVertexV 2,
       LibCall.addEdge 2 0 3 0 OK] := by decide
  have hall : allInsertionsOK
      (TransferGraph (traced exampleLib) (roomyGraphFour, []) completeFour 4).2.2 := by
    rw [htr]
    intro u ul v vl ret hmem
    simp only [List.mem_cons, LibCall.addEdge.injEq, List.mem_singleton, reduceCtorEq, false_or,
      List.not_mem_nil, or_false] at hmem
    rcases hmem with h | h | h | h | h | h <;> exact h.2.2.2.2
  have h := row_bits_high_to_low 1 2 (by decide) (by decide)
  refine ⟨h.1, h.2.2.2.2.1, by decide, hall, by rw [htr]; rfl,
    h.2.2.2.2.2.2.2.1 WorkingGraph exampleLib roomyGraphFour completeFour 4 (by decide) hall, ?_⟩
  rw [h.2.2.2.2.2.2.2.2.1 0x7000 (by decide)]
  rfl

/-- C8 as stated fails: the bit that `TransferGraph` tests for neighbor 2 is of lower
order than the bit it tests for neighbor 1, and with `n = 3` and the rows 110, 100,
000 it requests no insertion at all. -/
theorem row_bits_counterexample :
    (1 <<< (MAXN - 1)) >>> 2 < (1 <<< (MAXN - 1)) >>> 1 ∧
    edgeRequests (TransferGraph (traced exampleLib) (exampleGraph, []) lowRows 3).2.2 = [] ∧
    (TransferGraph exampleLib exampleGraph lowRows 3).2.edges = [] := by
  decide

/-! ## C9: the report after a failure -/

/-- C9 fails on the code after an allocation failure.  `Test_PrintStats` reads
`testFramework->algResults` on every path, so with `testFramework = NULL` it has no
result.  That is the state after the first candidate when
`tf_AllocateTestFramework` fails: `errorFound = 1` and no framework.  After a failed
copy, where the framework exists, the report is printed with the status ERROR. -/
theorem Test_PrintStats_without_framework :
    (∀ (env : Env) (s : Harness WorkingGraph), s.testFramework = none → Test_PrintStats env s = none) ∧
    (outprocTest exampleEnv allocFailLib (Harness.init WorkingGraph) triangle 3).map Harness.summary =
      some (1, none) ∧
    ((outprocTest exampleEnv allocFailLib (Harness.init WorkingGraph) triangle 3).bind
      (Test_PrintStats exampleEnv)).isNone = true ∧
    ((outprocTest exampleEnv copyFailLib (Harness.init WorkingGraph) triangle 3).bind
      (Test_PrintStats exampleEnv)).map (fun s => s.out.filterMap Event.status?) = some ["ERROR"] := by
  refine ⟨?_, rfl, rfl, rfl⟩
  intro env s h
  unfold Test_PrintStats
  rw [h]

/-! ## Degrees and row popcounts -/

theorem countP_testBit_zero (l : List Nat) : l.countP (fun b => (0 : Nat).testBit b) = 0 := by
  rw [List.countP_eq_zero]
  intro b _
  simp

theorem popcountAux_eq_countP :
    ∀ (k x m : Nat), x ≤ k → x < 2 ^ m →
      popcountAux k x = (List.range m).countP (fun b => x.testBit b) := by
  intro k
  induction k with
  | zero =>
    intro x m hx _
    have : x = 0 := by omega
    subst this
    rw [countP_testBit_zero]
    rfl
  | succ k ih =>
    intro x m hx hm
    unfold popcountAux
    by_cases h0 : x = 0
    · subst h0
      rw [if_pos rfl, countP_testBit_zero]
    · rw [if_neg h0]
      cases m with
      | zero => simp at hm; omega
      | succ m =>
        rw [List.range_succ_eq_map, List.countP_cons, List.countP_map]
        have hx2 : x / 2 ≤ k := by omega
        have hm2 : x / 2 < 2 ^ m := by
          rw [Nat.pow_succ] at hm
          omega
        rw [ih (x / 2) m hx2 hm2]
        have hfun : ((fun b => x.testBit b) ∘ Nat.succ) = (fun b => (x / 2).testBit b) := by
          funext b
          simp [Nat.testBit_succ]
        rw [hfun, Nat.testBit_zero]
        have hmod : x % 2 = 0 ∨ x % 2 = 1 := by omega
        rcases hmod with h | h
        · simp [h]
        · simp [h]; omega

theorem popcount_eq_countP (x m : Nat) (hm : x < 2 ^ m) :
    popcount x = (List.range m).countP (fun b => x.testBit b) :=
  popcountAux_eq_countP x x m (le_refl _) hm

theorem countP_reverse_index (p : Nat → Bool) :
    ∀ n, n ≤ 16 → (List.range n).countP (fun j => p (15 - j)) = (List.range' (16 - n) n).countP p := by
  intro n
  induction n with
  | zero => intro _; rfl
  | succ n ih =>
    intro hn
    rw [List.range_succ, List.countP_append, ih (by omega)]
    have h1 : 16 - (n + 1) = 15 - n := by omega
    have h2 : 16 - n = (15 - n) + 1 := by omega
    rw [h1, List.range'_succ, List.countP_cons, h2]
    simp only [List.countP_cons, List.countP_nil]
    omega

theorem row_popcount (x n : Nat) (hn : n ≤ 16)
    (hcols : ∀ b, x.testBit b = true → b ≤ 15 ∧ 15 - b < n) :
    popcount x = (List.range n).countP (fun j => x.testBit (15 - j)) := by
  have hlt : x < 2 ^ 16 := by
    apply Nat.lt_pow_two_of_testBit
    intro i hi
    by_contra hne
    have := hcols i (by simpa using hne)
    omega
  rw [popcount_eq_countP x 16 hlt, countP_reverse_index (fun b => x.testBit b) n hn]
  have hsplit : List.range 16 = List.range' 0 (16 - n) ++ List.range' (16 - n) n := by
    rw [List.range_eq_range']
    have := List.range'_append 0 (16 - n) n 1
    simp only [Nat.one_mul, Nat.zero_add] at this
    rw [this]
    congr 1
    omega
  rw [hsplit, List.countP_append]
  have hz : (List.range' 0 (16 - n)).countP (fun b => x.testBit b) = 0 := by
    rw [List.countP_eq_zero]
    intro b hb
    rw [List.mem_range'_1] at hb
    intro hbit
    have := hcols b hbit
    omega
  rw [hz, Nat.zero_add]

theorem length_filter_flatMap {α β : Type} (p : β → Bool) (f : α → List β) :
    ∀ l : List α, ((l.flatMap f).filter p).length = (l.map (fun a => ((f a).filter p).length)).sum := by
  intro l
  induction l with
  | nil => rfl
  | cons a l ih =>
    rw [List.flatMap_cons, List.filter_append, List.length_append, ih]
    simp

theorem sum_map_indicator (q : Nat → Bool) :
    ∀ l : List Nat, (l.map (fun i => if q i = true then 1 else 0)).sum = (l.filter q).length := by
  intro l
  induction l with
  | nil => rfl
  | cons a l ih =>
    rw [List.map_cons, List.sum_cons, ih, List.filter_cons]
    by_cases h : q a = true
    · simp [h]; omega
    · simp [h]

theorem sum_map_single (v a : Nat) :
    ∀ l : List Nat, l.Nodup → v ∈ l → (l.map (fun i => if i = v then a else 0)).sum = a := by
  intro l
  induction l with
  | nil => intro _ h; simp at h
  | cons b l ih =>
    intro hnd hmem
    rw [List.map_cons, List.sum_cons]
    rw [List.nodup_cons] at hnd
    by_cases hb : b = v
    · subst hb
      rw [if_pos rfl]
      have hz : (l.map (fun i => if i = b then a else 0)).sum = 0 := by
        apply List.sum_eq_zero
        intro x hx
        obtain ⟨i, hi, rfl⟩ := List.mem_map.mp hx
        have : i ≠ b := fun h => hnd.1 (h ▸ hi)
        simp [this]
      omega
    · rw [if_neg hb]
      have hv : v ∈ l := by
        rcases List.mem_cons.mp hmem with h | h
        · exact absurd h.symm hb
        · exact h
      rw [ih hnd.2 hv]
      omega

theorem filter_eq_range (n v : Nat) :
    ((List.range n).filter (fun j => decide (j = v))).length = if v < n then 1 else 0 := by
  induction n with
  | zero => simp
  | succ n ih =>
    rw [List.range_succ, List.filter_append, List.length_append, ih]
    by_cases h : n = v
    · subst h; simp
    · by_cases h2 : v < n
      · have h3 : v < n + 1 := by omega
        simp [h, h2, h3]
      · have h3 : ¬ v < n + 1 := by omega
        simp [h, h2, h3]

theorem length_filter_add (p q r : Nat → Bool) :
    ∀ l : List Nat, (∀ x ∈ l, r x = (p x || q x) ∧ ¬ (p x = true ∧ q x = true)) →
      (l.filter p).length + (l.filter q).length = (l.filter r).length := by
  intro l
  induction l with
  | nil => intro _; rfl
  | cons a l ih =>
    intro h
    have ha := h a (List.mem_cons_self _ _)
    have hl := ih (fun x hx => h x (List.mem_cons_of_mem _ hx))
    simp only [List.filter_cons]
    cases hp : p a <;> cases hq : q a <;> simp [hp, hq] at ha <;> simp [ha] <;> omega

theorem length_filter_fst (g : Nat → Nat) (n v : Nat) (hv : v < n) :
    ((upperTriangle g n).filter (fun e => decide (e.1 = v))).length = (rowColumns n v (g v)).length := by
  unfold upperTriangle
  rw [length_filter_flatMap]
  have hrow : ∀ i, (((rowColumns n i (g i)).map (fun j => (i, j))).filter
      (fun e => decide (e.1 = v))).length = if i = v then (rowColumns n v (g v)).length else 0 := by
    intro i
    rw [List.filter_map, List.length_map]
    by_cases h : i = v
    · subst h
      simp
    · simp [h]
  simp only [hrow]
  exact sum_map_single v _ (List.range n) (List.nodup_range n) (List.mem_range.mpr hv)

theorem length_filter_snd (g : Nat → Nat) (n v : Nat) (hv : v < n) :
    ((upperTriangle g n).filter (fun e => decide (e.2 = v))).length =
      ((List.range n).filter (fun i => decide (i < v ∧ g i &&& (1 <<< (15 - v)) ≠ 0))).length := by
  unfold upperTriangle
  rw [length_filter_flatMap]
  have hrow : ∀ i, (((rowColumns n i (g i)).map (fun j => (i, j))).filter
      (fun e => decide (e.2 = v))).length =
      if decide (i < v ∧ g i &&& (1 <<< (15 - v)) ≠ 0) = true then 1 else 0 := by
    intro i
    rw [List.filter_map, List.length_map]
    unfold rowColumns
    rw [List.filter_filter]
    by_cases h : i < v ∧ g i &&& (1 <<< (15 - v)) ≠ 0
    · have hc : (List.range n).filter (fun a => ((fun e : Nat × Nat => decide (e.2 = v)) ∘ fun j => (i, j)) a &&
          decide (i < a ∧ g i &&& (1 <<< (15 - a)) ≠ 0)) =
          (List.range n).filter (fun j => decide (j = v)) := by
        apply List.filter_congr
        intro x _
        by_cases hx : x = v
        · subst hx; simp [h]
        · simp [hx]
      rw [hc, filter_eq_range, if_pos hv]
      simp [h]
    · have hc : (List.range n).filter (fun a => ((fun e : Nat × Nat => decide (e.2 = v)) ∘ fun j => (i, j)) a &&
          decide (i < a ∧ g i &&& (1 <<< (15 - a)) ≠ 0)) = [] := by
        rw [List.filter_eq_nil_iff]
        intro x _
        by_cases hx : x = v
        · subst hx; simp [h]
        · simp [hx]
      rw [hc]
      simp [h]
  simp only [hrow]
  exact sum_map_indicator _ (List.range n)

/-! ## C10: degrees and row popcounts -/

/-- C10.  For `n <= 16` and a bit matrix that is symmetric, has an empty diagonal and
has no bit set outside its first `n` columns (bit `15 - j` of a row is column `j`),
a `TransferGraph` into a working graph with room for every edge returns `OK`, and
the degree of each vertex `v < n` in the resulting graph is the popcount of row
`v`. -/
theorem degree_eq_row_popcount (embed : EmbedFlags → WorkingGraph → Int)
    (check : WorkingGraph → Int → Int) (colors : WorkingGraph → Int) (copy : Int)
    (g : Nat → Nat) (n : Nat) (W : WorkingGraph) (v : Nat)
    (hn : n ≤ 16)
    (hsym : ∀ i j, i < n → j < n → (g i).testBit (15 - j) = (g j).testBit (15 - i))
    (hdiag : ∀ i, i < n → (g i).testBit (15 - i) = false)
    (hcols : ∀ i b, i < n → (g i).testBit b = true → b ≤ 15 ∧ 15 - b < n)
    (hroom : (upperTriangle g n).length ≤ W.arcCapacity / 2)
    (hv : v < n) :
    (TransferGraph (modelLib embed check colors copy) W g n).1 = OK ∧
    (TransferGraph (modelLib embed check colors copy) W g n).2.degree v = popcount (g v) := by
  rw [TransferGraph_model embed check colors copy g n hn W hroom]
  refine ⟨rfl, ?_⟩
  unfold WorkingGraph.degree
  simp only
  have h1 := length_filter_fst g n v hv
  have h2 := length_filter_snd g n v hv
  rw [h1, h2, row_popcount (g v) n hn (fun b hb => hcols v b hv hb), List.countP_eq_length_filter]
  unfold rowColumns
  apply length_filter_add
  intro x hx
  rw [List.mem_range] at hx
  have hbit1 : (g v &&& (1 <<< (15 - x)) ≠ 0) ↔ (g v).testBit (15 - x) = true :=
    and_mask_ne_zero _ _
  have hbit2 : (g x &&& (1 <<< (15 - v)) ≠ 0) ↔ (g v).testBit (15 - x) = true := by
    rw [and_mask_ne_zero, hsym x v hx hv]
  by_cases hxv : x = v
  · subst hxv
    have hd := hdiag x hx
    simp [hd]
  · cases hb : (g v).testBit (15 - x)
    · simp [hbit1, hbit2, hb]
    · have hlt : v < x ∨ x < v := by omega
      rcases hlt with h | h
      · have h3 : ¬ x < v := by omega
        simp [hbit1, hbit2, hb, h, h3]
      · have h3 : ¬ v < x := by omega
        simp [hbit1, hbit2, hb, h, h3]

theorem degree_eq_row_popcount_witness :
    (TransferGraph exampleLib exampleGraph triangle 3).1 = OK ∧
    (TransferGraph exampleLib exampleGraph triangle 3).2.degree 1 = popcount (triangle 1) ∧
    popcount (triangle 1) = 2 := by
  have hbits : ∀ i, i < 3 → ∀ b, (triangle i).testBit b = true → b = 13 ∨ b = 14 ∨ b = 15 := by
    intro i hi b hb
    by_contra hne
    have hb16 : b < 16 := by
      by_contra hge
      have hlt : triangle i < 2 ^ b := by
        have h16 : triangle i < 2 ^ 16 := by
          interval_cases i <;> decide
        exact lt_of_lt_of_le h16 (Nat.pow_le_pow_right (by decide) (by omega))
      rw [Nat.testBit_lt_two_pow hlt] at hb
      cases hb
    interval_cases i <;> interval_cases b <;> revert hb hne <;> decide
  have h := degree_eq_row_popcount (fun _ _ => OK) (fun _ r => r) (fun _ => 3) OK triangle 3
    exampleGraph 1 (by decide)
    (by intro i j hi hj; interval_cases i <;> interval_cases j <;> decide)
    (by intro i hi; interval_cases i <;> decide)
    (by intro i b hi hb
        rcases hbits i hi b hb with h | h | h <;> subst h <;> decide)
    (by decide) (by decide)
  exact ⟨h.1, h.2, by decide⟩

/-! ## C12: the transfer after a refusal under reduced capacity -/

/-- C12 fails on the code for the later rows.  With the complete graph on four
vertices and a target with room for one edge, the insertion `(0, 2)` is refused and
treated as an early stop: the edge `(0, 1)` is retained and `(0, 3)` is not
requested.  But the `break` leaves only the inner loop and `ErrorCode` is `OK`
again, so the outer loop goes on and requests `(1, 2)` and `(2, 3)`. -/
theorem TransferGraph_requests_after_shortfall :
    (TransferGraph (traced exampleLib) (smallGraphFour, []) completeFour 4).2.2 =
      [LibCall.reinitialize, LibCall.setVertexV 0, LibCall.addEdge 0 0 1 0 OK,
       LibCall.addEdge 0 0 2 0 NONEMBEDDABLE, LibCall.setVertexV 1,
       LibCall.addEdge 1 0 2 0 NONEMBEDDABLE, LibCall.setVertexV 2,
       LibCall.addEdge 2 0 3 0 NONEMBEDDABLE] ∧
    TransferGraph exampleLib smallGraphFour completeFour 4 =
      (OK, { smallGraphFour with edges := [(0, 1)] }) := by
  decide

/-! ## C13: the report of a failed transfer -/

/-- C13 fails on the code for the copy of the adjacency lists.  In all mode, when
`gp_CopyAdjacencyLists` fails on the first candidate, `outprocTest` prints its
message, sets `errorFound` and runs no selector, but writes no file.  When
`TransferGraph` fails, it prints its message and writes errorMatrix.txt. -/
theorem outprocTest_copy_failure_writes_no_matrix :
    (outprocTest allEnv copyAdjFailLib (Harness.init WorkingGraph) triangle 3).map
        (fun s => (s.errorFound, s.out.map Event.name)) =
      some (1, ["Failed to copy adjacency lists"]) ∧
    (outprocTest allEnv copyAdjFailLib (Harness.init WorkingGraph) triangle 3).map Harness.summary =
      some (1, some [('p', 0, 0, 0, 0), ('d', 0, 0, 0, 0), ('o', 0, 0, 0, 0), ('2', 0, 0, 0, 0),
        ('3', 0, 0, 0, 0), ('4', 0, 0, 0, 0), ('c', 0, 0, 0, 0)]) ∧
    (outprocTest allEnv refusingLib (Harness.init WorkingGraph) triangle 3).map
        (fun s => (s.errorFound, s.out.map Event.name)) =
      some (1, ["Failed to initialize with generated graph in errorMatrix.txt",
        "file errorMatrix.txt"]) :=
  ⟨rfl, rfl, rfl⟩

/-! ## C15: the labels -/

/-- C15.  `getMessages` returns the label triple of the table for each selector of
`commands`, and three times NULL for every other selector. -/
theorem getMessages_table (command : Char) (h : command ∉ commands) :
    getMessages 'p' = (some "Planarity", some "Planar", some "Not Planar") ∧
    getMessages 'd' = (some "Planar Drawing", some "Planar", some "Not Planar") ∧
    getMessages 'o' = (some "Outerplanarity", some "Embedded", some "Obstructed") ∧
    getMessages '2' = (some "K2,3 Search", some "no K2,3", some "with K2,3") ∧
    getMessages '3' = (some "K3,3 Search", some "no K3,3", some "with K3,3") ∧
    getMessages '4' = (some "K4 Search", some "no K4", some "with K4") ∧
    getMessages 'c' = (some "Vertex Coloring", some "<=5 colors", some ">5 colors") ∧
    getMessages command = (none, none, none) := by
  refine ⟨rfl, rfl, rfl, rfl, rfl, rfl, rfl, ?_⟩
  simp only [commands, List.mem_cons, List.mem_singleton, List.not_mem_nil, or_false,
    not_or] at h
  obtain ⟨h1, h2, h3, h4, h5, h6, h7⟩ := h
  simp only [getMessages, h1, h2, h3, h4, h5, h6, h7, if_false]

theorem getMessages_table_witness :
    'a' ∉ commands ∧ getMessages 'a' = (none, none, none) ∧
    getMessages 'c' = (some "Vertex Coloring", some "<=5 colors", some ">5 colors") :=
  ⟨by decide, (getMessages_table 'a' (by decide)).2.2.2.2.2.2.2,
   (getMessages_table 'a' (by decide)).2.2.2.2.2.2.1⟩

/-! ## The outcome of a test -/

/-- The body of `runTest` once the algorithm is reached: the grand total does not
overflow, the copy succeeds and the bucket exists.  The outcome is the result of
the algorithm; a result other than `OK` and `NONEMBEDDABLE` raises `errorFound`;
`numOKs` counts the result `OK`. -/
theorem runTestOn_result {G : Type} (env : Env) (lib : GraphLib G) (c : Char) (r : testResult G)
    (ef : Int) (b : baseTestResult)
    (hcount : ulongIncr env r.result.numGraphs ≠ 0)
    (hcopy : (lib.gp_CopyGraph r.theGraph r.origGraph).1 = OK)
    (hb : r.edgeResults[lib.M r.origGraph]? = some b) :
    ∃ o, runTestOn env lib c r ef = some o ∧
      o.Result = (runAlgorithm lib c (ulongIncr env r.result.numGraphs)
        (lib.gp_CopyGraph r.theGraph r.origGraph).2 r.origGraph).1 ∧
      o.errorFound = (if o.Result = OK ∨ o.Result = NONEMBEDDABLE then ef else ef + 1) ∧
      o.testResult.result.numOKs =
        (if o.Result = OK then ulongIncr env r.result.numOKs else r.result.numOKs) ∧
      o.testResult.result.numGraphs = ulongIncr env r.result.numGraphs := by
  unfold runTestOn
  simp only [hcount, if_false, hcopy, ne_eq, not_true_eq_false, tally, hb]
  by_cases h1 : (runAlgorithm lib c (ulongIncr env r.result.numGraphs)
      (lib.gp_CopyGraph r.theGraph r.origGraph).2 r.origGraph).1 = OK
  · simp only [h1, if_true, true_or]
    exact ⟨_, rfl, rfl, rfl, rfl, rfl⟩
  · simp only [h1, if_false, false_or]
    by_cases h2 : (runAlgorithm lib c (ulongIncr env r.result.numGraphs)
        (lib.gp_CopyGraph r.theGraph r.origGraph).2 r.origGraph).1 = NONEMBEDDABLE
    · simp only [h2, if_true]
      refine ⟨_, rfl, rfl, ?_, ?_, rfl⟩
      · simp
      · have hne : (NONEMBEDDABLE : Int) ≠ OK := by decide
        simp [hne]
    · simp only [h2, if_false]
      refine ⟨_, rfl, rfl, ?_, ?_, rfl⟩
      · simp [h1, h2]
      · simp [h1]

/-- C18.  For the selector `c`, in a call of `runTest` that reaches the algorithm:
when `gp_ColorVertices` or `gp_ColorVerticesIntegrityCheck` does not return `OK`,
`runTest` returns `NOTOK` and raises `errorFound`, whatever the number of colors;
otherwise the outcome is `NONEMBEDDABLE` when `gp_GetNumColorsUsed` is 6 or more and
`OK` when it is 5 or less, and `runTest` returns `OK` and leaves `errorFound`. -/
theorem runTest_coloring_outcome {G : Type} (env : Env) (lib : GraphLib G) (s : Harness G)
    (r : testResult G) (b : baseTestResult) (cv ck : Int × G)
    (hr : s.entry 'c' = some r)
    (hcount : ulongIncr env r.result.numGraphs ≠ 0)
    (hcopy : (lib.gp_CopyGraph r.theGraph r.origGraph).1 = OK)
    (hb : r.edgeResults[lib.M r.origGraph]? = some b)
    (hcv : cv = lib.gp_ColorVertices (lib.gp_CopyGraph r.theGraph r.origGraph).2)
    (hck : ck = lib.gp_ColorVerticesIntegrityCheck cv.2 r.origGraph) :
    ∃ o s1, runTestOn env lib 'c' r s.errorFound = some o ∧
      runTest env lib s 'c' =
        some (if o.Result = OK ∨ o.Result = NONEMBEDDABLE then OK else NOTOK, s1) ∧
      s1.errorFound = o.errorFound ∧
      (cv.1 ≠ OK ∨ ck.1 ≠ OK →
        o.Result = NOTOK ∧ runTest env lib s 'c' = some (NOTOK, s1) ∧
        s1.errorFound = s.errorFound + 1) ∧
      (cv.1 = OK → ck.1 = OK → lib.gp_GetNumColorsUsed ck.2 ≥ 6 →
        o.Result = NONEMBEDDABLE ∧ runTest env lib s 'c' = some (OK, s1) ∧
        s1.errorFound = s.errorFound) ∧
      (cv.1 = OK → ck.1 = OK → lib.gp_GetNumColorsUsed ck.2 ≤ 5 →
        o.Result = OK ∧ runTest env lib s 'c' = some (OK, s1) ∧
        s1.errorFound = s.errorFound) := by
  have hNO : (NOTOK : Int) ≠ OK := by decide
  have hNN : (NOTOK : Int) ≠ NONEMBEDDABLE := by decide
  obtain ⟨o, ho, hres, hef, _, _⟩ := runTestOn_result env lib 'c' r s.errorFound b hcount hcopy hb
  obtain ⟨s1, hrun, _, hef1, _, _⟩ := runTest_of_entry env lib s 'c' r o hr ho
  have halg : o.Result =
      (if cv.1 ≠ OK then NOTOK
       else if ck.1 ≠ OK then NOTOK
       else if lib.gp_GetNumColorsUsed ck.2 ≥ 6 then NONEMBEDDABLE else cv.1) := by
    rw [hres]
    unfold runAlgorithm
    rw [if_pos rfl, ← hcv]
    simp only
    rw [← hck]
    split_ifs <;> rfl
  refine ⟨o, s1, ho, hrun, hef1, ?_, ?_, ?_⟩
  · intro hfail
    have hR : o.Result = NOTOK := by
      rw [halg]
      rcases hfail with h | h
      · rw [if_pos h]
      · split_ifs <;> rfl
    have hnot : ¬ (o.Result = OK ∨ o.Result = NONEMBEDDABLE) := by
      rw [hR]; exact fun h => h.elim hNO hNN
    refine ⟨hR, ?_, ?_⟩
    · rw [hrun, if_neg hnot]
    · rw [hef1, hef, if_neg hnot]
  · intro h1 h2 h3
    have hR : o.Result = NONEMBEDDABLE := by
      rw [halg, if_neg (not_not.mpr h1), if_neg (not_not.mpr h2), if_pos h3]
    refine ⟨hR, ?_, ?_⟩
    · rw [hrun, if_pos (Or.inr hR)]
    · rw [hef1, hef, if_pos (Or.inr hR)]
  · intro h1 h2 h3
    have hR : o.Result = OK := by
      rw [halg, if_neg (not_not.mpr h1), if_neg (not_not.mpr h2), if_neg (by omega)]
      exact h1
    refine ⟨hR, ?_, ?_⟩
    · rw [hrun, if_pos (Or.inl hR)]
    · rw [hef1, hef, if_pos (Or.inl hR)]

theorem runTest_coloring_outcome_witness :
    (∃ s1, runTest exampleEnv sevenColorLib (stateWith 'c' exampleGraph) 'c' = some (OK, s1) ∧
      s1.errorFound = 0 ∧ (s1.entry 'c').map testResult.summary = some ('c', 1, 1, 0, 0)) ∧
    (∃ s1, runTest exampleEnv exampleLib (stateWith 'c' exampleGraph) 'c' = some (OK, s1) ∧
      s1.errorFound = 0 ∧ (s1.entry 'c').map testResult.summary = some ('c', 1, 1, 1, 1)) := by
  obtain ⟨o, s1, _, _, _, _, h7, _⟩ :=
    runTest_coloring_outcome exampleEnv sevenColorLib (stateWith 'c' exampleGraph)
      (entryFor 'c' exampleGraph) ⟨0, 0⟩ _ _ rfl (by decide) rfl rfl rfl rfl
  obtain ⟨_, hrun7, hef7⟩ := h7 rfl rfl (by decide)
  obtain ⟨o3, s3, _, _, _, _, _, h3⟩ :=
    runTest_coloring_outcome exampleEnv exampleLib (stateWith 'c' exampleGraph)
      (entryFor 'c' exampleGraph) ⟨0, 0⟩ _ _ rfl (by decide) rfl rfl rfl rfl
  obtain ⟨_, hrun3, hef3⟩ := h3 rfl rfl (by decide)
  have e7 : (runTest exampleEnv sevenColorLib (stateWith 'c' exampleGraph) 'c').bind
      (fun p => (p.2.entry 'c').map testResult.summary) = some ('c', 1, 1, 0, 0) := rfl
  have e3 : (runTest exampleEnv exampleLib (stateWith 'c' exampleGraph) 'c').bind
      (fun p => (p.2.entry 'c').map testResult.summary) = some ('c', 1, 1, 1, 1) := rfl
  rw [hrun7] at e7
  rw [hrun3] at e3
  exact ⟨⟨s1, hrun7, hef7, e7⟩, ⟨s3, hrun3, hef3, e3⟩⟩

/-! ## C16: a target with room for the complete graph -/

theorem allInsertionsOK_concat (tr : List LibCall) (c : LibCall) (h : allInsertionsOK tr)
    (hc : ∀ u ul v vl ret, c = LibCall.addEdge u ul v vl ret → ret = OK) :
    allInsertionsOK (tr ++ [c]) := by
  intro u ul v vl ret hmem
  rcases List.mem_append.mp hmem with h1 | h1
  · exact h u ul v vl ret h1
  · simp only [List.mem_singleton] at h1
    exact hc u ul v vl ret h1.symm

theorem triangular_succ (k : Nat) : (k + 1) * (k + 1 + 1) / 2 = (k + 1) + k * (k + 1) / 2 := by
  have h : (k + 1) * (k + 1 + 1) = 2 * (k + 1) + k * (k + 1) := by ring
  rw [h, Nat.mul_add_div (by decide : 2 > 0)]

theorem transferRow_room {G : Type} (lib : GraphLib G) (hk : keepsCapacity lib)
    (hm : countsEdges lib) (hfull : refusesOnlyWhenFull lib) (n i row : Nat) :
    ∀ (k j PO2 : Nat) (x : G) (tr : List LibCall),
      lib.M x + k ≤ lib.gp_GetArcCapacity x / 2 → allInsertionsOK tr →
      (transferRow (traced lib) n i row k j PO2 OK (x, tr)).1 = OK ∧
      allInsertionsOK (transferRow (traced lib) n i row k j PO2 OK (x, tr)).2.2 ∧
      lib.M (transferRow (traced lib) n i row k j PO2 OK (x, tr)).2.1 ≤ lib.M x + k ∧
      lib.gp_GetArcCapacity (transferRow (traced lib) n i row k j PO2 OK (x, tr)).2.1 =
        lib.gp_GetArcCapacity x := by
  intro k
  induction k with
  | zero => intro j PO2 x tr _ htr; exact ⟨rfl, htr, le_refl _, rfl⟩
  | succ k ih =>
    intro j PO2 x tr hroom htr
    unfold transferRow
    by_cases h : row &&& PO2 ≠ 0
    · rw [if_pos h]
      simp only [traced_addEdge]
      have hc : (lib.gp_AddEdge x i 0 j 0).1 = OK := by
        by_contra hne
        have := hfull x i j hne
        omega
      rw [if_neg (not_not.mpr hc), hc]
      have hM := hm.2.2 x i j hc
      have hC := hk.2.2 x i j
      obtain ⟨h1, h2, h3, h4⟩ := ih (j + 1) (PO2 >>> 1) (lib.gp_AddEdge x i 0 j 0).2
        (tr ++ [LibCall.addEdge i 0 j 0 OK]) (by rw [hM, hC]; omega)
        (allInsertionsOK_concat tr _ htr (by
          intro u ul v vl ret heq
          simp only [LibCall.addEdge.injEq] at heq
          exact heq.2.2.2.2.symm))
      exact ⟨h1, h2, by rw [hM] at h3; omega, h4.trans hC⟩
    · rw [if_neg h]
      obtain ⟨h1, h2, h3, h4⟩ := ih (j + 1) (PO2 >>> 1) x tr (by omega) htr
      exact ⟨h1, h2, by omega, h4⟩

theorem transferRows_room {G : Type} (lib : GraphLib G) (hk : keepsCapacity lib)
    (hm : countsEdges lib) (hfull : refusesOnlyWhenFull lib) (g : Nat → Nat) (n : Nat) :
    ∀ (k i : Nat) (x : G) (tr : List LibCall), i + k + 1 = n ∨ k = 0 →
      lib.M x + k * (k + 1) / 2 ≤ lib.gp_GetArcCapacity x / 2 → allInsertionsOK tr →
      (transferRows (traced lib) g n k i OK (x, tr)).1 = OK ∧
      allInsertionsOK (transferRows (traced lib) g n k i OK (x, tr)).2.2 := by
  intro k
  induction k with
  | zero => intro i x tr _ _ htr; exact ⟨rfl, htr⟩
  | succ k ih =>
    intro i x tr hik hroom htr
    have hcount : n - (i + 1) = k + 1 := by omega
    rw [triangular_succ] at hroom
    unfold transferRows
    rw [if_pos rfl]
    simp only [traced_setVertexV, hcount]
    have hrow := transferRow_room lib hk hm hfull n i (g i) (k + 1) (i + 1)
      ((1 <<< (MAXN - 1)) >>> (i + 1)) (lib.setVertexV x i) (tr ++ [LibCall.setVertexV i])
      (by rw [hm.2.1, hk.2.1]; omega)
      (allInsertionsOK_concat tr _ htr (by intro u ul v vl ret heq; cases heq))
    generalize transferRow (traced lib) n i (g i) (k + 1) (i + 1) ((1 <<< (MAXN - 1)) >>> (i + 1)) OK
      (lib.setVertexV x i, tr ++ [LibCall.setVertexV i]) = r at hrow
    obtain ⟨c, y, t⟩ := r
    simp only at hrow ⊢
    obtain ⟨h1, h2, h3, h4⟩ := hrow
    subst h1
    rw [hm.2.1] at h3
    rw [hk.2.1] at h4
    exact ih (i + 1) y t (by omega) (by rw [h4]; omega) h2

/-- C16.  Let the library keep the arc capacity, count the edges in `M`, and refuse an
insertion only when the graph holds as many edges as its capacity allows.  If the
target has arc capacity for the complete graph on `n <= 16` vertices, then for every
bit matrix every insertion that `TransferGraph` requests returns `OK`: none is
refused, the failure branch is not entered, the insertions made are those of the
upper triangle and the result is `OK`. -/
theorem TransferGraph_never_refused {G : Type} (lib : GraphLib G) (hk : keepsCapacity lib)
    (hm : countsEdges lib) (hfull : refusesOnlyWhenFull lib) (theGraph : G) (g : Nat → Nat)
    (n : Nat) (hn : n ≤ 16)
    (hcap : n * (n - 1) / 2 ≤ lib.gp_GetArcCapacity theGraph / 2) :
    (TransferGraph lib theGraph g n).1 = OK ∧
    allInsertionsOK (TransferGraph (traced lib) (theGraph, []) g n).2.2 ∧
    noRefusal (TransferGraph (traced lib) (theGraph, []) g n).2.2 ∧
    edgeRequests (TransferGraph (traced lib) (theGraph, []) g n).2.2 = upperTriangle g n := by
  have hunf : TransferGraph (traced lib) (theGraph, []) g n =
      transferRows (traced lib) g n (n - 1) 0 OK
        (lib.gp_ReinitializeGraph theGraph, [LibCall.reinitialize]) := rfl
  have hroom : lib.M (lib.gp_ReinitializeGraph theGraph) + (n - 1) * (n - 1 + 1) / 2 ≤
      lib.gp_GetArcCapacity (lib.gp_ReinitializeGraph theGraph) / 2 := by
    rw [hm.1, hk.1, Nat.zero_add]
    cases n with
    | zero => simp
    | succ m =>
      have : (m + 1 - 1) * (m + 1 - 1 + 1) = (m + 1) * (m + 1 - 1) := by
        simp only [Nat.add_sub_cancel]; ring
      rw [this]; exact hcap
  have hinit : allInsertionsOK [LibCall.reinitialize] := by
    intro u ul v vl ret hmem
    simp at hmem
  obtain ⟨h1, h2⟩ := transferRows_room lib hk hm hfull g n (n - 1) 0
    (lib.gp_ReinitializeGraph theGraph) [LibCall.reinitialize] (by omega) hroom hinit
  rw [← hunf] at h1 h2
  obtain ⟨_, h4⟩ := transferRows_traced_ok lib g n hn (n - 1) 0 (lib.gp_ReinitializeGraph theGraph)
    [LibCall.reinitialize] (by omega) (by rw [← hunf]; exact h2)
  rw [← hunf] at h4
  refine ⟨?_, h2, ?_, ?_⟩
  · rw [← (TransferGraph_traced lib (theGraph, []) g n).1]; exact h1
  · intro u ul v vl hmem
    have := h2 u ul v vl NONEMBEDDABLE hmem
    revert this
    decide
  · rw [h4]
    show edgeRequests (LibCall.reinitialize :: transferCalls g n 0 (n - 1)) = upperTriangle g n
    exact edgeRequests_transferCalls g n

theorem modelLib_countsEdges (embed : EmbedFlags → WorkingGraph → Int)
    (check : WorkingGraph → Int → Int) (colors : WorkingGraph → Int) (copy : Int) :
    countsEdges (modelLib embed check colors copy) ∧
    refusesOnlyWhenFull (modelLib embed check colors copy) := by
  refine ⟨⟨fun _ => rfl, fun _ _ => rfl, ?_⟩, ?_⟩
  · intro x u v
    simp only [modelLib]
    split
    · intro h
      have hne : (NONEMBEDDABLE : Int) ≠ OK := by decide
      exact absurd h hne
    · intro _; simp
  · intro x u v
    simp only [modelLib]
    split
    · rename_i h; intro _; exact h
    · intro h; exact absurd rfl h

theorem TransferGraph_never_refused_witness :
    3 * (3 - 1) / 2 ≤ exampleLib.gp_GetArcCapacity exampleGraph / 2 ∧
    (TransferGraph exampleLib exampleGraph triangle 3).1 = OK ∧
    edgeRequests (TransferGraph (traced exampleLib) (exampleGraph, []) triangle 3).2.2 =
      upperTriangle triangle 3 :=
  ⟨by decide,
   (TransferGraph_never_refused exampleLib (modelLib_keepsCapacity _ _ _ _)
     (modelLib_countsEdges _ _ _ _).1 (modelLib_countsEdges _ _ _ _).2 exampleGraph triangle 3
     (by decide) (by decide)).1,
   (TransferGraph_never_refused exampleLib (modelLib_keepsCapacity _ _ _ _)
     (modelLib_countsEdges _ _ _ _).1 (modelLib_countsEdges _ _ _ _).2 exampleGraph triangle 3
     (by decide) (by decide)).2.2.2⟩

/-! ## The order of the counters -/

theorem tally_spec {G : Type} (env : Env) (lib : GraphLib G) (r r2 : testResult G) (Result : Int)
    (h : tally env lib r Result = some r2) :
    ∃ b, r.edgeResults[lib.M r.origGraph]? = some b ∧
      r2.result.numGraphs = r.result.numGraphs ∧
      r2.result.numOKs = (if Result = OK then ulongIncr env r.result.numOKs else r.result.numOKs) ∧
      r2.edgeResults = r.edgeResults.set (lib.M r.origGraph)
        ⟨ulongIncr env b.numGraphs, if Result = OK then ulongIncr env b.numOKs else b.numOKs⟩ := by
  unfold tally at h
  split at h
  · cases h
  · rename_i b hb
    refine ⟨b, hb, ?_⟩
    split at h
    · rename_i hres
      cases h
      simp [hres]
    · rename_i hres
      cases h
      simp [hres]

theorem hasOverflow_append {G : Type} (a b : List (Event G)) :
    hasOverflow (a ++ b) ↔ hasOverflow a ∨ hasOverflow b := by
  unfold hasOverflow
  constructor
  · rintro ⟨e, he, h⟩
    rcases List.mem_append.mp he with h1 | h1
    · exact Or.inl ⟨e, h1, h⟩
    · exact Or.inr ⟨e, h1, h⟩
  · rintro (⟨e, he, h⟩ | ⟨e, he, h⟩)
    · exact ⟨e, List.mem_append_left _ he, h⟩
    · exact ⟨e, List.mem_append_right _ he, h⟩

theorem hasCountFailure_of_hasOverflow {G : Type} (out : List (Event G)) (h : hasOverflow out) :
    hasCountFailure out := by
  obtain ⟨e, he, h1⟩ := h
  refine ⟨e, he, ?_⟩
  cases e <;> first | rfl | cases h1

theorem not_hasOverflow_of_all {G : Type} (es : List (Event G))
    (h : ∀ e ∈ es, e.isCountFailure = false) : ¬ hasOverflow es :=
  fun hov => not_hasCountFailure_of_all es h (hasCountFailure_of_hasOverflow es hov)

theorem ulongIncr_of_ne_zero (env : Env) (x : Nat) (hx : x < 2 ^ env.ulongBits)
    (h : ulongIncr env x ≠ 0) : ulongIncr env x = x + 1 ∧ x + 1 < 2 ^ env.ulongBits := by
  unfold ulongIncr at h ⊢
  have hlt : x + 1 < 2 ^ env.ulongBits := by
    by_contra hge
    have : x + 1 = 2 ^ env.ulongBits := by omega
    rw [this, Nat.mod_self] at h
    exact h rfl
  exact ⟨Nat.mod_eq_of_lt hlt, hlt⟩

theorem runTestOn_ordered {G : Type} (env : Env) (lib : GraphLib G) (command : Char)
    (r : testResult G) (ef : Int) (o : RunOutcome G) (h : runTestOn env lib command r ef = some o)
    (hr : r.ordered env) (hno : ¬ hasOverflow o.msgs) : o.testResult.ordered env := by
  obtain ⟨h1, h2, h3, h4, h5⟩ := hr
  unfold runTestOn at h
  simp only at h
  split at h
  · cases h
    exact absurd ⟨Event.exceededMaximum, by simp, rfl⟩ hno
  · rename_i hnz
    obtain ⟨hincr, hlt⟩ := ulongIncr_of_ne_zero env r.result.numGraphs h2 hnz
    split at h
    · cases h
      refine ⟨?_, ?_, ?_, h4, h5⟩
      · show r.result.numOKs ≤ ulongIncr env r.result.numGraphs
        omega
      · show ulongIncr env r.result.numGraphs < 2 ^ env.ulongBits
        omega
      · show r.bucketGraphs ≤ ulongIncr env r.result.numGraphs
        omega
    · split at h
      · cases h
      · rename_i r2 htally
        have hres : o.testResult = r2 := by
          split at h <;> (cases h; rfl)
        rw [hres]
        obtain ⟨b, hb, t1, t2, t3⟩ := tally_spec env lib _ r2 _ htally
        simp only at hb t1 t2 t3
        have hbmem : b ∈ r.edgeResults := List.getElem?_mem hb
        have hble : b.numGraphs ≤ (r.edgeResults.map (fun b => b.numGraphs)).sum :=
          le_sum_map (fun b => b.numGraphs) r.edgeResults _ b hb
        have hbok := h4 b hbmem
        simp only [testResult.bucketGraphs, testResult.bucketOKs] at h3 h5
        have hbg : ulongIncr env b.numGraphs = b.numGraphs + 1 := by
          unfold ulongIncr; exact Nat.mod_eq_of_lt (by omega)
        have hbo : ulongIncr env b.numOKs = b.numOKs + 1 := by
          unfold ulongIncr; exact Nat.mod_eq_of_lt (by omega)
        have hto : ulongIncr env r.result.numOKs = r.result.numOKs + 1 := by
          unfold ulongIncr; exact Nat.mod_eq_of_lt (by omega)
        have hsg : (r2.edgeResults.map (fun b => b.numGraphs)).sum + b.numGraphs
            = (r.edgeResults.map (fun b => b.numGraphs)).sum + (b.numGraphs + 1) := by
          have := sum_map_set (fun b => b.numGraphs) r.edgeResults _ b
            ⟨ulongIncr env b.numGraphs,
              if (runAlgorithm lib command (ulongIncr env r.result.numGraphs)
                (lib.gp_CopyGraph r.theGraph r.origGraph).2 r.origGraph).1 = OK
              then ulongIncr env b.numOKs else b.numOKs⟩ hb
          rw [← t3] at this
          simp only [hbg] at this
          exact this
        have hso : (r2.edgeResults.map (fun b => b.numOKs)).sum + b.numOKs
            = (r.edgeResults.map (fun b => b.numOKs)).sum +
              (if (runAlgorithm lib command (ulongIncr env r.result.numGraphs)
                (lib.gp_CopyGraph r.theGraph r.origGraph).2 r.origGraph).1 = OK
              then b.numOKs + 1 else b.numOKs) := by
          have := sum_map_set (fun b => b.numOKs) r.edgeResults _ b
            ⟨ulongIncr env b.numGraphs,
              if (runAlgorithm lib command (ulongIncr env r.result.numGraphs)
                (lib.gp_CopyGraph r.theGraph r.origGraph).2 r.origGraph).1 = OK
              then ulongIncr env b.numOKs else b.numOKs⟩ hb
          rw [← t3] at this
          simp only [hbo] at this
          exact this
        unfold testResult.ordered testResult.bucketGraphs testResult.bucketOKs
        rw [t1, t2]
        refine ⟨?_, ?_, ?_, ?_, ?_⟩
        · simp only [hto]
          split_ifs <;> omega
        · omega
        · omega
        · intro b1 hb1
          rw [t3] at hb1
          rcases List.mem_or_eq_of_mem_set hb1 with hm | rfl
          · exact h4 b1 hm
          · simp only [hbg, hbo]
            split_ifs <;> omega
        · simp only [hto]
          split_ifs at hso ⊢ <;> omega

theorem chain_start :
    ∃ s, outprocTest exampleEnv exampleLib (Harness.init WorkingGraph) triangle 3 = some s ∧
      outprocTest exampleEnv exampleLib s oneEdge 3 = some (chain 1) :=
  ⟨_, rfl, rfl⟩

theorem chain_overflow :
    runTest exampleEnv exampleLib (chain (2 ^ 64 - 2)) 'p' = some (NOTOK, chainOverflow) := rfl

theorem chain_wrapped :
    runTest exampleEnv exampleLib chainOverflow 'p' = some (OK, chainWrapped) := rfl

theorem chain_step (k : Nat) (hk : k + 2 < 2 ^ 64) :
    runTest exampleEnv exampleLib (chain k) 'p' = some (OK, chain (k + 1)) := by
  have h1 : (k + 1 + 1) % 18446744073709551616 = k + 1 + 1 := Nat.mod_eq_of_lt (by omega)
  have h2 : (k + 1) % 18446744073709551616 = k + 1 := Nat.mod_eq_of_lt (by omega)
  simp [runTest, chain, tf_GetTestResult, runTestOn, ulongIncr, exampleEnv, exampleLib, modelLib,
    runAlgorithm, tally, oneEdgeGraph, strchr, commands, embedFlagsOf, h1, h2, OK, NONEMBEDDABLE]

theorem chain_reachable (k : Nat) (h1 : 1 ≤ k) (hk : k + 1 < 2 ^ 64) :
    Reachable exampleEnv exampleLib (chain k) := by
  induction k with
  | zero => omega
  | succ k ih =>
    rcases Nat.eq_zero_or_pos k with h0 | hpos
    · subst h0
      obtain ⟨s, hs1, hs2⟩ := chain_start
      exact Reachable.outprocTest _ _ oneEdge 3
        (Reachable.outprocTest _ _ triangle 3 Reachable.init hs1) hs2
    · exact Reachable.runTest _ _ 'p' OK (ih hpos (by omega)) (chain_step k (by omega))

theorem chainOverflow_reachable : Reachable exampleEnv exampleLib chainOverflow :=
  Reachable.runTest _ _ 'p' NOTOK (chain_reachable (2 ^ 64 - 2) (by decide) (by decide))
    chain_overflow

theorem chainWrapped_reachable : Reachable exampleEnv exampleLib chainWrapped :=
  Reachable.runTest _ _ 'p' OK chainOverflow_reachable chain_wrapped

theorem ordered_of_counters {G : Type} (env : Env) (r r1 : testResult G)
    (h : r.counters = r1.counters) (hr : r.ordered env) : r1.ordered env := by
  unfold testResult.counters at h
  simp only [Prod.mk.injEq] at h
  obtain ⟨_, h2, h3⟩ := h
  unfold testResult.ordered testResult.bucketGraphs testResult.bucketOKs at hr ⊢
  rw [← h2, ← h3]
  exact hr

theorem bucketOKs_replicate (k : Nat) :
    ((List.replicate k (⟨0, 0⟩ : baseTestResult)).map (fun b => b.numOKs)).sum = 0 := by
  induction k with
  | zero => rfl
  | succ k ih => simp [List.replicate_succ, ih]

theorem Elem_orderInv {G : Type} (env : Env) (lib : GraphLib G) (s s1 : Harness G)
    (h : Elem env lib s s1) (hinv : OrderInv env s) : OrderInv env s1 := by
  cases h with
  | graphs fw fw1 hfw hc =>
    intro hno fw2 hfw2 r1 hr1
    simp only [Option.some.injEq] at hfw2
    subst hfw2
    have hmem : r1.counters ∈ fw.algResults.map testResult.counters := by
      rw [hc]; exact List.mem_map_of_mem _ hr1
    obtain ⟨r, hr, heq⟩ := List.mem_map.mp hmem
    exact ordered_of_counters env r r1 heq (hinv hno fw hfw r hr)
  | alloc fw n hnone halloc =>
    intro hno fw2 hfw2 r hr
    simp only [Option.some.injEq] at hfw2
    subst hfw2
    unfold tf_AllocateTestFramework at halloc
    split at halloc
    · cases halloc
    · rename_i rs hrs
      cases halloc
      obtain ⟨h1, h2⟩ := (tf_allocResults_fresh lib n env.g_maxe _ rs hrs).2 r hr
      unfold testResult.ordered testResult.bucketGraphs testResult.bucketOKs
      rw [h1, h2, bucketGraphs_replicate, bucketOKs_replicate]
      refine ⟨le_refl _, by positivity, le_refl _, ?_, rfl⟩
      intro b hb
      rw [List.eq_of_mem_replicate hb]
  | raise es hes =>
    intro hno fw hfw r hr
    simp only [hasOverflow_append, not_or] at hno
    exact hinv hno.1 fw hfw r hr
  | log es hes =>
    intro hno fw hfw r hr
    simp only [hasOverflow_append, not_or] at hno
    exact hinv hno.1 fw hfw r hr
  | run _ command rc hrun =>
    unfold runTest at hrun
    split at hrun
    · cases hrun
    · rename_i fw hfw
      split at hrun
      · cases hrun
      · rename_i i hi
        split at hrun
        · cases hrun
        · rename_i r hr
          split at hrun
          · cases hrun
          · rename_i o ho
            cases hrun
            intro hno fw2 hfw2 r1 hr1
            simp only [hasOverflow_append, not_or] at hno
            simp only [Option.some.injEq] at hfw2
            subst hfw2
            have hold := hinv hno.1 fw hfw
            rcases List.mem_or_eq_of_mem_set hr1 with hm | rfl
            · exact hold r1 hm
            · exact runTestOn_ordered env lib command r s.errorFound o ho
                (hold r (List.getElem?_mem hr)) hno.2

theorem Steps_orderInv {G : Type} (env : Env) (lib : GraphLib G) (s s1 : Harness G)
    (h : Steps env lib s s1) (hinv : OrderInv env s) : OrderInv env s1 := by
  induction h with
  | refl => exact hinv
  | tail _ hstep ih => exact Elem_orderInv env lib _ _ hstep ih

theorem Reachable_orderInv {G : Type} (env : Env) (lib : GraphLib G) (s : Harness G)
    (h : Reachable env lib s) : OrderInv env s := by
  induction h with
  | init => intro _ fw hfw; simp [Harness.init] at hfw
  | outprocTest s s1 g n _ hcall ih =>
    exact Steps_orderInv env lib s s1 (outprocTest_steps env lib s s1 g n hcall) ih
  | runTest s s1 command rc _ hcall ih =>
    exact Elem_orderInv env lib s s1 (Elem.run s s1 command rc hcall) ih

theorem not_hasOverflow_of_errorFound {G : Type} (env : Env) (lib : GraphLib G) (s : Harness G)
    (h : Reachable env lib s) (h0 : s.errorFound = 0) : ¬ hasOverflow s.out := by
  intro hov
  have := (Reachable_countInv env lib s h).2.1 (hasCountFailure_of_hasOverflow s.out hov)
  omega

theorem runTestOn_mod {G : Type} (env : Env) (lib : GraphLib G) (command : Char)
    (r : testResult G) (ef : Int) (o : RunOutcome G) (h : runTestOn env lib command r ef = some o)
    (h1 : r.result.numOKs < 2 ^ env.ulongBits)
    (h2 : r.result.numOKs = r.bucketOKs % 2 ^ env.ulongBits) :
    o.testResult.result.numOKs < 2 ^ env.ulongBits ∧
    o.testResult.result.numOKs = o.testResult.bucketOKs % 2 ^ env.ulongBits := by
  unfold runTestOn at h
  simp only at h
  split at h
  · cases h
    exact ⟨h1, h2⟩
  · split at h
    · cases h
      exact ⟨h1, h2⟩
    · split at h
      · cases h
      · rename_i r2 htally
        have hres : o.testResult = r2 := by
          split at h <;> (cases h; rfl)
        rw [hres]
        obtain ⟨b, hb, _, t2, t3⟩ := tally_spec env lib _ r2 _ htally
        simp only at hb t2 t3
        have hpos : 0 < 2 ^ env.ulongBits := by positivity
        unfold testResult.bucketOKs at h2 ⊢
        rw [t2]
        by_cases hok : (runAlgorithm lib command (ulongIncr env r.result.numGraphs)
            (lib.gp_CopyGraph r.theGraph r.origGraph).2 r.origGraph).1 = OK
        · simp only [hok, if_true] at t3 ⊢
          have hso : (r2.edgeResults.map (fun b => b.numOKs)).sum + b.numOKs
              = (r.edgeResults.map (fun b => b.numOKs)).sum + (b.numOKs + 1) % 2 ^ env.ulongBits := by
            have := sum_map_set (fun b => b.numOKs) r.edgeResults _ b
              ⟨ulongIncr env b.numGraphs, ulongIncr env b.numOKs⟩ hb
            rw [← t3] at this
            exact this
          have hmod : (r2.edgeResults.map (fun b => b.numOKs)).sum % 2 ^ env.ulongBits
              = ((r.edgeResults.map (fun b => b.numOKs)).sum + 1) % 2 ^ env.ulongBits := by
            have e1 : ((r2.edgeResults.map (fun b => b.numOKs)).sum + b.numOKs) % 2 ^ env.ulongBits
                = ((r.edgeResults.map (fun b => b.numOKs)).sum + 1 + b.numOKs) % 2 ^ env.ulongBits := by
              rw [hso, Nat.add_mod_mod]
              congr 1
              omega
            exact Nat.ModEq.add_right_cancel' b.numOKs e1
          refine ⟨Nat.mod_lt _ hpos, ?_⟩
          unfold ulongIncr
          rw [hmod, h2, Nat.mod_add_mod]
        · simp only [hok, if_false] at t3 ⊢
          have hso : (r2.edgeResults.map (fun b => b.numOKs)).sum + b.numOKs
              = (r.edgeResults.map (fun b => b.numOKs)).sum + b.numOKs := by
            have := sum_map_set (fun b => b.numOKs) r.edgeResults _ b
              ⟨ulongIncr env b.numGraphs, b.numOKs⟩ hb
            rw [← t3] at this
            exact this
          have heq : (r2.edgeResults.map (fun b => b.numOKs)).sum
              = (r.edgeResults.map (fun b => b.numOKs)).sum := by omega
          rw [heq]
          exact ⟨h1, h2⟩

theorem Elem_modInv {G : Type} (env : Env) (lib : GraphLib G) (s s1 : Harness G)
    (h : Elem env lib s s1) (hinv : ModInv env s) : ModInv env s1 := by
  cases h with
  | graphs fw fw1 hfw hc =>
    intro fw2 hfw2 r1 hr1
    simp only [Option.some.injEq] at hfw2
    subst hfw2
    have hmem : r1.counters ∈ fw.algResults.map testResult.counters := by
      rw [hc]; exact List.mem_map_of_mem _ hr1
    obtain ⟨r, hr, heq⟩ := List.mem_map.mp hmem
    unfold testResult.counters at heq
    simp only [Prod.mk.injEq] at heq
    have := hinv fw hfw r hr
    unfold testResult.bucketOKs at this ⊢
    rw [← heq.2.1, ← heq.2.2]
    exact this
  | alloc fw n hnone halloc =>
    intro fw2 hfw2 r hr
    simp only [Option.some.injEq] at hfw2
    subst hfw2
    unfold tf_AllocateTestFramework at halloc
    split at halloc
    · cases halloc
    · rename_i rs hrs
      cases halloc
      obtain ⟨h1, h2⟩ := (tf_allocResults_fresh lib n env.g_maxe _ rs hrs).2 r hr
      unfold testResult.bucketOKs
      rw [h1, h2, bucketOKs_replicate]
      exact ⟨by positivity, by simp⟩
  | raise es hes => exact hinv
  | log es hes => exact hinv
  | run _ command rc hrun =>
    unfold runTest at hrun
    split at hrun
    · cases hrun
    · rename_i fw hfw
      split at hrun
      · cases hrun
      · rename_i i hi
        split at hrun
        · cases hrun
        · rename_i r hr
          split at hrun
          · cases hrun
          · rename_i o ho
            cases hrun
            intro fw2 hfw2 r1 hr1
            simp only [Option.some.injEq] at hfw2
            subst hfw2
            have hold := hinv fw hfw
            rcases List.mem_or_eq_of_mem_set hr1 with hm | rfl
            · exact hold r1 hm
            · have hr0 := hold r (List.getElem?_mem hr)
              exact runTestOn_mod env lib command r s.errorFound o ho hr0.1 hr0.2

theorem Steps_modInv {G : Type} (env : Env) (lib : GraphLib G) (s s1 : Harness G)
    (h : Steps env lib s s1) (hinv : ModInv env s) : ModInv env s1 := by
  induction h with
  | refl => exact hinv
  | tail _ hstep ih => exact Elem_modInv env lib _ _ hstep ih

theorem Reachable_modInv {G : Type} (env : Env) (lib : GraphLib G) (s : Harness G)
    (h : Reachable env lib s) : ModInv env s := by
  induction h with
  | init => intro fw hfw; simp [Harness.init] at hfw
  | outprocTest s s1 g n _ hcall ih =>
    exact Steps_modInv env lib s s1 (outprocTest_steps env lib s s1 g n hcall) ih
  | runTest s s1 command rc _ hcall ih =>
    exact Elem_modInv env lib s s1 (Elem.run s s1 command rc hcall) ih

/-! ## C11: `numOKs <= numGraphs` -/

/-- C11 (amended).  In every state reachable from program start by calls of `outprocTest`
and `runTest` in which no counter overflow has been reported, in particular whenever
`errorFound` is 0, and whatever the algorithms return, every entry has
`numOKs <= numGraphs` in the grand total and in every edge-count bucket, and these
counters are values of `unsigned long` (below `2^w`). -/
theorem numOKs_le_numGraphs {G : Type} (env : Env) (lib : GraphLib G) (s : Harness G)
    (h : Reachable env lib s) (hno : s.errorFound = 0 ∨ ¬ hasOverflow s.out)
    (fw : testResultFramework G) (hfw : s.testFramework = some fw)
    (r : testResult G) (hr : r ∈ fw.algResults) :
    r.result.numOKs ≤ r.result.numGraphs ∧ r.result.numGraphs < 2 ^ env.ulongBits ∧
    ∀ b ∈ r.edgeResults, b.numOKs ≤ b.numGraphs ∧ b.numGraphs < 2 ^ env.ulongBits := by
  have hno2 : ¬ hasOverflow s.out := by
    rcases hno with h0 | h0
    · exact not_hasOverflow_of_errorFound env lib s h h0
    · exact h0
  obtain ⟨h1, h2, h3, h4, _⟩ := Reachable_orderInv env lib s h hno2 fw hfw r hr
  refine ⟨h1, h2, ?_⟩
  intro b hb
  refine ⟨h4 b hb, ?_⟩
  obtain ⟨i, hi⟩ := List.getElem?_of_mem hb
  have hle : b.numGraphs ≤ (r.edgeResults.map (fun b => b.numGraphs)).sum :=
    le_sum_map (fun b => b.numGraphs) r.edgeResults i b hi
  unfold testResult.bucketGraphs at h3
  omega

theorem numOKs_le_numGraphs_witness :
    ∃ (s : Harness WorkingGraph) (fw : testResultFramework WorkingGraph) (r : testResult WorkingGraph),
      Reachable exampleEnv exampleLib s ∧ s.errorFound = 0 ∧ s.testFramework = some fw ∧
      r ∈ fw.algResults ∧ r.result = ⟨2, 2⟩ ∧
      r.edgeResults = [⟨0, 0⟩, ⟨1, 1⟩, ⟨0, 0⟩, ⟨1, 1⟩] ∧
      (r.result.numOKs ≤ r.result.numGraphs ∧ r.result.numGraphs < 2 ^ exampleEnv.ulongBits ∧
        ∀ b ∈ r.edgeResults, b.numOKs ≤ b.numGraphs ∧ b.numGraphs < 2 ^ exampleEnv.ulongBits) :=
  ⟨chain 1, _, _, chain_reachable 1 (le_refl _) (by decide), rfl, rfl, List.mem_cons_self _ _,
    rfl, rfl,
    numOKs_le_numGraphs exampleEnv exampleLib (chain 1)
      (chain_reachable 1 (le_refl _) (by decide)) (Or.inl rfl) _ rfl _ (List.mem_cons_self _ _)⟩

/-- C11 as stated fails for a 64-bit `unsigned long`: after the candidates `triangle`
and `oneEdge` and further calls of `runTest` that all return `OK`, the call that
overflows the grand total leaves `numGraphs = 0` below `numOKs = 2^64 - 1`. -/
theorem numOKs_le_numGraphs_counterexample :
    ∃ (s : Harness WorkingGraph) (fw : testResultFramework WorkingGraph) (r : testResult WorkingGraph),
      Reachable exampleEnv exampleLib s ∧ s.testFramework = some fw ∧ r ∈ fw.algResults ∧
      r.result.numGraphs = 0 ∧ r.result.numOKs = 2 ^ 64 - 1 ∧
      ¬ (r.result.numOKs ≤ r.result.numGraphs) :=
  ⟨chainOverflow, _, _, chainOverflow_reachable, rfl, List.mem_cons_self _ _, rfl, rfl,
    by decide⟩

/-! ## C14: grand total and buckets of `numOKs` -/

/-- C14 (amended).  In every state reachable from program start by calls of `outprocTest`
and `runTest`, and whatever the algorithms return, the grand total `result.numOKs` of
every entry equals the sum over all edge-count buckets of `edgeResults[m].numOKs`
modulo `2^w`; as long as no counter overflow has been reported, in particular
whenever `errorFound` is 0, it equals that sum exactly. -/
theorem numOKs_eq_bucket_sum {G : Type} (env : Env) (lib : GraphLib G) (s : Harness G)
    (h : Reachable env lib s)
    (fw : testResultFramework G) (hfw : s.testFramework = some fw)
    (r : testResult G) (hr : r ∈ fw.algResults) :
    r.result.numOKs = (r.edgeResults.map (fun b => b.numOKs)).sum % 2 ^ env.ulongBits ∧
    (s.errorFound = 0 ∨ ¬ hasOverflow s.out →
      r.result.numOKs = (r.edgeResults.map (fun b => b.numOKs)).sum) := by
  refine ⟨(Reachable_modInv env lib s h fw hfw r hr).2, ?_⟩
  intro hno
  have hno2 : ¬ hasOverflow s.out := by
    rcases hno with h0 | h0
    · exact not_hasOverflow_of_errorFound env lib s h h0
    · exact h0
  exact (Reachable_orderInv env lib s h hno2 fw hfw r hr).2.2.2.2

theorem numOKs_eq_bucket_sum_witness :
    ∃ (s : Harness WorkingGraph) (fw : testResultFramework WorkingGraph) (r : testResult WorkingGraph),
      Reachable exampleEnv exampleLib s ∧ s.errorFound = 0 ∧ s.testFramework = some fw ∧
      r ∈ fw.algResults ∧ r.result.numOKs = 3 ∧
      r.edgeResults = [⟨0, 0⟩, ⟨2, 2⟩, ⟨0, 0⟩, ⟨1, 1⟩] ∧
      (r.result.numOKs = (r.edgeResults.map (fun b => b.numOKs)).sum % 2 ^ exampleEnv.ulongBits ∧
        (s.errorFound = 0 ∨ ¬ hasOverflow s.out →
          r.result.numOKs = (r.edgeResults.map (fun b => b.numOKs)).sum)) :=
  ⟨chain 2, _, _, chain_reachable 2 (by decide) (by decide), rfl, rfl, List.mem_cons_self _ _,
    rfl, rfl,
    numOKs_eq_bucket_sum exampleEnv exampleLib (chain 2)
      (chain_reachable 2 (by decide) (by decide)) _ rfl _ (List.mem_cons_self _ _)⟩

/-- C14 as stated fails for a 64-bit `unsigned long`: one more call of `runTest` after
the call that reported the overflow wraps the grand total `numOKs` to 0, while the
buckets hold `2^64 - 1` and 1. -/
theorem numOKs_bucket_sum_counterexample :
    ∃ (s : Harness WorkingGraph) (fw : testResultFramework WorkingGraph) (r : testResult WorkingGraph),
      Reachable exampleEnv exampleLib s ∧ s.testFramework = some fw ∧ r ∈ fw.algResults ∧
      r.result.numOKs = 0 ∧ (r.edgeResults.map (fun b => b.numOKs)).sum = 2 ^ 64 :=
  ⟨chainWrapped, _, _, chainWrapped_reachable, rfl, List.mem_cons_self _ _, rfl, rfl⟩

/-! ## Failures of `runTest` and the error files -/

theorem hasRunTestFailure_append {G : Type} (a b : List (Event G)) :
    hasRunTestFailure (a ++ b) ↔ hasRunTestFailure a ∨ hasRunTestFailure b := by
  unfold hasRunTestFailure
  constructor
  · rintro ⟨e, he, h⟩
    rcases List.mem_append.mp he with h1 | h1
    · exact Or.inl ⟨e, h1, h⟩
    · exact Or.inr ⟨e, h1, h⟩
  · rintro (⟨e, he, h⟩ | ⟨e, he, h⟩)
    · exact ⟨e, List.mem_append_left _ he, h⟩
    · exact ⟨e, List.mem_append_right _ he, h⟩

theorem writesFile_append {G : Type} (name : String) (a b : List (Event G)) :
    writesFile name (a ++ b) ↔ writesFile name a ∨ writesFile name b := by
  unfold writesFile
  constructor
  · rintro ⟨e, he, h⟩
    rcases List.mem_append.mp he with h1 | h1
    · exact Or.inl ⟨e, h1, h⟩
    · exact Or.inr ⟨e, h1, h⟩
  · rintro (⟨e, he, h⟩ | ⟨e, he, h⟩)
    · exact ⟨e, List.mem_append_left _ he, h⟩
    · exact ⟨e, List.mem_append_right _ he, h⟩

theorem not_writesFile_of_noFile {G : Type} (name : String) (out : List (Event G))
    (h : ∀ e ∈ out, e.isFile = false) : ¬ writesFile name out := by
  rintro ⟨e, he, hn⟩
  have := h e he
  cases e <;> first | cases hn | cases this

theorem runAlgorithm_out {G : Type} (lib : GraphLib G) (command : Char) (num : Nat) (x y : G) :
    ∀ e ∈ (runAlgorithm lib command num x y).2.2, e.isRunTestOutput = true ∧ e.isRunTestFailure = false := by
  intro e he
  unfold runAlgorithm at he
  simp only [apply_ite Prod.snd, apply_ite Prod.fst] at he
  split_ifs at he <;> simp at he <;> (subst he; exact ⟨rfl, rfl⟩)

theorem runTestOn_out {G : Type} (env : Env) (lib : GraphLib G) (command : Char)
    (r : testResult G) (o : RunOutcome G) (h : runTestOn env lib command r 0 = some o) :
    (∀ e ∈ o.msgs, e.isRunTestOutput = true) ∧ (hasRunTestFailure o.msgs ↔ o.errorFound ≠ 0) := by
  unfold runTestOn at h
  simp only at h
  split at h
  · cases h
    refine ⟨?_, ?_⟩
    · intro e he; simp at he; subst he; rfl
    · simp only [ne_eq, one_ne_zero, not_false_eq_true, iff_true]
      exact ⟨_, List.mem_cons_self _ _, rfl⟩
  · split at h
    · cases h
      refine ⟨?_, ?_⟩
      · intro e he; simp at he; subst he; rfl
      · simp only [zero_add, ne_eq, one_ne_zero, not_false_eq_true, iff_true]
        exact ⟨_, List.mem_cons_self _ _, rfl⟩
    · split at h
      · cases h
      · have hout := runAlgorithm_out lib command (ulongIncr env r.result.numGraphs)
          (lib.gp_CopyGraph r.theGraph r.origGraph).2 r.origGraph
        split at h
        · cases h
          refine ⟨fun e he => (hout e he).1, ?_⟩
          simp only [ne_eq, not_true_eq_false, iff_false]
          rintro ⟨e, he, hf⟩
          rw [(hout e he).2] at hf
          cases hf
        · cases h
          refine ⟨?_, ?_⟩
          · intro e he
            rcases List.mem_append.mp he with h1 | h1
            · exact (hout e h1).1
            · simp at h1; subst h1; rfl
          · simp only [zero_add, ne_eq, one_ne_zero, not_false_eq_true, iff_true]
            exact ⟨_, List.mem_append_right _ (List.mem_cons_self _ _), rfl⟩

theorem runTest_outcome {G : Type} (env : Env) (lib : GraphLib G) (s s1 : Harness G) (c : Char)
    (rc : Int) (h0 : s.errorFound = 0) (h : runTest env lib s c = some (rc, s1)) :
    (rc = OK ∨ rc = NOTOK) ∧ (rc = NOTOK ↔ s1.errorFound ≠ 0) ∧
    ∃ msgs, s1.out = s.out ++ msgs ∧ (∀ e ∈ msgs, e.isRunTestOutput = true) ∧
      (hasRunTestFailure msgs ↔ s1.errorFound ≠ 0) := by
  obtain ⟨r, o, _, h2, _, h4, h5, h6, _⟩ := runTest_spec env lib s s1 c rc h
  rw [h0] at h2
  have hiff := runTestOn_fails_iff env lib c r o h2
  obtain ⟨hfile, hfail⟩ := runTestOn_out env lib c r o h2
  have hne : (NOTOK : Int) ≠ OK := by decide
  refine ⟨?_, ?_, o.msgs, h5, hfile, ?_⟩
  · rw [h6]; split_ifs
    · exact Or.inl rfl
    · exact Or.inr rfl
  · rw [h6, h4]
    split_ifs with hres
    · constructor
      · intro hc; exact absurd hc.symm hne
      · intro hc; exact absurd (hiff.mp hres) hc
    · constructor
      · intro _ hc; exact hres (hiff.mpr hc)
      · intro _; rfl
  · rw [h4]; exact hfail

theorem reportFailure_out {G : Type} (s s1 : Harness G) (g : Nat → Nat) (n : Nat)
    (h : reportFailure s g n = some s1) :
    ∃ fw r0, s.testFramework = some fw ∧ fw.algResults[0]? = some r0 ∧
      s1.out = s.out ++ [Event.seeErrorFiles, Event.graphFile "error.txt" r0.origGraph,
        WriteMatrixGraph "errorMatrix.txt" g n] := by
  unfold reportFailure at h
  split at h
  · cases h
  · rename_i fw hfw
    split at h
    · cases h
    · rename_i r0 hr0
      cases h
      exact ⟨fw, r0, hfw, hr0, rfl⟩

theorem printProgress_out {G : Type} (env : Env) (s s1 : Harness G)
    (h : printProgress env s = some s1) :
    ∃ prog, s1.out = s.out ++ prog ∧
      ∀ e ∈ prog, e.isFile = false ∧ e.isRunTestFailure = false ∧ e ≠ Event.failedToInitialize ∧
        e ≠ Event.seeErrorFiles := by
  unfold printProgress at h
  split at h
  · split at h
    · cases h
    · split at h
      · cases h
      · split at h
        · cases h
          refine ⟨[Event.progress _], rfl, ?_⟩
          intro e he
          simp at he
          subst he
          exact ⟨rfl, rfl, by simp, by simp⟩
        · cases h
          exact ⟨[], by simp, by simp⟩
  · cases h
    exact ⟨[], by simp, by simp⟩

theorem runAllTests_outcome {G : Type} (env : Env) (lib : GraphLib G) (g : Nat → Nat) (n : Nat) :
    ∀ (cs : List Char) (s s2 : Harness G), s.errorFound = 0 →
      runAllTests env lib g n cs s = some s2 →
      (s2.errorFound = 0 ∧ ∃ msgs, s2.out = s.out ++ msgs ∧ (∀ e ∈ msgs, e.isRunTestOutput = true) ∧
        ¬ hasRunTestFailure msgs) ∨
      (∃ (pre : List Char) (c : Char) (post : List Char) (sa sb : Harness G) (r0 : testResult G)
          (msgs : List (Event G)), cs = pre ++ c :: post ∧
        runAllTests env lib g n pre s = some sa ∧ sa.errorFound = 0 ∧
        runTest env lib sa c = some (NOTOK, sb) ∧ sb.errorFound ≠ 0 ∧
        s2.errorFound = sb.errorFound ∧
        sb.out = s.out ++ msgs ∧ (∀ e ∈ msgs, e.isRunTestOutput = true) ∧ hasRunTestFailure msgs ∧
        s2.out = sb.out ++ [Event.seeErrorFiles, Event.graphFile "error.txt" r0.origGraph,
          WriteMatrixGraph "errorMatrix.txt" g n]) := by
  intro cs
  induction cs with
  | nil =>
    intro s s2 h0 h
    simp only [runAllTests, Option.some.injEq] at h
    subst h
    exact Or.inl ⟨h0, [], by simp, by simp, by rintro ⟨e, he, _⟩; simp at he⟩
  | cons c cs ih =>
    intro s s2 h0 h
    unfold runAllTests at h
    split at h
    · cases h
    · rename_i rc s1 hrun
      obtain ⟨hrc, hiff, m1, hout1, hfile1, hfail1⟩ := runTest_outcome env lib s s1 c rc h0 hrun
      have hne : (NOTOK : Int) ≠ OK := by decide
      split at h
      · rename_i hnok
        have hrc2 : rc = NOTOK := by
          rcases hrc with h1 | h1
          · exact absurd h1 hnok
          · exact h1
        subst hrc2
        have hef1 : s1.errorFound ≠ 0 := hiff.mp rfl
        obtain ⟨fw, r0, _, _, hout2⟩ := reportFailure_out s1 s2 g n h
        have hfr := reportFailure_frame s1 s2 g n h
        exact Or.inr ⟨[], c, cs, s, s1, r0, m1, rfl, rfl, h0, hrun, hef1, hfr.2, hout1, hfile1,
          hfail1.mpr hef1, hout2⟩
      · rename_i hok
        have hok2 : rc = OK := by
          by_contra hc
          exact hok hc
        subst hok2
        have hef1 : s1.errorFound = 0 := by
          by_contra hc
          exact hne (hiff.mpr hc).symm
        have hnf1 : ¬ hasRunTestFailure m1 := fun hf => (hfail1.mp hf) hef1
        rcases ih s1 s2 hef1 h with ⟨he2, m2, hout2, hfile2, hnf2⟩ |
          ⟨pre, c1, post, sa, sb, r0, m2, hcs, hpre, hsa, hrun2, hsb, he2, hout2, hfile2, hf2, hout3⟩
        · refine Or.inl ⟨he2, m1 ++ m2, ?_, ?_, ?_⟩
          · rw [hout2, hout1, List.append_assoc]
          · intro e he
            rcases List.mem_append.mp he with h1 | h1
            · exact hfile1 e h1
            · exact hfile2 e h1
          · rw [hasRunTestFailure_append]
            rintro (h1 | h1)
            · exact hnf1 h1
            · exact hnf2 h1
        · refine Or.inr ⟨c :: pre, c1, post, sa, sb, r0, m1 ++ m2, ?_, ?_, hsa, hrun2, hsb, he2, ?_,
            ?_, ?_, hout3⟩
          · rw [hcs]; rfl
          · unfold runAllTests
            rw [hrun]
            simp only [ne_eq, not_true_eq_false, if_false]
            exact hpre
          · rw [hout2, hout1, List.append_assoc]
          · intro e he
            rcases List.mem_append.mp he with h1 | h1
            · exact hfile1 e h1
            · exact hfile2 e h1
          · rw [hasRunTestFailure_append]
            exact Or.inr hf2

theorem runTests_eq {G : Type} (env : Env) (lib : GraphLib G) (s : Harness G) (g : Nat → Nat)
    (n : Nat) :
    runTests env lib s g n =
      (runAllTests env lib g n (selectorsRun env) s).bind (printProgress env) := by
  unfold runTests selectorsRun
  split
  · cases runAllTests env lib g n commands s <;> rfl
  · unfold runAllTests
    cases hrun : runTest env lib s env.g_command with
    | none => rfl
    | some p =>
      obtain ⟨rc, s1⟩ := p
      simp only
      split
      · cases reportFailure s1 g n <;> rfl
      · rfl

theorem afterTransfer_cases {G : Type} (env : Env) (lib : GraphLib G) (s s2 : Harness G)
    (g : Nat → Nat) (n : Nat) (h0 : s.errorFound = 0) (h : afterTransfer env lib s g n = some s2) :
    (s2.errorFound ≠ 0 ∧ s2.out = s.out ++ [Event.failedToCopyAdjacencyLists]) ∨
    (∃ s0, s0.errorFound = 0 ∧ s0.out = s.out ∧ runTests env lib s0 g n = some s2) := by
  unfold afterTransfer at h
  split at h
  · split at h
    · cases h
    · split at h
      · cases h
      · split at h
        · exact Or.inr ⟨{ s with testFramework := some ⟨_⟩ }, h0, rfl, h⟩
        · cases h
          refine Or.inl ⟨?_, rfl⟩
          simp only [h0]
          decide
  · exact Or.inr ⟨s, h0, rfl, h⟩

theorem processCandidate_cases {G : Type} (env : Env) (lib : GraphLib G) (s s2 : Harness G)
    (fw : testResultFramework G) (g : Nat → Nat) (n : Nat) (h0 : s.errorFound = 0)
    (h : processCandidate env lib s fw g n = some s2) :
    (s2.errorFound ≠ 0 ∧
      s2.out = s.out ++ [Event.failedToInitialize, WriteMatrixGraph "errorMatrix.txt" g n]) ∨
    (s2.errorFound ≠ 0 ∧ s2.out = s.out ++ [Event.failedToCopyAdjacencyLists]) ∨
    (∃ s0, s0.errorFound = 0 ∧ s0.out = s.out ∧ runTests env lib s0 g n = some s2) := by
  unfold processCandidate at h
  split at h
  · cases h
  · simp only at h
    split at h
    · cases h
      refine Or.inl ⟨?_, rfl⟩
      simp only [h0]
      decide
    · exact Or.inr (afterTransfer_cases env lib { s with testFramework := some ⟨_⟩ } s2 g n h0 h)

theorem outprocTest_cases {G : Type} (env : Env) (lib : GraphLib G) (s s2 : Harness G)
    (g : Nat → Nat) (n : Nat) (h0 : s.errorFound = 0) (h : outprocTest env lib s g n = some s2) :
    (s2.errorFound ≠ 0 ∧ s2.out = s.out ++ [Event.unableToCreate]) ∨
    (s2.errorFound ≠ 0 ∧
      s2.out = s.out ++ [Event.failedToInitialize, WriteMatrixGraph "errorMatrix.txt" g n]) ∨
    (s2.errorFound ≠ 0 ∧ s2.out = s.out ++ [Event.failedToCopyAdjacencyLists]) ∨
    (∃ s0, s0.errorFound = 0 ∧ s0.out = s.out ∧ runTests env lib s0 g n = some s2) := by
  unfold outprocTest at h
  rw [if_neg (by simp [h0])] at h
  simp only at h
  have hacq : (acquireFramework env lib s n).errorFound = 0 ∧ (acquireFramework env lib s n).out = s.out ∨
      acquireFramework env lib s n =
        { s with errorFound := s.errorFound + 1, out := s.out ++ [Event.unableToCreate] } := by
    unfold acquireFramework
    split
    · exact Or.inl ⟨h0, rfl⟩
    · split
      · exact Or.inl ⟨h0, rfl⟩
      · exact Or.inr rfl
  rcases hacq with ⟨ha, hb⟩ | ha
  · rw [if_neg (by simp [ha])] at h
    split at h
    · cases h
    · rename_i fw hfw
      rw [← hb]
      exact Or.inr (processCandidate_cases env lib _ s2 fw g n ha h)
  · rw [ha] at h
    rw [if_pos (by simp only [h0]; decide)] at h
    cases h
    refine Or.inl ⟨?_, rfl⟩
    simp only [h0]
    decide

theorem runTestOutput_quiet {G : Type} (e : Event G) (h : e.isRunTestOutput = true) :
    e.isFile = false ∧ e ≠ Event.failedToInitialize ∧ e ≠ Event.seeErrorFiles := by
  cases e <;> first | (cases h; done) | exact ⟨rfl, by simp, by simp⟩

theorem quiet_output {G : Type} (name : String) (l : List (Event G))
    (h : ∀ e ∈ l, e.isFile = false ∧ e ≠ Event.failedToInitialize ∧ e ≠ Event.seeErrorFiles) :
    ¬ writesFile name l ∧ Event.failedToInitialize ∉ l ∧ Event.seeErrorFiles ∉ l :=
  ⟨not_writesFile_of_noFile name l (fun e he => (h e he).1),
    fun hm => (h _ hm).2.1 rfl, fun hm => (h _ hm).2.2 rfl⟩

theorem errorFiles_facts {G : Type} (x : G) (g : Nat → Nat) (n : Nat) :
    writesFile "error.txt" [Event.seeErrorFiles, Event.graphFile "error.txt" x,
      WriteMatrixGraph "errorMatrix.txt" g n] ∧
    writesFile "errorMatrix.txt" [Event.seeErrorFiles, Event.graphFile "error.txt" x,
      WriteMatrixGraph "errorMatrix.txt" g n] ∧
    ¬ hasRunTestFailure [Event.seeErrorFiles, Event.graphFile "error.txt" x,
      WriteMatrixGraph "errorMatrix.txt" g n] := by
  refine ⟨⟨Event.graphFile "error.txt" x, by simp, by simp [Event.isFileNamed]⟩,
    ⟨WriteMatrixGraph "errorMatrix.txt" g n, by simp, by simp [WriteMatrixGraph, Event.isFileNamed]⟩, ?_⟩
  rintro ⟨e, he, hf⟩
  simp only [List.mem_cons, List.mem_singleton, List.not_mem_nil, or_false] at he
  rcases he with rfl | rfl | rfl <;> cases hf

theorem single_message_facts {G : Type} (e0 : Event G) (h1 : e0.isFile = false)
    (h2 : e0.isRunTestFailure = false) (name : String) :
    ¬ writesFile name [e0] ∧ ¬ hasRunTestFailure [e0] := by
  refine ⟨not_writesFile_of_noFile name _ (by intro e he; simp at he; subst he; exact h1), ?_⟩
  rintro ⟨e, he, hf⟩
  simp at he
  subst he
  rw [h2] at hf
  cases hf

theorem outprocTest_output {G : Type} (env : Env) (lib : GraphLib G) (s s2 : Harness G)
    (g : Nat → Nat) (n : Nat) (h0 : s.errorFound = 0) (h : outprocTest env lib s g n = some s2) :
    ∃ new, s2.out = s.out ++ new ∧
      (writesFile "error.txt" new ↔ hasRunTestFailure new) ∧
      (Event.seeErrorFiles ∈ new ↔ hasRunTestFailure new) ∧
      (hasRunTestFailure new →
        WriteMatrixGraph "errorMatrix.txt" g n ∈ new ∧ s2.errorFound ≠ 0) ∧
      (writesFile "errorMatrix.txt" new ↔
        hasRunTestFailure new ∨ Event.failedToInitialize ∈ new) := by
  rcases outprocTest_cases env lib s s2 g n h0 h with ⟨_, ho⟩ | ⟨_, ho⟩ | ⟨_, ho⟩ | ⟨s0, hs0, ho0, hrun⟩
  · obtain ⟨f1, f2⟩ := single_message_facts (Event.unableToCreate : Event G) rfl rfl "error.txt"
    obtain ⟨f3, _⟩ := single_message_facts (Event.unableToCreate : Event G) rfl rfl "errorMatrix.txt"
    refine ⟨_, ho, ?_, ?_, ?_, ?_⟩
    · exact ⟨fun hc => absurd hc f1, fun hc => absurd hc f2⟩
    · exact ⟨fun hc => by simp at hc, fun hc => absurd hc f2⟩
    · exact fun hc => absurd hc f2
    · constructor
      · exact fun hc => absurd hc f3
      · rintro (hc | hc)
        · exact absurd hc f2
        · simp at hc
  · have f2 : ¬ hasRunTestFailure [(Event.failedToInitialize : Event G),
        WriteMatrixGraph "errorMatrix.txt" g n] := by
      rintro ⟨e, he, hf⟩
      simp only [List.mem_cons, List.mem_singleton, List.not_mem_nil, or_false] at he
      rcases he with rfl | rfl <;> cases hf
    have f1 : ¬ writesFile "error.txt" [(Event.failedToInitialize : Event G),
        WriteMatrixGraph "errorMatrix.txt" g n] := by
      rintro ⟨e, he, hf⟩
      simp only [List.mem_cons, List.mem_singleton, List.not_mem_nil, or_false] at he
      rcases he with rfl | rfl
      · cases hf
      · simp [WriteMatrixGraph, Event.isFileNamed] at hf
    refine ⟨_, ho, ?_, ?_, ?_, ?_⟩
    · exact ⟨fun hc => absurd hc f1, fun hc => absurd hc f2⟩
    · exact ⟨fun hc => by simp [WriteMatrixGraph] at hc, fun hc => absurd hc f2⟩
    · exact fun hc => absurd hc f2
    · constructor
      · exact fun _ => Or.inr (List.mem_cons_self _ _)
      · exact fun _ => ⟨WriteMatrixGraph "errorMatrix.txt" g n, by simp,
          by simp [WriteMatrixGraph, Event.isFileNamed]⟩
  · obtain ⟨f1, f2⟩ := single_message_facts (Event.failedToCopyAdjacencyLists : Event G) rfl rfl
      "error.txt"
    obtain ⟨f3, _⟩ := single_message_facts (Event.failedToCopyAdjacencyLists : Event G) rfl rfl
      "errorMatrix.txt"
    refine ⟨_, ho, ?_, ?_, ?_, ?_⟩
    · exact ⟨fun hc => absurd hc f1, fun hc => absurd hc f2⟩
    · exact ⟨fun hc => by simp at hc, fun hc => absurd hc f2⟩
    · exact fun hc => absurd hc f2
    · constructor
      · exact fun hc => absurd hc f3
      · rintro (hc | hc)
        · exact absurd hc f2
        · simp at hc
  · rw [runTests_eq] at hrun
    obtain ⟨sm, hsm, hprog⟩ := Option.bind_eq_some.mp hrun
    obtain ⟨prog, hpo, hpq⟩ := printProgress_out env sm s2 hprog
    have hpf := printProgress_frame env sm s2 hprog
    have hq1 := quiet_output "error.txt" prog (fun e he => ⟨(hpq e he).1, (hpq e he).2.2⟩)
    have hq2 := quiet_output "errorMatrix.txt" prog (fun e he => ⟨(hpq e he).1, (hpq e he).2.2⟩)
    have hq3 : ¬ hasRunTestFailure prog := by
      rintro ⟨e, he, hf⟩
      rw [(hpq e he).2.1] at hf
      cases hf
    rcases runAllTests_outcome env lib g n _ s0 sm hs0 hsm with ⟨hem, msgs, hom, hmq, hmf⟩ |
      ⟨pre, c, post, sa, sb, r0, msgs, _, _, _, _, hsb, hem, hob, hmq, hmf, hom⟩
    · have hm1 := quiet_output "error.txt" msgs (fun e he => runTestOutput_quiet e (hmq e he))
      have hm2 := quiet_output "errorMatrix.txt" msgs (fun e he => runTestOutput_quiet e (hmq e he))
      refine ⟨msgs ++ prog, by rw [hpo, hom, ho0, List.append_assoc], ?_, ?_, ?_, ?_⟩
      · simp only [writesFile_append, hasRunTestFailure_append]
        tauto
      · simp only [List.mem_append, hasRunTestFailure_append]
        tauto
      · simp only [hasRunTestFailure_append]
        tauto
      · simp only [writesFile_append, hasRunTestFailure_append, List.mem_append]
        tauto
    · obtain ⟨e1, e2, e3⟩ := errorFiles_facts r0.origGraph g n
      have hm1 := quiet_output "error.txt" msgs (fun e he => runTestOutput_quiet e (hmq e he))
      have hm2 := quiet_output "errorMatrix.txt" msgs (fun e he => runTestOutput_quiet e (hmq e he))
      have hmem : WriteMatrixGraph "errorMatrix.txt" g n ∈
          [Event.seeErrorFiles, Event.graphFile "error.txt" r0.origGraph,
            WriteMatrixGraph "errorMatrix.txt" g n] := by simp
      have hsee : (Event.seeErrorFiles : Event G) ∈
          [Event.seeErrorFiles, Event.graphFile "error.txt" r0.origGraph,
            WriteMatrixGraph "errorMatrix.txt" g n] := List.mem_cons_self _ _
      have hef2 : s2.errorFound ≠ 0 := by rw [hpf.2, hem]; exact hsb
      refine ⟨msgs ++ [Event.seeErrorFiles, Event.graphFile "error.txt" r0.origGraph,
          WriteMatrixGraph "errorMatrix.txt" g n] ++ prog,
        by rw [hpo, hom, hob, ho0, List.append_assoc, List.append_assoc, List.append_assoc], ?_, ?_, ?_, ?_⟩
      · simp only [writesFile_append, hasRunTestFailure_append]
        tauto
      · simp only [List.mem_append, hasRunTestFailure_append]
        tauto
      · simp only [hasRunTestFailure_append, List.mem_append]
        tauto
      · simp only [writesFile_append, hasRunTestFailure_append, List.mem_append]
        tauto

/-! ## C19: `runTest` fails exactly when it raises `errorFound` -/

/-- C19.  A call of `runTest` entered with `errorFound = 0` returns `OK` or `NOTOK`, and
`NOTOK` exactly when `errorFound` is not 0 on return, whatever the selector and
whatever the library returns; it writes no file, and it prints one of its failure
messages exactly in that case.  Hence for a candidate that `outprocTest` takes up with
`errorFound = 0`: `error.txt` is written, and "See error.txt and errorMatrix.txt"
printed, exactly when a `runTest` on the candidate raised `errorFound`, and then
`errorMatrix.txt` is written as well and `errorFound` is not 0 on return;
`errorMatrix.txt` alone is written only when `TransferGraph` failed, before any test.
The loop over the selectors either raises nothing and writes nothing, or stops at the
first `runTest` that returns `NOTOK` and then writes the two files; `outprocTest`
either ends before the tests or runs this loop over `selectorsRun` and prints the
progress. -/
theorem runTest_fails_iff_errorFound {G : Type} (env : Env) (lib : GraphLib G) :
    (∀ (s s1 : Harness G) (c : Char) (rc : Int), s.errorFound = 0 →
      runTest env lib s c = some (rc, s1) →
      (rc = OK ∨ rc = NOTOK) ∧ (rc = NOTOK ↔ s1.errorFound ≠ 0) ∧
      ∃ msgs, s1.out = s.out ++ msgs ∧ (∀ e ∈ msgs, e.isFile = false) ∧
        (hasRunTestFailure msgs ↔ s1.errorFound ≠ 0)) ∧
    (∀ (s s2 : Harness G) (g : Nat → Nat) (n : Nat), s.errorFound = 0 →
      outprocTest env lib s g n = some s2 →
      ∃ new, s2.out = s.out ++ new ∧
        (writesFile "error.txt" new ↔ hasRunTestFailure new) ∧
        (Event.seeErrorFiles ∈ new ↔ hasRunTestFailure new) ∧
        (hasRunTestFailure new →
          WriteMatrixGraph "errorMatrix.txt" g n ∈ new ∧ s2.errorFound ≠ 0) ∧
        (writesFile "errorMatrix.txt" new ↔
          hasRunTestFailure new ∨ Event.failedToInitialize ∈ new)) ∧
    (∀ (g : Nat → Nat) (n : Nat) (cs : List Char) (s s2 : Harness G), s.errorFound = 0 →
      runAllTests env lib g n cs s = some s2 →
      (s2.errorFound = 0 ∧ ∃ msgs, s2.out = s.out ++ msgs ∧ (∀ e ∈ msgs, e.isFile = false) ∧
        ¬ hasRunTestFailure msgs) ∨
      (∃ (pre : List Char) (c : Char) (post : List Char) (sa sb : Harness G) (r0 : testResult G)
          (msgs : List (Event G)), cs = pre ++ c :: post ∧
        runAllTests env lib g n pre s = some sa ∧ sa.errorFound = 0 ∧
        runTest env lib sa c = some (NOTOK, sb) ∧ sb.errorFound ≠ 0 ∧
        s2.errorFound = sb.errorFound ∧
        sb.out = s.out ++ msgs ∧ (∀ e ∈ msgs, e.isFile = false) ∧ hasRunTestFailure msgs ∧
        s2.out = sb.out ++ [Event.seeErrorFiles, Event.graphFile "error.txt" r0.origGraph,
          WriteMatrixGraph "errorMatrix.txt" g n])) ∧
    (∀ (s s2 : Harness G) (g : Nat → Nat) (n : Nat), s.errorFound = 0 →
      outprocTest env lib s g n = some s2 →
      (s2.errorFound ≠ 0 ∧ s2.out = s.out ++ [Event.unableToCreate]) ∨
      (s2.errorFound ≠ 0 ∧
        s2.out = s.out ++ [Event.failedToInitialize, WriteMatrixGraph "errorMatrix.txt" g n]) ∨
      (s2.errorFound ≠ 0 ∧ s2.out = s.out ++ [Event.failedToCopyAdjacencyLists]) ∨
      (∃ s0 sm, s0.errorFound = 0 ∧ s0.out = s.out ∧
        runAllTests env lib g n (selectorsRun env) s0 = some sm ∧
        printProgress env sm = some s2)) := by
  refine ⟨?_, ?_, ?_, ?_⟩
  · intro s s1 c rc h0 h
    obtain ⟨h1, h2, msgs, h3, h4, h5⟩ := runTest_outcome env lib s s1 c rc h0 h
    exact ⟨h1, h2, msgs, h3, fun e he => (runTestOutput_quiet e (h4 e he)).1, h5⟩
  · intro s s2 g n h0 h
    exact outprocTest_output env lib s s2 g n h0 h
  · intro g n cs s s2 h0 h
    rcases runAllTests_outcome env lib g n cs s s2 h0 h with ⟨h1, msgs, h2, h3, h4⟩ |
      ⟨pre, c, post, sa, sb, r0, msgs, k1, k2, k3, k4, k5, k6, k7, k8, k9, k10⟩
    · exact Or.inl ⟨h1, msgs, h2, fun e he => (runTestOutput_quiet e (h3 e he)).1, h4⟩
    · exact Or.inr ⟨pre, c, post, sa, sb, r0, msgs, k1, k2, k3, k4, k5, k6, k7,
        fun e he => (runTestOutput_quiet e (k8 e he)).1, k9, k10⟩
  · intro s s2 g n h0 h
    rcases outprocTest_cases env lib s s2 g n h0 h with h1 | h1 | h1 | ⟨s0, k1, k2, k3⟩
    · exact Or.inl h1
    · exact Or.inr (Or.inl h1)
    · exact Or.inr (Or.inr (Or.inl h1))
    · rw [runTests_eq] at k3
      obtain ⟨sm, hsm, hprog⟩ := Option.bind_eq_some.mp k3
      exact Or.inr (Or.inr (Or.inr ⟨s0, sm, k1, k2, hsm, hprog⟩))

theorem runTest_fails_iff_errorFound_witness :
    ∃ (s1 s2 : Harness WorkingGraph) (new : List (Event WorkingGraph)),
      runTest exampleEnv planarityFailLib (stateWith 'p' exampleGraph) 'p' = some (NOTOK, s1) ∧
      s1.errorFound = 1 ∧
      outprocTest exampleEnv planarityFailLib (Harness.init WorkingGraph) triangle 3 = some s2 ∧
      s2.errorFound = 1 ∧
      s2.out.map Event.name = ["Failed to runTest() on graph", "See error.txt and errorMatrix.txt",
        "file error.txt", "file errorMatrix.txt"] ∧
      s2.out = (Harness.init WorkingGraph).out ++ new ∧
      ((NOTOK : Int) = NOTOK ↔ s1.errorFound ≠ 0) ∧
      (writesFile "error.txt" new ↔ hasRunTestFailure new) ∧
      (Event.seeErrorFiles ∈ new ↔ hasRunTestFailure new) ∧
      (hasRunTestFailure new →
        WriteMatrixGraph "errorMatrix.txt" triangle 3 ∈ new ∧ s2.errorFound ≠ 0) ∧
      (writesFile "errorMatrix.txt" new ↔
        hasRunTestFailure new ∨ Event.failedToInitialize ∈ new) := by
  have hr : ∃ s1, runTest exampleEnv planarityFailLib (stateWith 'p' exampleGraph) 'p' =
      some (NOTOK, s1) ∧ s1.errorFound = 1 := ⟨_, rfl, rfl⟩
  have ho : ∃ s2, outprocTest exampleEnv planarityFailLib (Harness.init WorkingGraph) triangle 3 =
      some s2 ∧ s2.errorFound = 1 ∧
      s2.out.map Event.name = ["Failed to runTest() on graph", "See error.txt and errorMatrix.txt",
        "file error.txt", "file errorMatrix.txt"] := ⟨_, rfl, rfl, rfl⟩
  obtain ⟨s1, hs1, he1⟩ := hr
  obtain ⟨s2, hs2, he2, hn2⟩ := ho
  have hthm := runTest_fails_iff_errorFound exampleEnv planarityFailLib
  obtain ⟨_, hiff, _⟩ := hthm.1 (stateWith 'p' exampleGraph) s1 'p' NOTOK rfl hs1
  obtain ⟨new, hnew, hB⟩ := hthm.2.1 (Harness.init WorkingGraph) s2 triangle 3 rfl hs2
  exact ⟨s1, s2, new, hs1, he1, hs2, he2, hn2, hnew, hiff, hB⟩

/-! ## Lockstep of the selectors in all mode -/

theorem runTestOn_numGraphs {G : Type} (env : Env) (lib : GraphLib G) (command : Char)
    (r : testResult G) (o : RunOutcome G) (h : runTestOn env lib command r 0 = some o) :
    o.testResult.result.numGraphs = ulongIncr env r.result.numGraphs ∧
    (o.errorFound = 0 → ulongIncr env r.result.numGraphs ≠ 0) := by
  unfold runTestOn at h
  simp only at h
  split at h
  · cases h
    exact ⟨rfl, fun hc => absurd hc (show ¬ ((1 : Int) = 0) by decide)⟩
  · rename_i hnz
    refine ⟨?_, fun _ => hnz⟩
    split at h
    · cases h
      rfl
    · split at h
      · cases h
      · rename_i r2 htally
        obtain ⟨_, _, t1, _, _⟩ := tally_spec env lib _ r2 _ htally
        have hres : o.testResult = r2 := by
          split at h <;> (cases h; rfl)
        rw [hres, t1]

theorem tf_GetTestResult_split {G : Type} :
    ∀ (pre : List Char) (rs : List (testResult G)) (c : Char) (post : List Char),
      rs.map (fun r => r.command) = pre ++ c :: post → c ∉ pre →
      tf_GetTestResult rs c = some pre.length := by
  intro pre
  induction pre with
  | nil =>
    intro rs c post h _
    cases rs with
    | nil => simp at h
    | cons a rs =>
      simp only [List.map_cons, List.nil_append, List.cons.injEq] at h
      simp [tf_GetTestResult, h.1]
  | cons p pre ih =>
    intro rs c post h hc
    cases rs with
    | nil => simp at h
    | cons a rs =>
      simp only [List.map_cons, List.cons_append, List.cons.injEq] at h
      have hne : a.command ≠ c := by
        rw [h.1]
        intro heq
        exact hc (by rw [heq]; exact List.mem_cons_self _ _)
      have hc2 : c ∉ pre := fun hm => hc (List.mem_cons_of_mem _ hm)
      simp [tf_GetTestResult, hne, ih rs c post h.2 hc2]

theorem map_command_set {G : Type} :
    ∀ (rs : List (testResult G)) (j : Nat) (r x : testResult G), rs[j]? = some r →
      x.command = r.command →
      (rs.set j x).map (fun r => r.command) = rs.map (fun r => r.command) := by
  intro rs
  induction rs with
  | nil => intro j r x h _; simp at h
  | cons a rs ih =>
    intro j r x h hx
    cases j with
    | zero =>
      simp only [List.getElem?_cons_zero, Option.some.injEq] at h
      subst h
      simp [hx]
    | succ j =>
      simp only [List.getElem?_cons_succ] at h
      simp [ih j r x h hx]

theorem runTest_lock_step {G : Type} (env : Env) (lib : GraphLib G) (s s1 : Harness G)
    (fw : testResultFramework G) (pre post : List Char) (c : Char) (rc : Int)
    (h0 : s.errorFound = 0) (hfw : s.testFramework = some fw)
    (hmap : fw.algResults.map (fun r => r.command) = pre ++ c :: post) (hc : c ∉ pre)
    (h : runTest env lib s c = some (rc, s1)) :
    ∃ r x, fw.algResults[pre.length]? = some r ∧
      s1.testFramework = some ⟨fw.algResults.set pre.length x⟩ ∧
      x.command = r.command ∧
      x.result.numGraphs = ulongIncr env r.result.numGraphs ∧
      (s1.errorFound = 0 → ulongIncr env r.result.numGraphs ≠ 0) := by
  unfold runTest at h
  rw [hfw] at h
  simp only at h
  rw [tf_GetTestResult_split pre fw.algResults c post hmap hc] at h
  simp only at h
  split at h
  · cases h
  · rename_i r hr
    split at h
    · cases h
    · rename_i o ho
      cases h
      rw [h0] at ho
      obtain ⟨k1, k2⟩ := runTestOn_numGraphs env lib c r o ho
      exact ⟨r, o.testResult, hr, rfl, runTestOn_command env lib c r 0 o ho, k1, k2⟩

theorem runAllTests_lock {G : Type} (env : Env) (lib : GraphLib G) (g : Nat → Nat) (n k : Nat)
    (hk : k < 2 ^ env.ulongBits) :
    ∀ (cs pre : List Char) (s sm : Harness G), pre ++ cs = commands → s.errorFound = 0 →
      runAllTests env lib g n cs s = some sm → sm.errorFound = 0 →
      (∃ fw, s.testFramework = some fw ∧ fw.algResults.map (fun r => r.command) = commands ∧
        ∀ i r, fw.algResults[i]? = some r →
          r.result.numGraphs = if i < pre.length then k + 1 else k) →
      (pre ≠ [] → k + 1 < 2 ^ env.ulongBits) →
      (∃ fw, sm.testFramework = some fw ∧ fw.algResults.map (fun r => r.command) = commands ∧
        ∀ i r, fw.algResults[i]? = some r →
          r.result.numGraphs = if i < commands.length then k + 1 else k) ∧
      k + 1 < 2 ^ env.ulongBits := by
  intro cs
  induction cs with
  | nil =>
    intro pre s sm hsplit _ h _ hinv hlt
    simp only [runAllTests, Option.some.injEq] at h
    subst h
    rw [List.append_nil] at hsplit
    subst hsplit
    exact ⟨hinv, hlt (by decide)⟩
  | cons c cs ih =>
    intro pre s sm hsplit h0 h hsm hinv _
    obtain ⟨fw, hfw, hmap, hnum⟩ := hinv
    have hnd : (pre ++ c :: cs).Nodup := by rw [hsplit]; decide
    have hc : c ∉ pre := by
      intro hm
      have := List.nodup_append.mp hnd
      exact this.2.2 hm (List.mem_cons_self _ _)
    unfold runAllTests at h
    split at h
    · cases h
    · rename_i rc s1 hrun
      obtain ⟨hrc, hiff, _⟩ := runTest_outcome env lib s s1 c rc h0 hrun
      have hne : (NOTOK : Int) ≠ OK := by decide
      split at h
      · rename_i hnok
        have hrc2 : rc = NOTOK := by
          rcases hrc with h1 | h1
          · exact absurd h1 hnok
          · exact h1
        have hfr := reportFailure_frame s1 sm g n h
        rw [hfr.2] at hsm
        exact absurd hsm (hiff.mp hrc2)
      · rename_i hok
        have hok2 : rc = OK := by
          by_contra hcon
          exact hok hcon
        subst hok2
        have hef1 : s1.errorFound = 0 := by
          by_contra hcon
          exact hne (hiff.mpr hcon).symm
        obtain ⟨r, x, hr, hfw1, hxc, hxn, hnz⟩ :=
          runTest_lock_step env lib s s1 fw pre cs c OK h0 hfw (by rw [hmap, hsplit]) hc hrun
        have hrk : r.result.numGraphs = k := by
          have := hnum pre.length r hr
          simpa using this
        rw [hrk] at hxn hnz
        obtain ⟨hincr, hlt1⟩ := ulongIncr_of_ne_zero env k hk (hnz hef1)
        refine ih (pre ++ [c]) s1 sm (by rw [List.append_assoc]; exact hsplit) hef1 h hsm
          ⟨_, hfw1, ?_, ?_⟩ (fun _ => hlt1)
        · rw [map_command_set fw.algResults pre.length r x hr hxc]
          exact hmap
        · intro i r1 hr1
          by_cases hi : i = pre.length
          · subst hi
            have hlen : pre.length < fw.algResults.length := by
              by_contra hcon
              rw [List.getElem?_eq_none (by omega)] at hr
              cases hr
            rw [List.getElem?_set_self hlen] at hr1
            cases hr1
            simp [hxn, hincr]
          · rw [List.getElem?_set_ne (fun hcon => hi hcon.symm)] at hr1
            have := hnum i r1 hr1
            rw [this]
            simp only [List.length_append, List.length_singleton]
            split_ifs <;> omega

theorem outprocTest_prepared {G : Type} (env : Env) (lib : GraphLib G) (s s2 : Harness G)
    (g : Nat → Nat) (n : Nat) (h0 : s.errorFound = 0) (h : outprocTest env lib s g n = some s2)
    (h2 : s2.errorFound = 0) :
    ∃ fw0 fw1 s0,
      (s.testFramework = some fw0 ∨
        (s.testFramework = none ∧
          tf_AllocateTestFramework lib env.g_command n env.g_maxe = some fw0)) ∧
      s0.errorFound = 0 ∧ s0.testFramework = some fw1 ∧
      fw1.algResults.map testResult.counters = fw0.algResults.map testResult.counters ∧
      runTests env lib s0 g n = some s2 := by
  have hone : ¬ ((0 : Int) + 1 = 0) := by decide
  unfold outprocTest at h
  rw [if_neg (by simp [h0])] at h
  simp only at h
  have hacq : (∃ fw0, (s.testFramework = some fw0 ∨
        (s.testFramework = none ∧
          tf_AllocateTestFramework lib env.g_command n env.g_maxe = some fw0)) ∧
        acquireFramework env lib s n = { s with testFramework := some fw0 }) ∨
      acquireFramework env lib s n =
        { s with errorFound := s.errorFound + 1, out := s.out ++ [Event.unableToCreate] } := by
    unfold acquireFramework
    split
    · rename_i fw hfw
      refine Or.inl ⟨fw, Or.inl hfw, ?_⟩
      cases s
      simp only at hfw
      subst hfw
      rfl
    · rename_i hnone
      split
      · rename_i fw hfw
        exact Or.inl ⟨fw, Or.inr ⟨hnone, hfw⟩, rfl⟩
      · exact Or.inr rfl
  rcases hacq with ⟨fw0, hfw0, ha⟩ | ha
  · rw [ha] at h
    simp only [h0, ne_eq, not_true_eq_false, if_false] at h
    unfold processCandidate at h
    split at h
    · cases h
    · rename_i r0 rest hrs
      simp only at h
      split at h
      · cases h
        simp only [h0] at h2
        exact absurd h2 hone
      · have hc1 : ({ r0 with origGraph := (TransferGraph lib r0.origGraph g n).2 } :: rest).map
            testResult.counters = fw0.algResults.map testResult.counters := by
          rw [hrs]
          rfl
        unfold afterTransfer at h
        split at h
        · simp only at h
          split at h
          · cases h
          · rename_i ok rs2 hcopy
            have hc2 := copyAdjacencyLoop_counters lib _ _ _ rs2 ok hcopy
            split at h
            · exact ⟨fw0, ⟨rs2⟩,
                { testFramework := some ⟨rs2⟩, errorFound := 0,
                  unittestNumGraphs := s.unittestNumGraphs, unittestNumOKs := s.unittestNumOKs,
                  out := s.out },
                hfw0, rfl, rfl, by rw [← hc2]; exact hc1, h⟩
            · cases h
              simp only [h0] at h2
              exact absurd h2 hone
        · exact ⟨fw0, ⟨{ r0 with origGraph := (TransferGraph lib r0.origGraph g n).2 } :: rest⟩,
            { testFramework :=
                some ⟨{ r0 with origGraph := (TransferGraph lib r0.origGraph g n).2 } :: rest⟩,
              errorFound := 0,
              unittestNumGraphs := s.unittestNumGraphs, unittestNumOKs := s.unittestNumOKs,
              out := s.out },
            hfw0, rfl, rfl, hc1, h⟩
  · rw [ha] at h
    simp only [h0] at h
    rw [if_pos (by decide)] at h
    cases h
    simp only [h0] at h2
    exact absurd h2 hone

theorem lock_of_counters {G : Type} (rs rs1 : List (testResult G)) (k : Nat)
    (h : rs1.map testResult.counters = rs.map testResult.counters)
    (hmap : rs.map (fun r => r.command) = commands)
    (hnum : ∀ r ∈ rs, r.result.numGraphs = k) :
    rs1.map (fun r => r.command) = commands ∧ ∀ r ∈ rs1, r.result.numGraphs = k := by
  constructor
  · have e1 : rs1.map (fun r => r.command) = (rs1.map testResult.counters).map Prod.fst := by
      rw [List.map_map]; rfl
    have e2 : rs.map (fun r => r.command) = (rs.map testResult.counters).map Prod.fst := by
      rw [List.map_map]; rfl
    rw [e1, h, ← e2, hmap]
  · intro r1 hr1
    have hmem : r1.counters ∈ rs.map testResult.counters := by
      rw [← h]; exact List.mem_map_of_mem _ hr1
    obtain ⟨r, hr, heq⟩ := List.mem_map.mp hmem
    unfold testResult.counters at heq
    simp only [Prod.mk.injEq] at heq
    rw [← heq.2.1]
    exact hnum r hr

theorem outprocTest_lock {G : Type} (env : Env) (lib : GraphLib G) (ha : env.g_command = 'a')
    (s s2 : Harness G) (g : Nat → Nat) (n k : Nat) (h0 : s.errorFound = 0)
    (hpre : (s.testFramework = none ∧ k = 0) ∨ Lock env s k)
    (h : outprocTest env lib s g n = some s2) (h2 : s2.errorFound = 0) :
    Lock env s2 (k + 1) := by
  obtain ⟨fw0, fw1, s0, hfw0, hs0, hfw1, hcnt, hrun⟩ :=
    outprocTest_prepared env lib s s2 g n h0 h h2
  have hlock0 : fw0.algResults.map (fun r => r.command) = commands ∧
      (∀ r ∈ fw0.algResults, r.result.numGraphs = k) ∧ k < 2 ^ env.ulongBits := by
    rcases hfw0 with hsome | ⟨hnone, halloc⟩
    · rcases hpre with ⟨hn, _⟩ | ⟨fw, hfw, hm, hn, hk⟩
      · rw [hn] at hsome; cases hsome
      · rw [hfw] at hsome
        cases hsome
        exact ⟨hm, hn, hk⟩
    · have hk0 : k = 0 := by
        rcases hpre with ⟨_, hk⟩ | ⟨fw, hfw, _⟩
        · exact hk
        · rw [hfw] at hnone; cases hnone
      subst hk0
      unfold tf_AllocateTestFramework at halloc
      split at halloc
      · cases halloc
      · rename_i rs hrs
        cases halloc
        rw [if_pos ha] at hrs
        obtain ⟨hm, hfresh⟩ := tf_allocResults_fresh lib n env.g_maxe _ rs hrs
        refine ⟨hm, ?_, by positivity⟩
        intro r hr
        rw [(hfresh r hr).1]
  obtain ⟨hm1, hn1⟩ := lock_of_counters fw0.algResults fw1.algResults k hcnt hlock0.1 hlock0.2.1
  rw [runTests_eq] at hrun
  obtain ⟨sm, hsm, hprog⟩ := Option.bind_eq_some.mp hrun
  have hpf := printProgress_frame env sm s2 hprog
  have hsel : selectorsRun env = commands := by unfold selectorsRun; rw [if_pos ha]
  rw [hsel] at hsm
  have hsm0 : sm.errorFound = 0 := by rw [← hpf.2]; exact h2
  obtain ⟨⟨fw2, hfw2, hm2, hn2⟩, hlt⟩ := runAllTests_lock env lib g n k hlock0.2.2 commands [] s0 sm rfl
    hs0 hsm hsm0
    ⟨fw1, hfw1, hm1, fun i r hr => by
      rw [hn1 r (List.getElem?_mem hr)]
      simp⟩
    (fun hc => absurd rfl hc)
  refine ⟨fw2, by rw [hpf.1]; exact hfw2, hm2, ?_, hlt⟩
  intro r hr
  obtain ⟨i, hi⟩ := List.getElem?_of_mem hr
  have hlen : i < fw2.algResults.length := by
    by_contra hcon
    rw [List.getElem?_eq_none (by omega)] at hi
    cases hi
  have hlen2 : fw2.algResults.length = commands.length := by
    rw [← hm2, List.length_map]
  rw [hn2 i r hi, if_pos (by omega)]

theorem outprocTests_of_error {G : Type} (env : Env) (lib : GraphLib G) :
    ∀ (cands : List ((Nat → Nat) × Nat)) (s : Harness G), s.errorFound ≠ 0 →
      outprocTests env lib s cands = some s := by
  intro cands
  induction cands with
  | nil => intro s _; rfl
  | cons c cs ih =>
    intro s h
    unfold outprocTests
    have : outprocTest env lib s c.1 c.2 = some s := by
      unfold outprocTest
      rw [if_pos h]
    rw [this]
    exact ih s h

theorem outprocTests_lock {G : Type} (env : Env) (lib : GraphLib G) (ha : env.g_command = 'a') :
    ∀ (cands : List ((Nat → Nat) × Nat)) (s sf : Harness G) (k : Nat), s.errorFound = 0 →
      ((s.testFramework = none ∧ k = 0) ∨ Lock env s k) →
      outprocTests env lib s cands = some sf → sf.errorFound = 0 →
      (sf.testFramework = none ∧ k + cands.length = 0) ∨ Lock env sf (k + cands.length) := by
  intro cands
  induction cands with
  | nil =>
    intro s sf k _ hpre h _
    simp only [outprocTests, Option.some.injEq] at h
    subst h
    simpa using hpre
  | cons c cs ih =>
    intro s sf k h0 hpre h hf
    unfold outprocTests at h
    split at h
    · cases h
    · rename_i s1 hs1
      have he1 : s1.errorFound = 0 := by
        by_contra hcon
        rw [outprocTests_of_error env lib cs s1 hcon] at h
        cases h
        exact hcon hf
      have hl1 := outprocTest_lock env lib ha s s1 c.1 c.2 k h0 hpre hs1 he1
      have := ih s1 sf (k + 1) he1 (Or.inr hl1) h hf
      have hlen : k + (c :: cs).length = k + 1 + cs.length := by
        simp only [List.length_cons]; omega
      rw [hlen]
      exact this

/-! ## C20: the selectors advance in lockstep -/

/-- C20.  In all mode (`g_command = a`), in every state that calls of `outprocTest` for a
list of candidates reach from program start and in which `errorFound` is still 0, the
framework has one entry per selector of `commands` and the grand total `numGraphs`
of every entry is the number of candidates so far, below `2^w`; so all selectors
have the same `numGraphs`, which is the one read from `algResults[0]` for the
candidate ordinal and the progress output. -/
theorem all_mode_lockstep {G : Type} (env : Env) (lib : GraphLib G) (ha : env.g_command = 'a')
    (cands : List ((Nat → Nat) × Nat)) (s : Harness G)
    (h : outprocTests env lib (Harness.init G) cands = some s) (h0 : s.errorFound = 0) :
    (cands ≠ [] → s.testFramework ≠ none) ∧
    ∀ fw, s.testFramework = some fw →
      fw.algResults.map (fun r => r.command) = commands ∧
      (∀ r ∈ fw.algResults, r.result.numGraphs = cands.length) ∧
      (∀ r0, fw.algResults[0]? = some r0 →
        ∀ r ∈ fw.algResults, r.result.numGraphs = r0.result.numGraphs) ∧
      cands.length < 2 ^ env.ulongBits := by
  have hl := outprocTests_lock env lib ha cands (Harness.init G) s 0 rfl (Or.inl ⟨rfl, rfl⟩) h h0
  rw [Nat.zero_add] at hl
  constructor
  · intro hne hnone
    rcases hl with ⟨_, hlen⟩ | ⟨fw, hfw, _⟩
    · exact hne (List.length_eq_zero.mp hlen)
    · rw [hfw] at hnone; cases hnone
  · intro fw hfw
    rcases hl with ⟨hnone, _⟩ | ⟨fw1, hfw1, hm, hn, hk⟩
    · rw [hnone] at hfw; cases hfw
    · rw [hfw1] at hfw
      cases hfw
      refine ⟨hm, hn, ?_, hk⟩
      intro r0 hr0 r hr
      rw [hn r hr, hn r0 (List.getElem?_mem hr0)]

theorem all_mode_lockstep_witness :
    ∃ (s : Harness WorkingGraph) (fw : testResultFramework WorkingGraph),
      outprocTests allEnv exampleLib (Harness.init WorkingGraph) [(triangle, 3), (oneEdge, 3)] =
        some s ∧
      s.errorFound = 0 ∧ s.testFramework = some fw ∧
      fw.algResults.map (fun r => (r.command, r.result.numGraphs)) =
        [('p', 2), ('d', 2), ('o', 2), ('2', 2), ('3', 2), ('4', 2), ('c', 2)] ∧
      fw.algResults.map (fun r => r.command) = commands ∧
      (∀ r ∈ fw.algResults, r.result.numGraphs = [(triangle, 3), (oneEdge, 3)].length) ∧
      (∀ r0, fw.algResults[0]? = some r0 →
        ∀ r ∈ fw.algResults, r.result.numGraphs = r0.result.numGraphs) ∧
      [(triangle, 3), (oneEdge, 3)].length < 2 ^ allEnv.ulongBits := by
  have hev : ∃ (s : Harness WorkingGraph) (fw : testResultFramework WorkingGraph),
      outprocTests allEnv exampleLib (Harness.init WorkingGraph) [(triangle, 3), (oneEdge, 3)] =
        some s ∧
      s.errorFound = 0 ∧ s.testFramework = some fw ∧
      fw.algResults.map (fun r => (r.command, r.result.numGraphs)) =
        [('p', 2), ('d', 2), ('o', 2), ('2', 2), ('3', 2), ('4', 2), ('c', 2)] :=
    ⟨_, _, rfl, rfl, rfl, rfl⟩
  obtain ⟨s, fw, hs, he, hfw, hl⟩ := hev
  exact ⟨s, fw, hs, he, hfw, hl,
    (all_mode_lockstep allEnv exampleLib rfl [(triangle, 3), (oneEdge, 3)] s hs he).2 fw hfw⟩

end Outproc
